import Mathlib

/-!
# SQL statement builder (`internal/client/driver/mysql/sql/builder.go`)

A shallow embedding of the builder package and a verification development over it.

Conventions of the embedding.

* A Go `string` is a finite byte sequence (`GoString`); source literals are written `lit "..."`.
* A Go function returning `(result, args, err)` is a function into the tuple of its results,
  `err : Option Error` with `none` for Go's `nil` error.
* A function that indexes a slice or dereferences a pointer returns `Option`: `none` is a
  run-time panic (index out of range, nil pointer dereference).
* `strconv.Unquote` (Go standard library) is a parameter `Unquote` of every function that
  reaches `EscapeName`; the properties of `EscapeName` itself, and those that count the `?` of
  an escaped name, are stated for the definition `strconv.Unquote` that follows the library's
  source.
-/

namespace Sql

/-! ## Go values -/

/-- A Go string: a finite sequence of bytes. -/
abbrev GoString := List UInt8

/-- The bytes (UTF-8) of a source literal. -/
def lit (s : String) : GoString := s.toUTF8.data.toList

/-- A Go `error`, identified with its message. -/
abbrev Error := String

/-- A Go `interface{}` value as carried by a row image: the nil interface, an integer, a string,
or a non-nil `*interface{}` (the address of a cell and the value stored in it). -/
inductive Value where
  | nil
  | int (n : Int)
  | str (s : GoString)
  | ptr (addr : Nat) (target : Value)
  deriving DecidableEq

/-- An element of a `[]*interface{}` argument vector: `none` is the nil pointer,
`some (addr, v)` the pointer at address `addr` to a cell holding `v`. -/
abbrev ArgPtr := Option (Nat × Value)

/-- The `%v` verb of `fmt.Sprintf` on a `Value`. -/
def Sprint : Value → GoString
  | .nil => lit "<nil>"
  | .int n => lit (toString n)
  | .str s => s
  | .ptr addr _ => lit "0x" ++ lit (String.mk (Nat.toDigits 16 addr))

/-- Go `strings.Join`. -/
def Join : List GoString → GoString → GoString
  | [], _ => []
  | [a], _ => a
  | a :: b :: rest, sep => a ++ sep ++ Join (b :: rest) sep

/-- Go `strings.HasPrefix`. -/
def HasPrefix (s p : GoString) : Bool := p.isPrefixOf s

/-- How a loop body leaves: by a `return` of the enclosing function, or by running to the end
of the loop with the loop's variables. -/
inductive Step (ρ σ : Type) where
  | returned (r : ρ)
  | done (s : σ)

/-! ## Comparison signs -/

def LessThanComparisonSign : GoString := lit "<"
def LessThanOrEqualsComparisonSign : GoString := lit "<="
def EqualsComparisonSign : GoString := lit "="
def IsEqualsComparisonSign : GoString := lit "is"
def GreaterThanOrEqualsComparisonSign : GoString := lit ">="
def GreaterThanComparisonSign : GoString := lit ">"
def NotEqualsComparisonSign : GoString := lit "!="

/-! ## Escaping -/

/-- `EscapeName` (builder.go:27): unquote when `strconv.Unquote` accepts the name, then wrap
in backticks. -/
def EscapeName (Unquote : GoString → Option GoString) (name : GoString) : GoString :=
  let name := match Unquote name with
    | some unquoted => unquoted
    | none => name
  lit "`" ++ name ++ lit "`"

/-- The two-character escape of `EscapeValue`'s switch (builder.go:39-56) for a rune that is one
of the seven special characters; `none` is the `default: continue` arm. -/
def escapeOf (c : Nat) : Option GoString :=
  if c = 0 then some (lit "\\0")
  else if c = 10 then some (lit "\\n")
  else if c = 13 then some (lit "\\r")
  else if c = 92 then some (lit "\\\\")
  else if c = 39 then some (lit "\\\x27")
  else if c = 34 then some (lit "\\\"")
  else if c = 26 then some (lit "\\Z")
  else none

/-- Code point and width in bytes of the rune that Go's `range` over a string decodes at the
head of `s` (`s` non-empty): a well-formed UTF-8 sequence gives its code point and length,
anything else gives U+FFFD with width 1. -/
def decodeRune (s : GoString) : Nat × Nat :=
  match s with
  | [] => (0xFFFD, 0)
  | b0 :: t =>
    let c0 := b0.toNat
    if c0 < 0x80 then (c0, 1)
    else if c0 < 0xC2 then (0xFFFD, 1)
    else if c0 < 0xE0 then
      match t with
      | b1 :: _ =>
        if 0x80 ≤ b1.toNat ∧ b1.toNat ≤ 0xBF then ((c0 % 0x20) * 0x40 + b1.toNat % 0x40, 2)
        else (0xFFFD, 1)
      | _ => (0xFFFD, 1)
    else if c0 < 0xF0 then
      match t with
      | b1 :: b2 :: _ =>
        let lo := if c0 = 0xE0 then 0xA0 else 0x80
        let hi := if c0 = 0xED then 0x9F else 0xBF
        if lo ≤ b1.toNat ∧ b1.toNat ≤ hi ∧ 0x80 ≤ b2.toNat ∧ b2.toNat ≤ 0xBF then
          ((c0 % 0x10) * 0x1000 + (b1.toNat % 0x40) * 0x40 + b2.toNat % 0x40, 3)
        else (0xFFFD, 1)
      | _ => (0xFFFD, 1)
    else if c0 < 0xF5 then
      match t with
      | b1 :: b2 :: b3 :: _ =>
        let lo := if c0 = 0xF0 then 0x90 else 0x80
        let hi := if c0 = 0xF4 then 0x8F else 0xBF
        if lo ≤ b1.toNat ∧ b1.toNat ≤ hi ∧ 0x80 ≤ b2.toNat ∧ b2.toNat ≤ 0xBF
            ∧ 0x80 ≤ b3.toNat ∧ b3.toNat ≤ 0xBF then
          ((c0 % 0x08) * 0x40000 + (b1.toNat % 0x40) * 0x1000 + (b2.toNat % 0x40) * 0x40
            + b3.toNat % 0x40, 4)
        else (0xFFFD, 1)
      | _ => (0xFFFD, 1)
    else (0xFFFD, 1)

/-- The loop of `EscapeValue` (builder.go:38-60) over `colValue`, at byte offset `i`, with the
buffer `colBuffer` and the offset `last` of the first byte not yet copied. `fuel` bounds the
number of runes still to read. -/
def EscapeValue.loop (colValue : GoString) : Nat → Nat → Nat → GoString → GoString
  | 0, _, last, colBuffer => colBuffer ++ colValue.drop last
  | fuel + 1, i, last, colBuffer =>
    if i < colValue.length then
      let (c, size) := decodeRune (colValue.drop i)
      match escapeOf c with
      | none => EscapeValue.loop colValue fuel (i + size) last colBuffer
      | some esc =>
        EscapeValue.loop colValue fuel (i + size) (i + 1)
          (colBuffer ++ (colValue.drop last).take (i - last) ++ esc)
    else colBuffer ++ colValue.drop last

/-- `EscapeValue` (builder.go:34). Every rune is at least one byte wide, so `len(colValue)`
iterations exhaust the string. -/
def EscapeValue (colValue : GoString) : GoString :=
  EscapeValue.loop colValue colValue.length 0 0 []

/-! ## Comparison fragments -/

/-- `buildPreparedValues` (builder.go:79). -/
def buildPreparedValues (length : Nat) : List GoString := List.replicate length (lit "?")

/-- `duplicateNames` (builder.go:87). -/
def duplicateNames (names : List GoString) : List GoString := names

/-- `BuildValueComparison` (builder.go:93). -/
def BuildValueComparison (Unquote : GoString → Option GoString)
    (column value comparisonSign : GoString) : GoString × Option Error :=
  if column = [] then ([], some "Empty column in GetValueComparison")
  else if value = [] then ([], some "Empty value in GetValueComparison")
  else
    (lit "(" ++ EscapeName Unquote column ++ lit " " ++ comparisonSign ++ lit " " ++ value
      ++ lit ")", none)

/-- The loop of `BuildEqualsComparison` (builder.go:112-119) over the remaining columns, at
index `i`, with the fragments collected so far. -/
def BuildEqualsComparison.loop (Unquote : GoString → Option GoString) (values : List GoString) :
    List GoString → Nat → List GoString →
      Option (Step (GoString × Option Error) (List GoString))
  | [], _, comparisons => some (.done comparisons)
  | column :: rest, i, comparisons =>
    match values[i]? with
    | none => none
    | some value =>
      match BuildValueComparison Unquote column value EqualsComparisonSign with
      | (_, some err) => some (.returned ([], some err))
      | (comparison, none) =>
        BuildEqualsComparison.loop Unquote values rest (i + 1) (comparisons ++ [comparison])

/-- `BuildEqualsComparison` (builder.go:104). -/
def BuildEqualsComparison (Unquote : GoString → Option GoString)
    (columns values : List GoString) : Option (GoString × Option Error) :=
  if columns.length = 0 then some ([], some "Got 0 columns in GetEqualsComparison")
  else if columns.length ≠ values.length then
    some ([], some ("Got " ++ toString columns.length ++ " columns but "
      ++ toString values.length ++ " values in GetEqualsComparison"))
  else
    match BuildEqualsComparison.loop Unquote values columns 0 [] with
    | none => none
    | some (.returned r) => some r
    | some (.done comparisons) =>
      some (lit "(" ++ Join comparisons (lit " and ") ++ lit ")", none)

/-- `BuildEqualsPreparedComparison` (builder.go:125). -/
def BuildEqualsPreparedComparison (Unquote : GoString → Option GoString)
    (columns : List GoString) : Option (GoString × Option Error) :=
  BuildEqualsComparison Unquote columns (buildPreparedValues columns.length)

/-- The loop of `BuildRangeComparison` (builder.go:168-188) over the remaining columns, at index
`i`, with `comparisons` and `explodedArgs` as collected so far. `columns[0:i]`, `values[0:i]`
and `args[0:i]` are taken after `values[i]` was read, so they are within bounds. -/
def BuildRangeComparison.loop (Unquote : GoString → Option GoString)
    (columns values : List GoString) (args : List Value) (comparisonSign : GoString) :
    List GoString → Nat → List GoString → List Value →
      Option (Step (GoString × List Value × Option Error) (List GoString × List Value))
  | [], _, comparisons, explodedArgs => some (.done (comparisons, explodedArgs))
  | column :: rest, i, comparisons, explodedArgs =>
    match values[i]? with
    | none => none
    | some value =>
      match BuildValueComparison Unquote column value comparisonSign with
      | (_, some err) => some (.returned ([], explodedArgs, some err))
      | (rangeComparison, none) =>
        if (columns.take i).length > 0 then
          match BuildEqualsComparison Unquote (columns.take i) (values.take i) with
          | none => none
          | some (_, some err) => some (.returned ([], explodedArgs, some err))
          | some (equalitiesComparison, none) =>
            match args[i]? with
            | none => none
            | some arg =>
              BuildRangeComparison.loop Unquote columns values args comparisonSign rest (i + 1)
                (comparisons ++
                  [lit "(" ++ equalitiesComparison ++ lit " AND " ++ rangeComparison ++ lit ")"])
                (explodedArgs ++ args.take i ++ [arg])
        else
          match args[i]? with
          | none => none
          | some arg =>
            BuildRangeComparison.loop Unquote columns values args comparisonSign rest (i + 1)
              (comparisons ++ [rangeComparison]) (explodedArgs ++ [arg])

/-- The sign the loop of `BuildRangeComparison` compares with, and `includeEquals`
(builder.go:157-165). -/
def rangeSign (comparisonSign : GoString) : GoString × Bool :=
  let includeEquals := false
  let (comparisonSign, includeEquals) :=
    if comparisonSign = LessThanOrEqualsComparisonSign then (LessThanComparisonSign, true)
    else (comparisonSign, includeEquals)
  if comparisonSign = GreaterThanOrEqualsComparisonSign then (GreaterThanComparisonSign, true)
  else (comparisonSign, includeEquals)

/-- `BuildRangeComparison` (builder.go:147). -/
def BuildRangeComparison (Unquote : GoString → Option GoString)
    (columns values : List GoString) (args : List Value) (comparisonSign : GoString) :
    Option (GoString × List Value × Option Error) :=
  if columns.length = 0 then some ([], [], some "Got 0 columns in GetRangeComparison")
  else if columns.length ≠ values.length then
    some ([], [], some ("Got " ++ toString columns.length ++ " columns but "
      ++ toString values.length ++ " values in GetEqualsComparison"))
  else if columns.length ≠ args.length then
    some ([], [], some ("Got " ++ toString columns.length ++ " columns but "
      ++ toString args.length ++ " args in GetEqualsComparison"))
  else
    match BuildRangeComparison.loop Unquote columns values args (rangeSign comparisonSign).1
        columns 0 [] [] with
    | none => none
    | some (.returned r) => some r
    | some (.done (comparisons, explodedArgs)) =>
      if (rangeSign comparisonSign).2 then
        match BuildEqualsComparison Unquote columns values with
        | none => none
        | some (_, some _) => some ([], explodedArgs, none)
        | some (comparison, none) =>
          some (lit "(" ++ Join (comparisons ++ [comparison]) (lit " or ") ++ lit ")",
            explodedArgs ++ args, none)
      else some (lit "(" ++ Join comparisons (lit " or ") ++ lit ")", explodedArgs, none)

/-! ## Column lists

The package `udup/internal/config/mysql` (imported as `umconf`) declares `Column` and
`ColumnList`. -/

/-- Modelled from the spec: the timezone-conversion directive of `umconf.Column` (the package
is not among the sources): the target timezone text. -/
structure TimezoneConversion where
  ToTimezone : GoString

/-- Modelled from the spec: `umconf.Column`: name, SQL type name, optional timezone-conversion
directive (`none` for Go's nil), and the per-column argument-conversion function
`ConvertArg`. -/
structure Column where
  Name : GoString
  ColumnType : GoString
  TimezoneConversion : Option TimezoneConversion
  ConvertArg : Value → Value

/-- Modelled from the spec: `umconf.ColumnList`: the ordered sequence of columns (physical table
order) with the name→ordinal lookup `Ordinals`, a Go `map[string]int` (`none`: the key is
absent). -/
structure ColumnList where
  columns : List Column
  Ordinals : GoString → Option Int

/-- Modelled from the spec: `ColumnList.Len`, the count of columns. -/
def ColumnList.Len (this : ColumnList) : Nat := this.columns.length

/-- Modelled from the spec: `ColumnList.Names`, the full ordered name sequence. -/
def ColumnList.Names (this : ColumnList) : List GoString := this.columns.map (·.Name)

/-- Modelled from the spec: `ColumnList.IsSubsetOf`, the subset test against another column
list: every column of `this` is, by name, a column of `other`. -/
def ColumnList.IsSubsetOf (this other : ColumnList) : Bool :=
  this.columns.all fun column => other.Names.contains column.Name

/-- The Go expression `tableColumns.Ordinals[name]`: the zero value for an absent key. -/
def ColumnList.ordinal (this : ColumnList) (name : GoString) : Int :=
  (this.Ordinals name).getD 0

set_option linter.dupNamespace false in
/-- Modelled from the spec: the method `ColumnList.ColumnList`, the ordered column
enumeration. -/
def ColumnList.ColumnList (this : Sql.ColumnList) : List Column := this.columns

/-- The Go expression `args[tableOrdinal]`: `none` when the index is out of range. -/
def index {α : Type} (args : List α) (tableOrdinal : Int) : Option α :=
  if tableOrdinal < 0 then none else args[tableOrdinal.toNat]?

/-- The Go expression `*args[tableOrdinal]`: `none` when the index is out of range or the
pointer is nil. -/
def deref (args : List ArgPtr) (tableOrdinal : Int) : Option (Nat × Value) :=
  (index args tableOrdinal).join

/-! ## Set clause and prepared values -/

/-- The token of one column in `buildColumnsPreparedValues` (builder.go:68-73). -/
def preparedValueToken (column : Column) : GoString :=
  match column.TimezoneConversion with
  | some tz => lit "convert_tz(?, \x27" ++ tz.ToTimezone ++ lit "\x27, \x27" ++ lit "+00:00"
      ++ lit "\x27)"
  | none => lit "?"

/-- `buildColumnsPreparedValues` (builder.go:65). -/
def buildColumnsPreparedValues (columns : ColumnList) : List GoString :=
  columns.ColumnList.map preparedValueToken

/-- The token of one column in `BuildSetPreparedClause` (builder.go:136-141). -/
def setToken (Unquote : GoString → Option GoString) (column : Column) : GoString :=
  match column.TimezoneConversion with
  | some tz => EscapeName Unquote column.Name ++ lit "=convert_tz(?, \x27" ++ tz.ToTimezone
      ++ lit "\x27, \x27" ++ lit "+00:00" ++ lit "\x27)"
  | none => EscapeName Unquote column.Name ++ lit "=?"

/-- `BuildSetPreparedClause` (builder.go:130). -/
def BuildSetPreparedClause (Unquote : GoString → Option GoString) (columns : ColumnList) :
    GoString × Option Error :=
  if columns.Len = 0 then ([], some "Got 0 columns in BuildSetPreparedClause")
  else (Join (columns.ColumnList.map (setToken Unquote)) (lit ", "), none)

/-! ## DML statements -/

/-- The loop that builds the `where` comparisons, written out twice in the source: in
`BuildDMLDeleteQuery` (builder.go:208-234) and in `BuildDMLUpdateQuery` (builder.go:322-348).
It runs over the remaining columns of `tableColumns` with `comparisons` and `uniqueKeyArgs` as
collected so far; an early return carries `uniqueKeyArgs` and the error. -/
def whereLoop (Unquote : GoString → Option GoString) (tableColumns : ColumnList)
    (args : List ArgPtr) :
    List Column → List GoString → List Value →
      Option (Step (List Value × Error) (List GoString × List Value))
  | [], comparisons, uniqueKeyArgs => some (.done (comparisons, uniqueKeyArgs))
  | column :: rest, comparisons, uniqueKeyArgs =>
    let tableOrdinal := tableColumns.ordinal column.Name
    match deref args tableOrdinal with
    | none => none
    | some (_, Value.nil) =>
      match BuildValueComparison Unquote column.Name (lit "NULL") IsEqualsComparisonSign with
      | (_, some err) => some (.returned (uniqueKeyArgs, err))
      | (comparison, none) =>
        whereLoop Unquote tableColumns args rest (comparisons ++ [comparison]) uniqueKeyArgs
    | some (_, v) =>
      if HasPrefix column.ColumnType (lit "binary") then
        let arg := column.ConvertArg v
        match BuildValueComparison Unquote column.Name
            (lit "cast(\x27" ++ Sprint arg ++ lit "\x27 as " ++ column.ColumnType ++ lit ")")
            EqualsComparisonSign with
        | (_, some err) => some (.returned (uniqueKeyArgs, err))
        | (comparison, none) =>
          whereLoop Unquote tableColumns args rest (comparisons ++ [comparison]) uniqueKeyArgs
      else
        let arg := column.ConvertArg v
        let uniqueKeyArgs := uniqueKeyArgs ++ [arg]
        match BuildValueComparison Unquote column.Name (lit "?") EqualsComparisonSign with
        | (_, some err) => some (.returned (uniqueKeyArgs, err))
        | (comparison, none) =>
          whereLoop Unquote tableColumns args rest (comparisons ++ [comparison]) uniqueKeyArgs

/-- The statement text of `BuildDMLDeleteQuery` (builder.go:240-248). -/
def deleteStatement (databaseName tableName whereClause : GoString) : GoString :=
  lit "\n\t\t\tdelete\n\t\t\t\tfrom\n\t\t\t\t\t" ++ databaseName ++ lit "." ++ tableName
    ++ lit "\n\t\t\t\twhere\n\t\t\t\t\t" ++ whereClause ++ lit "\n\t\t"

/-- `BuildDMLDeleteQuery` (builder.go:203). -/
def BuildDMLDeleteQuery (Unquote : GoString → Option GoString)
    (databaseName tableName : GoString) (tableColumns : ColumnList) (args : List ArgPtr) :
    Option (GoString × List Value × Option Error) :=
  if args.length ≠ tableColumns.Len then
    some ([], [], some "args count differs from table column count in BuildDMLDeleteQuery")
  else
    match whereLoop Unquote tableColumns args tableColumns.ColumnList [] [] with
    | none => none
    | some (.returned (uniqueKeyArgs, err)) => some ([], uniqueKeyArgs, some err)
    | some (.done (comparisons, uniqueKeyArgs)) =>
      let databaseName := EscapeName Unquote databaseName
      let tableName := EscapeName Unquote tableName
      some (deleteStatement databaseName tableName
        (lit "(" ++ Join comparisons (lit " and ") ++ lit ")"), uniqueKeyArgs, none)

/-- The loop of `BuildDMLInsertQuery` that collects `sharedArgs` (builder.go:266-274). -/
def BuildDMLInsertQuery.loop (tableColumns : ColumnList) (args : List ArgPtr) :
    List Column → List Value → Option (List Value)
  | [], sharedArgs => some sharedArgs
  | column :: rest, sharedArgs =>
    let tableOrdinal := tableColumns.ordinal column.Name
    match deref args tableOrdinal with
    | none => none
    | some (_, Value.nil) =>
      BuildDMLInsertQuery.loop tableColumns args rest (sharedArgs ++ [Value.nil])
    | some (_, v) =>
      let arg := column.ConvertArg v
      BuildDMLInsertQuery.loop tableColumns args rest (sharedArgs ++ [arg])

/-- The statement text of `BuildDMLInsertQuery` (builder.go:282-291). -/
def insertStatement (databaseName tableName names values : GoString) : GoString :=
  lit "\n\t\t\treplace into\n\t\t\t\t" ++ databaseName ++ lit "." ++ tableName
    ++ lit "\n\t\t\t\t\t(" ++ names ++ lit ")\n\t\t\t\tvalues\n\t\t\t\t\t(" ++ values
    ++ lit ")\n\t\t"

set_option linter.unusedVariables false in
/-- `BuildDMLInsertQuery` (builder.go:252). -/
def BuildDMLInsertQuery (Unquote : GoString → Option GoString)
    (databaseName tableName : GoString)
    (tableColumns sharedColumns mappedSharedColumns : ColumnList) (args : List ArgPtr) :
    Option (GoString × List Value × Option Error) :=
  if args.length ≠ tableColumns.Len then
    some ([], [], some "args count differs from table column count in BuildDMLInsertQuery")
  else if !sharedColumns.IsSubsetOf tableColumns then
    some ([], [],
      some "shared columns is not a subset of table columns in BuildDMLInsertQuery")
  else if sharedColumns.Len = 0 then
    some ([], [], some "No shared columns found in BuildDMLInsertQuery")
  else
    let databaseName := EscapeName Unquote databaseName
    let tableName := EscapeName Unquote tableName
    match BuildDMLInsertQuery.loop tableColumns args tableColumns.ColumnList [] with
    | none => none
    | some sharedArgs =>
      let mappedSharedColumnNames :=
        (duplicateNames tableColumns.Names).map (EscapeName Unquote)
      let preparedValues := buildColumnsPreparedValues tableColumns
      some (insertStatement databaseName tableName
        (Join mappedSharedColumnNames (lit ", ")) (Join preparedValues (lit ", ")),
        sharedArgs, none)

/-- The loop of `BuildDMLUpdateQuery` that collects `sharedArgs` (builder.go:311-319). The
pointer `valueArgs[tableOrdinal]` itself, not the value it points to, is appended or handed to
`ConvertArg`. -/
def BuildDMLUpdateQuery.loop (tableColumns : ColumnList) (valueArgs : List ArgPtr) :
    List Column → List Value → Option (List Value)
  | [], sharedArgs => some sharedArgs
  | column :: rest, sharedArgs =>
    let tableOrdinal := tableColumns.ordinal column.Name
    match deref valueArgs tableOrdinal with
    | none => none
    | some (addr, v) =>
      if v = Value.nil ∨ v = Value.str (lit "NULL") then
        BuildDMLUpdateQuery.loop tableColumns valueArgs rest
          (sharedArgs ++ [Value.ptr addr v])
      else
        let arg := column.ConvertArg (Value.ptr addr v)
        BuildDMLUpdateQuery.loop tableColumns valueArgs rest (sharedArgs ++ [arg])

/-- The statement text of `BuildDMLUpdateQuery` (builder.go:352-363). -/
def updateStatement (databaseName tableName setClause whereClause : GoString) : GoString :=
  lit "\n \t\t\tupdate\n \t\t\t\t\t" ++ databaseName ++ lit "." ++ tableName
    ++ lit "\n\t\t\t\tset\n\t\t\t\t\t" ++ setClause ++ lit "\n\t\t\t\twhere\n \t\t\t\t\t"
    ++ whereClause ++ lit "\n \t\t\t\tlimit 1\n \t\t"

set_option linter.unusedVariables false in
/-- `BuildDMLUpdateQuery` (builder.go:295). The error of `BuildSetPreparedClause` is assigned
to `err` and not read again: the function returns `nil` in its place. -/
def BuildDMLUpdateQuery (Unquote : GoString → Option GoString)
    (databaseName tableName : GoString)
    (tableColumns sharedColumns mappedSharedColumns uniqueKeyColumns : ColumnList)
    (valueArgs whereArgs : List ArgPtr) :
    Option (GoString × List Value × List Value × Option Error) :=
  if valueArgs.length ≠ tableColumns.Len then
    some ([], [], [],
      some "value args count differs from table column count in BuildDMLUpdateQuery")
  else if whereArgs.length ≠ tableColumns.Len then
    some ([], [], [],
      some "where args count differs from table column count in BuildDMLUpdateQuery")
  else if !sharedColumns.IsSubsetOf tableColumns then
    some ([], [], [],
      some "shared columns is not a subset of table columns in BuildDMLUpdateQuery")
  else if sharedColumns.Len = 0 then
    some ([], [], [], some "No shared columns found in BuildDMLUpdateQuery")
  else
    let databaseName := EscapeName Unquote databaseName
    let tableName := EscapeName Unquote tableName
    match BuildDMLUpdateQuery.loop tableColumns valueArgs tableColumns.ColumnList [] with
    | none => none
    | some sharedArgs =>
      match whereLoop Unquote tableColumns whereArgs tableColumns.ColumnList [] [] with
      | none => none
      | some (.returned (uniqueKeyArgs, err)) => some ([], sharedArgs, uniqueKeyArgs, some err)
      | some (.done (comparisons, uniqueKeyArgs)) =>
        let (setClause, _) := BuildSetPreparedClause Unquote mappedSharedColumns
        some (updateStatement databaseName tableName setClause
          (lit "(" ++ Join comparisons (lit " and ") ++ lit ")"),
          sharedArgs, uniqueKeyArgs, none)

/-! ## Closed forms and readings used by the statements -/

/-- An `Unquote` that rejects its input, as `strconv.Unquote` rejects every text that is not
wrapped in a pair of quote characters; the concrete instances below use unquoted names. -/
def unquoteNone : GoString → Option GoString := fun _ => none

/-- The text `BuildEqualsComparison` returns when it succeeds: the per-column equality
fragments joined by " and ", in parentheses. -/
def equalsText (U : GoString → Option GoString) (columns values : List GoString) : GoString :=
  lit "(" ++ Join (List.zipWith
    (fun c v => (BuildValueComparison U c v EqualsComparisonSign).1) columns values)
    (lit " and ") ++ lit ")"

/-- The OR-term the loop of `BuildRangeComparison` appends at index `i`, comparing with `s`. -/
def rangeTermText (U : GoString → Option GoString) (columns values : List GoString)
    (s : GoString) (i : Nat) : GoString :=
  if i = 0 then (BuildValueComparison U (columns.getD i []) (values.getD i []) s).1
  else lit "(" ++ equalsText U (columns.take i) (values.take i) ++ lit " AND "
    ++ (BuildValueComparison U (columns.getD i []) (values.getD i []) s).1 ++ lit ")"

/-- The strict form of a range sign: `<` for `<` and `<=`, `>` for `>` and `>=`. -/
def strictSign (sign : GoString) : GoString :=
  if sign = LessThanComparisonSign ∨ sign = LessThanOrEqualsComparisonSign then
    LessThanComparisonSign
  else GreaterThanComparisonSign

/-- One fragment `(columns[col] sign values[col])` of a range comparison, by the index of its
column. -/
structure Cmp where
  col : Nat
  sign : GoString

/-- An OR-term of a range comparison, by its structure: a single fragment (the first loop
iteration), the fragments `equalities AND range` of a later iteration, or the all-columns-equal
term appended when the sign includes equality. -/
inductive RangeTerm where
  | single (c : Cmp)
  | guarded (eqs : List Cmp) (c : Cmp)
  | equals (eqs : List Cmp)

/-- The text of a fragment, as `BuildValueComparison` writes it. -/
def Cmp.render (U : GoString → Option GoString) (columns values : List GoString) (c : Cmp) :
    GoString :=
  (BuildValueComparison U (columns.getD c.col []) (values.getD c.col []) c.sign).1

/-- The text of an OR-term, as `BuildEqualsComparison` and the loop of `BuildRangeComparison`
write it. -/
def RangeTerm.render (U : GoString → Option GoString) (columns values : List GoString) :
    RangeTerm → GoString
  | .single c => c.render U columns values
  | .guarded eqs c =>
    lit "(" ++ (lit "(" ++ Join (eqs.map (Cmp.render U columns values)) (lit " and ") ++ lit ")")
      ++ lit " AND " ++ c.render U columns values ++ lit ")"
  | .equals eqs => lit "(" ++ Join (eqs.map (Cmp.render U columns values)) (lit " and ") ++ lit ")"

/-- The OR-terms `BuildRangeComparison` builds for `n` columns (builder.go:157-197): one per
loop iteration, and the equality term when `includeEquals` is set. -/
def rangeTerms (n : Nat) (comparisonSign : GoString) : List RangeTerm :=
  (List.range n).map (fun i =>
      if i = 0 then RangeTerm.single ⟨i, (rangeSign comparisonSign).1⟩
      else RangeTerm.guarded ((List.range i).map fun j => ⟨j, EqualsComparisonSign⟩)
        ⟨i, (rangeSign comparisonSign).1⟩)
    ++ (if (rangeSign comparisonSign).2 then
      [RangeTerm.equals ((List.range n).map fun j => ⟨j, EqualsComparisonSign⟩)] else [])

/-- The meaning of a comparison sign between two values of a linear order. -/
def signHolds {α : Type} [LinearOrder α] (sign : GoString) (a b : α) : Bool :=
  if sign = LessThanComparisonSign then decide (a < b)
  else if sign = LessThanOrEqualsComparisonSign then decide (a ≤ b)
  else if sign = EqualsComparisonSign then decide (a = b)
  else if sign = GreaterThanOrEqualsComparisonSign then decide (b ≤ a)
  else if sign = GreaterThanComparisonSign then decide (b < a)
  else if sign = NotEqualsComparisonSign then decide (a ≠ b)
  else false

/-- A fragment read on a row `x` against the cursor `v`: the row's value in the fragment's
column stands in the fragment's relation to the cursor value of that column. -/
def Cmp.holds {α : Type} [LinearOrder α] (x v : List α) (c : Cmp) : Bool :=
  match x[c.col]?, v[c.col]? with
  | some a, some b => signHolds c.sign a b
  | _, _ => false

/-- An OR-term read on a row `x` against the cursor `v`. -/
def RangeTerm.holds {α : Type} [LinearOrder α] (x v : List α) : RangeTerm → Bool
  | .single c => c.holds x v
  | .guarded eqs c => eqs.all (Cmp.holds x v) && c.holds x v
  | .equals eqs => eqs.all (Cmp.holds x v)

/-- The relation a range sign asks for between the row tuple `x` and the cursor tuple `v`
under lexicographic order. -/
def lexHolds {α : Type} [LinearOrder α] (sign : GoString) (x v : List α) : Prop :=
  if sign = LessThanComparisonSign then List.Lex (· < ·) x v
  else if sign = LessThanOrEqualsComparisonSign then x = v ∨ List.Lex (· < ·) x v
  else if sign = GreaterThanComparisonSign then List.Lex (· < ·) v x
  else if sign = GreaterThanOrEqualsComparisonSign then x = v ∨ List.Lex (· < ·) v x
  else False

/-- The value of `column` in a row argument vector, `*args[tableColumns.Ordinals[column.Name]]`;
`none` when that expression panics. -/
def rowValue (tableColumns : ColumnList) (args : List ArgPtr) (column : Column) :
    Option Value :=
  (deref args (tableColumns.ordinal column.Name)).map (·.2)

/-- The value text of the inline literal the where loop writes for a binary column
(builder.go:219, 333). -/
def castLiteral (column : Column) (v : Value) : GoString :=
  lit "cast(\x27" ++ Sprint (column.ConvertArg v) ++ lit "\x27 as " ++ column.ColumnType
    ++ lit ")"

/-- The comparison the where loop appends for `column` when its row value is `v`. -/
def wherePredicate (U : GoString → Option GoString) (column : Column) (v : Value) : GoString :=
  if v = Value.nil then
    (BuildValueComparison U column.Name (lit "NULL") IsEqualsComparisonSign).1
  else if HasPrefix column.ColumnType (lit "binary") then
    (BuildValueComparison U column.Name (castLiteral column v) EqualsComparisonSign).1
  else (BuildValueComparison U column.Name (lit "?") EqualsComparisonSign).1

/-- What the where loop appends to `uniqueKeyArgs` for `column` when its row value is `v`. -/
def whereArg (column : Column) (v : Value) : List Value :=
  if v = Value.nil then []
  else if HasPrefix column.ColumnType (lit "binary") then []
  else [column.ConvertArg v]

/-- Modelled from the spec: the column list of the given columns, the ordinal of a name being
the position of the first column of that name. -/
def newColumnList (columns : List Column) : ColumnList :=
  ⟨columns, fun name => ((columns.map (·.Name)).indexOf? name).map Int.ofNat⟩

/-- A column without timezone conversion whose `ConvertArg` returns its argument. -/
def plainColumn (name type : String) : Column := ⟨lit name, lit type, none, fun v => v⟩

/-- A column with the timezone conversion to `+08:00`. -/
def timezoneColumn (name type : String) : Column :=
  ⟨lit name, lit type, some ⟨lit "+08:00"⟩, fun v => v⟩

/-- The number of `?` bytes in a text. -/
def questionMarks (text : GoString) : Nat := text.count 63

/-- The table of the specification's examples: columns `id`, `name` and the binary column
`bin_data`. -/
def sampleColumns : ColumnList :=
  newColumnList [plainColumn "id" "int", plainColumn "name" "varchar(8)",
    plainColumn "bin_data" "binary(4)"]

/-- The columns `id` and `name` of `sampleColumns`: a strict subset of its columns. -/
def sampleShared : ColumnList :=
  newColumnList [plainColumn "id" "int", plainColumn "name" "varchar(8)"]

/-- The column `id` of `sampleColumns` as a unique key. -/
def sampleKey : ColumnList := newColumnList [plainColumn "id" "int"]

/-- The row image `[1, "x", nil]`. -/
def sampleRow : List ArgPtr := [some (1, .int 1), some (2, .str (lit "x")), some (3, .nil)]

/-- The row image `[1, nil, "a'b"]`, whose binary value holds a single quote. -/
def sampleQuoteRow : List ArgPtr :=
  [some (4, .int 1), some (5, .nil), some (6, .str (lit "a\x27b"))]

/-- The row image `[1, nil, "x' or ?='"]`, whose binary value holds two single quotes and a
`?`. -/
def samplePlaceholderRow : List ArgPtr :=
  [some (7, .int 1), some (8, .nil), some (9, .str (lit "x\x27 or ?=\x27"))]

/-- What the loop of `BuildDMLInsertQuery` appends to `sharedArgs` for `column` when its row
value is `v`. -/
def insertArg (column : Column) (v : Value) : Value :=
  if v = Value.nil then Value.nil else column.ConvertArg v

/-- The WHERE clause written for `sampleQuoteRow` on `sampleColumns`. -/
def sampleQuoteWhere : GoString :=
  lit "((`id` = ?) and (`name` is NULL) and "
    ++ lit "(`bin_data` = cast(\x27a\x27b\x27 as binary(4))))"

/-! ## Escaping, byte by byte -/

/-- The seven special characters of `EscapeValue`, as bytes: NUL, newline, carriage return,
backslash, single quote, double quote and 0x1A. -/
def isSpecialByte (b : UInt8) : Bool :=
  b = 0 || b = 10 || b = 13 || b = 92 || b = 39 || b = 34 || b = 26

/-- The escape of one byte as the specification words it: the two-character escape for each of
the seven special characters, the byte itself for every other byte. -/
def escapeByte (b : UInt8) : GoString :=
  if b = 0 then lit "\\0"
  else if b = 10 then lit "\\n"
  else if b = 13 then lit "\\r"
  else if b = 92 then lit "\\\\"
  else if b = 39 then lit "\\\x27"
  else if b = 34 then lit "\\\""
  else if b = 26 then lit "\\Z"
  else [b]

/-- The escape of a text as the specification words it: the concatenation, over the bytes of
the text in order, of the escape of each byte. -/
def escapeBytes (s : GoString) : GoString := (s.map escapeByte).flatten

/-- The character a two-character escape `\x` stands for; `none` when `\x` is none of the
seven escapes. -/
def unescapeChar (x : UInt8) : Option UInt8 :=
  if x = 48 then some 0
  else if x = 110 then some 10
  else if x = 114 then some 13
  else if x = 92 then some 92
  else if x = 39 then some 39
  else if x = 34 then some 34
  else if x = 90 then some 26
  else none

/-- Un-escaping as the specification words it: scanning left to right, each two-character
sequence `\0`, `\n`, `\r`, `\\`, `\'`, `\"`, `\Z` is replaced by the character it stands for;
every other byte is kept. -/
def unescape : GoString → GoString
  | [] => []
  | [b] => [b]
  | b :: x :: rest =>
    if b = 92 then
      match unescapeChar x with
      | some c => c :: unescape rest
      | none => b :: unescape (x :: rest)
    else b :: unescape (x :: rest)

/-! ## Go standard library: `unicode/utf8` and `strconv.Unquote`

`EscapeName` calls `strconv.Unquote`. The definitions below follow the standard library's
source (`strconv/quote.go`, `unicode/utf8/utf8.go`); `utf8.DecodeRuneInString` is `decodeRune`
above. A rune is a natural number; `none` is `ErrSyntax`. -/

/-- `utf8.ValidString`, `fuel` bounding the runes still to read: no rune of the text decodes
as an encoding error (U+FFFD of width 1). -/
def utf8.validLoop : Nat → GoString → Bool
  | _, [] => true
  | 0, _ :: _ => false
  | fuel + 1, b :: s =>
    let (r, size) := decodeRune (b :: s)
    if r = 0xFFFD ∧ size = 1 then false else utf8.validLoop fuel ((b :: s).drop size)

/-- `utf8.ValidString`. -/
def utf8.ValidString (s : GoString) : Bool := utf8.validLoop s.length s

/-- `utf8.ValidRune`: in range and not a surrogate half. -/
def utf8.ValidRune (r : Nat) : Bool :=
  r < 0xD800 || (0xDFFF < r && r ≤ 0x10FFFF)

/-- `utf8.EncodeRune`: the UTF-8 encoding of a rune, that of U+FFFD for a rune out of range or
a surrogate half. -/
def utf8.EncodeRune (r : Nat) : GoString :=
  if r ≤ 0x7F then [r.toUInt8]
  else if r ≤ 0x7FF then [(0xC0 + r / 0x40).toUInt8, (0x80 + r % 0x40).toUInt8]
  else if r > 0x10FFFF ∨ (0xD800 ≤ r ∧ r ≤ 0xDFFF) then [0xEF, 0xBF, 0xBD]
  else if r ≤ 0xFFFF then
    [(0xE0 + r / 0x1000).toUInt8, (0x80 + r / 0x40 % 0x40).toUInt8, (0x80 + r % 0x40).toUInt8]
  else
    [(0xF0 + r / 0x40000).toUInt8, (0x80 + r / 0x1000 % 0x40).toUInt8,
      (0x80 + r / 0x40 % 0x40).toUInt8, (0x80 + r % 0x40).toUInt8]

/-- `index(s, c)` of `strconv`: the offset of the first byte `c` of `s`; `none` is -1. -/
def strconv.index : GoString → UInt8 → Option Nat
  | [], _ => none
  | b :: s, c => if b = c then some 0 else (strconv.index s c).map (· + 1)

/-- `contains(s, c)` of `strconv`. -/
def strconv.contains (s : GoString) (c : UInt8) : Bool := (strconv.index s c).isSome

/-- `unhex` of `strconv`: the value of a hexadecimal digit. -/
def strconv.unhex (b : UInt8) : Option Nat :=
  let c := b.toNat
  if 48 ≤ c ∧ c ≤ 57 then some (c - 48)
  else if 97 ≤ c ∧ c ≤ 102 then some (c - 97 + 10)
  else if 65 ≤ c ∧ c ≤ 70 then some (c - 65 + 10)
  else none

/-- The loop `v = v<<4 | x` of `UnquoteChar` over hexadecimal digits. -/
def strconv.hexValue : GoString → Nat → Option Nat
  | [], v => some v
  | b :: s, v =>
    match strconv.unhex b with
    | none => none
    | some x => strconv.hexValue s (v * 16 + x)

/-- The loop `v = (v << 3) | x` of `UnquoteChar` over octal digits. -/
def strconv.octalValue : GoString → Nat → Option Nat
  | [], v => some v
  | b :: s, v =>
    if 48 ≤ b.toNat ∧ b.toNat ≤ 55 then strconv.octalValue s (v * 8 + (b.toNat - 48))
    else none

/-- `strconv.UnquoteChar`: the first character or byte of the escaped text `s`, whether it
needs a multibyte encoding, and the rest of the text. -/
def strconv.UnquoteChar (s : GoString) (quote : UInt8) : Option (Nat × Bool × GoString) :=
  match s with
  | [] => none
  | c :: t =>
    if c = quote ∧ (quote = 39 ∨ quote = 34) then none
    else if 0x80 ≤ c.toNat then
      let (r, size) := decodeRune (c :: t)
      some (r, true, (c :: t).drop size)
    else if c ≠ 92 then some (c.toNat, false, t)
    else
      match t with
      | [] => none
      | c :: s =>
        if c = 97 then some (7, false, s)
        else if c = 98 then some (8, false, s)
        else if c = 102 then some (12, false, s)
        else if c = 110 then some (10, false, s)
        else if c = 114 then some (13, false, s)
        else if c = 116 then some (9, false, s)
        else if c = 118 then some (11, false, s)
        else if c = 120 ∨ c = 117 ∨ c = 85 then
          let n := if c = 120 then 2 else if c = 117 then 4 else 8
          if s.length < n then none
          else
            match strconv.hexValue (s.take n) 0 with
            | none => none
            | some v =>
              if c = 120 then some (v, false, s.drop n)
              else if !utf8.ValidRune v then none
              else some (v, true, s.drop n)
        else if 48 ≤ c.toNat ∧ c.toNat ≤ 55 then
          if s.length < 2 then none
          else
            match strconv.octalValue (s.take 2) (c.toNat - 48) with
            | none => none
            | some v => if v > 255 then none else some (v, false, s.drop 2)
        else if c = 92 then some (92, false, s)
        else if c = 39 ∨ c = 34 then
          if c ≠ quote then none else some (c.toNat, false, s)
        else none

/-- The loop of `unquote` over a quoted text with escape sequences, after the opening quote:
the bytes unquoted so far and the text left, at the closing quote or at the end of the text.
`fuel` bounds the characters still to read. -/
def strconv.unquoteLoop (quote : UInt8) : Nat → GoString → GoString →
    Option (GoString × GoString)
  | 0, in_, buf => some (buf, in_)
  | fuel + 1, in_, buf =>
    match in_ with
    | [] => some (buf, in_)
    | c :: _ =>
      if c = quote then some (buf, in_)
      else
        match strconv.UnquoteChar in_ quote with
        | none => none
        | some (r, multibyte, rem) =>
          if c = 10 then none
          else
            let buf :=
              if r < 0x80 ∨ multibyte = false then buf ++ [r.toUInt8]
              else buf ++ utf8.EncodeRune r
            if quote = 39 then some (buf, rem)
            else strconv.unquoteLoop quote fuel rem buf

/-- `strconv.Unquote`: the text a Go string literal (double-quoted, back-quoted or a
single-quoted character) stands for. -/
def strconv.Unquote (s : GoString) : Option GoString :=
  if s.length < 2 then none
  else
    match s with
    | [] => none
    | quote :: in1 =>
      match strconv.index in1 quote with
      | none => none
      | some e =>
        let end_ := e + 2
        if quote = 96 then
          let out :=
            if !strconv.contains (s.take end_) 13 then (s.take (end_ - 1)).drop 1
            else ((s.take (end_ - 1)).drop 1).filter (· ≠ 13)
          if (s.drop end_).length > 0 then none else some out
        else if quote = 34 ∨ quote = 39 then
          let valid :=
            if quote = 34 then utf8.ValidString ((s.take (end_ - 1)).drop 1)
            else
              let (r, n) := decodeRune ((s.take (end_ - 1)).drop 1)
              decide (1 + n + 1 = end_ ∧ (r ≠ 0xFFFD ∨ n ≠ 1))
          if !strconv.contains (s.take end_) 92 ∧ !strconv.contains (s.take end_) 10 ∧ valid
          then
            if (s.drop end_).length > 0 then none else some ((s.take (end_ - 1)).drop 1)
          else
            match strconv.unquoteLoop quote in1.length in1 [] with
            | none => none
            | some (buf, in_) =>
              match in_ with
              | [] => none
              | c :: rem =>
                if c ≠ quote then none
                else if rem.length > 0 then none else some buf
        else none

/-! # Theorems -/

/-! ## Lemmas: fragments -/

theorem BuildValueComparison_ok (U : GoString → Option GoString) (column value sign : GoString)
    (hc : column ≠ []) (hv : value ≠ []) :
    BuildValueComparison U column value sign =
      (lit "(" ++ EscapeName U column ++ lit " " ++ sign ++ lit " " ++ value ++ lit ")",
        none) := by
  simp [BuildValueComparison, hc, hv]

theorem equalsLoop_ok (U : GoString → Option GoString) (values : List GoString)
    (hv : ∀ v ∈ values, v ≠ []) :
    ∀ (rest : List GoString) (i : Nat) (comparisons : List GoString),
      (∀ c ∈ rest, c ≠ []) → rest.length + i = values.length →
      BuildEqualsComparison.loop U values rest i comparisons =
        some (.done (comparisons ++ List.zipWith
          (fun c v => (BuildValueComparison U c v EqualsComparisonSign).1) rest
          (values.drop i))) := by
  intro rest
  induction rest with
  | nil => intro i comparisons _ _; simp [BuildEqualsComparison.loop]
  | cons column rest ih =>
    intro i comparisons hc hlen
    have hi : i < values.length := by simp at hlen; omega
    have hcol : column ≠ [] := hc column (by simp)
    have hval : values[i] ≠ [] := hv _ (List.getElem_mem _)
    have hdrop : values.drop i = values[i] :: values.drop (i + 1) :=
      List.drop_eq_getElem_cons hi
    rw [BuildEqualsComparison.loop, List.getElem?_eq_getElem hi]
    simp only [BuildValueComparison_ok U column values[i] _ hcol hval]
    rw [ih (i + 1) _ (fun c h => hc c (by simp [h])) (by simp at hlen ⊢; omega), hdrop]
    simp only [List.zipWith_cons_cons, List.append_assoc, List.singleton_append,
      BuildValueComparison_ok U column values[i] _ hcol hval]

theorem BuildEqualsComparison_ok (U : GoString → Option GoString)
    (columns values : List GoString) (hn : columns ≠ [])
    (hlen : columns.length = values.length)
    (hc : ∀ c ∈ columns, c ≠ []) (hv : ∀ v ∈ values, v ≠ []) :
    BuildEqualsComparison U columns values = some (equalsText U columns values, none) := by
  have h0 : columns.length ≠ 0 := by simpa using hn
  rw [BuildEqualsComparison, if_neg h0, if_neg (not_not.mpr hlen)]
  rw [equalsLoop_ok U values hv columns 0 [] hc (by simpa using hlen)]
  simp [equalsText]

theorem rangeLoop_ok (U : GoString → Option GoString)
    (columns values : List GoString) (args : List Value) (s : GoString)
    (hlv : columns.length = values.length) (hla : columns.length = args.length)
    (hc : ∀ c ∈ columns, c ≠ []) (hv : ∀ v ∈ values, v ≠ []) :
    ∀ (rest : List GoString) (i : Nat) (comparisons : List GoString)
      (explodedArgs : List Value), columns.drop i = rest →
      BuildRangeComparison.loop U columns values args s rest i comparisons explodedArgs =
        some (.done (comparisons ++ (List.range' i rest.length).map
            (rangeTermText U columns values s),
          explodedArgs ++ ((List.range' i rest.length).map fun j => args.take (j + 1)).flatten))
    := by
  intro rest
  induction rest with
  | nil => intro i comparisons explodedArgs _; simp [BuildRangeComparison.loop]
  | cons column rest ih =>
    intro i comparisons explodedArgs hdrop
    have hi : i < columns.length := by
      by_contra hcon
      rw [List.drop_of_length_le (by omega)] at hdrop
      exact absurd hdrop (by simp)
    have hiv : i < values.length := by omega
    have hia : i < args.length := by omega
    have hd := List.drop_eq_getElem_cons hi
    rw [hd] at hdrop
    have hcolumn : columns[i] = column := (List.cons.inj hdrop).1
    have hrest : columns.drop (i + 1) = rest := (List.cons.inj hdrop).2
    have hcol : column ≠ [] := hcolumn ▸ hc _ (List.getElem_mem _)
    have hval : values[i] ≠ [] := hv _ (List.getElem_mem _)
    have hgc : columns.getD i [] = column := by
      rw [List.getD_eq_getElem?_getD, List.getElem?_eq_getElem hi]; simpa using hcolumn
    have hgv : values.getD i [] = values[i] := by
      rw [List.getD_eq_getElem?_getD, List.getElem?_eq_getElem hiv]; rfl
    have htake : args.take (i + 1) = args.take i ++ [args[i]] := by
      rw [List.take_succ, List.getElem?_eq_getElem hia]; rfl
    rw [BuildRangeComparison.loop, List.getElem?_eq_getElem hiv]
    simp only [BuildValueComparison_ok U column values[i] s hcol hval,
      List.getElem?_eq_getElem hia]
    by_cases hz : i = 0
    · subst hz
      simp only [List.take_zero, List.length_nil, gt_iff_lt, lt_self_iff_false, if_false]
      rw [ih 1 _ _ hrest]
      simp only [List.range'_succ, List.map_cons, List.flatten_cons, List.length_cons,
        List.append_assoc, List.singleton_append, rangeTermText, if_true, hgc, hgv, htake,
        List.take_zero, List.nil_append,
        BuildValueComparison_ok U column values[0] s hcol hval]
    · have hpos : (columns.take i).length > 0 := by
        simp [List.length_take]; omega
      simp only [hpos, if_true]
      rw [BuildEqualsComparison_ok U (columns.take i) (values.take i)
        (by intro h; simp [h] at hpos)
        (by simp [List.length_take, hlv])
        (fun c h => hc c (List.mem_of_mem_take h))
        (fun v h => hv v (List.mem_of_mem_take h))]
      simp only []
      rw [ih (i + 1) _ _ hrest]
      simp only [List.range'_succ, List.map_cons, List.flatten_cons, List.length_cons,
        List.append_assoc, List.singleton_append, rangeTermText, hz, if_false, hgc, hgv, htake,
        BuildValueComparison_ok U column values[i] s hcol hval]

theorem rangeSign_eq (sign : GoString) :
    rangeSign sign =
      (if sign = LessThanOrEqualsComparisonSign then LessThanComparisonSign
        else if sign = GreaterThanOrEqualsComparisonSign then GreaterThanComparisonSign
        else sign,
       decide (sign = LessThanOrEqualsComparisonSign ∨
         sign = GreaterThanOrEqualsComparisonSign)) := by
  have h : LessThanComparisonSign ≠ GreaterThanOrEqualsComparisonSign := by decide
  unfold rangeSign
  by_cases h1 : sign = LessThanOrEqualsComparisonSign
  · simp [h1, h]
  · by_cases h2 : sign = GreaterThanOrEqualsComparisonSign
    · have h3 : GreaterThanOrEqualsComparisonSign ≠ LessThanOrEqualsComparisonSign := by
        decide
      simp [h2, h3]
    · simp [h1, h2]

theorem BuildRangeComparison_ok (U : GoString → Option GoString)
    (columns values : List GoString) (args : List Value) (sign : GoString)
    (hn : columns ≠ [])
    (hlv : columns.length = values.length) (hla : columns.length = args.length)
    (hc : ∀ c ∈ columns, c ≠ []) (hv : ∀ v ∈ values, v ≠ []) :
    BuildRangeComparison U columns values args sign =
      some (lit "(" ++ Join
          ((List.range columns.length).map (rangeTermText U columns values (rangeSign sign).1)
            ++ (if (rangeSign sign).2 then [equalsText U columns values] else []))
          (lit " or ") ++ lit ")",
        ((List.range columns.length).map fun j => args.take (j + 1)).flatten
          ++ (if (rangeSign sign).2 then args else []),
        none) := by
  have h0 : columns.length ≠ 0 := by simpa using hn
  rw [BuildRangeComparison, if_neg h0, if_neg (not_not.mpr hlv), if_neg (not_not.mpr hla),
    rangeLoop_ok U columns values args _ hlv hla hc hv columns 0 [] [] rfl]
  simp only [List.nil_append, ← List.range_eq_range']
  by_cases hi : (rangeSign sign).2 = true
  · simp only [hi, if_true, BuildEqualsComparison_ok U columns values hn hlv hc hv]
  · simp [hi]

theorem length_flatten_take (args : List Value) :
    ∀ n, n ≤ args.length →
      (((List.range n).map fun j => args.take (j + 1)).flatten).length = n * (n + 1) / 2 := by
  intro n
  induction n with
  | zero => intro _; simp
  | succ n ih =>
    intro h
    have hs : (n + 1) * (n + 1 + 1) = n * (n + 1) + (n + 1) * 2 := by ring
    rw [List.range_succ, List.map_append, List.flatten_append, List.length_append,
      ih (by omega), hs, Nat.add_mul_div_right _ _ (by norm_num)]
    simp [List.length_take]
    omega

theorem rangeSign_fst_of_four (sign : GoString)
    (hs : sign = LessThanComparisonSign ∨ sign = LessThanOrEqualsComparisonSign ∨
      sign = GreaterThanComparisonSign ∨ sign = GreaterThanOrEqualsComparisonSign) :
    (rangeSign sign).1 = strictSign sign := by
  rcases hs with h | h | h | h <;> subst h <;> decide

theorem rangeSign_snd (sign : GoString) :
    (rangeSign sign).2 = true ↔
      (sign = LessThanOrEqualsComparisonSign ∨ sign = GreaterThanOrEqualsComparisonSign) := by
  rw [rangeSign_eq]; simp

/-- C1: for columns, values and args of the same length n ≥ 1 with no empty column name and no
empty value text, `BuildRangeComparison` succeeds, and its `explodedArgs` is the concatenation,
for i = 0..n-1 in order, of the first i+1 args, followed by one further copy of args exactly
when the sign is `<=` or `>=`; its length is n(n+1)/2, plus n for `<=` and `>=`. -/
theorem BuildRangeComparison_explodedArgs (U : GoString → Option GoString)
    (columns values : List GoString) (args : List Value) (sign : GoString)
    (hn : 1 ≤ columns.length)
    (hlv : values.length = columns.length) (hla : args.length = columns.length)
    (hc : ∀ c ∈ columns, c ≠ []) (hv : ∀ v ∈ values, v ≠ []) :
    ∃ text explodedArgs,
      BuildRangeComparison U columns values args sign = some (text, explodedArgs, none) ∧
      explodedArgs =
        ((List.range columns.length).map fun i => args.take (i + 1)).flatten
          ++ (if sign = LessThanOrEqualsComparisonSign ∨
                sign = GreaterThanOrEqualsComparisonSign then args else []) ∧
      explodedArgs.length =
        columns.length * (columns.length + 1) / 2
          + (if sign = LessThanOrEqualsComparisonSign ∨
                sign = GreaterThanOrEqualsComparisonSign then columns.length else 0) := by
  have hne : columns ≠ [] := by intro h; simp [h] at hn
  refine ⟨_, _, BuildRangeComparison_ok U columns values args sign hne hlv.symm hla.symm hc hv,
    ?_, ?_⟩
  · by_cases h : sign = LessThanOrEqualsComparisonSign ∨
        sign = GreaterThanOrEqualsComparisonSign
    · rw [if_pos ((rangeSign_snd sign).mpr h), if_pos h]
    · rw [if_neg (fun h2 => h ((rangeSign_snd sign).mp h2)), if_neg h]
  · rw [List.length_append, ← hla, length_flatten_take args args.length (Nat.le_refl _)]
    by_cases h : sign = LessThanOrEqualsComparisonSign ∨
        sign = GreaterThanOrEqualsComparisonSign
    · rw [if_pos ((rangeSign_snd sign).mpr h), if_pos h]
    · rw [if_neg (fun h2 => h ((rangeSign_snd sign).mp h2)), if_neg h]; rfl

/-- C1 at three columns and the sign `<=`: nine arguments. -/
theorem BuildRangeComparison_explodedArgs_witness :
    ∃ text explodedArgs,
      BuildRangeComparison unquoteNone [lit "a", lit "b", lit "c"] [lit "?", lit "?", lit "?"]
        [.int 5, .int 10, .int 7] (lit "<=") = some (text, explodedArgs, none) ∧
      explodedArgs = [.int 5, .int 5, .int 10, .int 5, .int 10, .int 7,
        .int 5, .int 10, .int 7] ∧
      explodedArgs.length = 9 := by
  obtain ⟨text, explodedArgs, h, hargs, hlen⟩ :=
    BuildRangeComparison_explodedArgs unquoteNone [lit "a", lit "b", lit "c"]
      [lit "?", lit "?", lit "?"] [.int 5, .int 10, .int 7] (lit "<=")
      (by decide) (by decide) (by decide) (by decide) (by decide)
  exact ⟨text, explodedArgs, h, by rw [hargs]; decide, by rw [hlen]; decide⟩

/-- C4 (amended): `BuildRangeComparison(["a","b"], ["5","10"], [5,10], ">=")` succeeds and
returns the exploded argument list `[5, 5, 10, 5, 10]`: the arguments of the two loop terms,
then the full copy appended with the equality term. -/
theorem BuildRangeComparison_example_args (U : GoString → Option GoString) :
    ∃ text, BuildRangeComparison U [lit "a", lit "b"] [lit "5", lit "10"]
        [.int 5, .int 10] (lit ">=")
      = some (text, [.int 5, .int 5, .int 10, .int 5, .int 10], none) := by
  rw [BuildRangeComparison_ok U _ _ _ _ (by decide) (by decide) (by decide) (by decide)
    (by decide)]
  have h : (((List.range [lit "a", lit "b"].length).map fun j =>
      [Value.int 5, Value.int 10].take (j + 1)).flatten
        ++ (if (rangeSign (lit ">=")).2 then [Value.int 5, Value.int 10] else []))
      = [.int 5, .int 5, .int 10, .int 5, .int 10] := by decide
  rw [h]
  exact ⟨_, rfl⟩

/-- C4 as stated fails: the call does not return the argument list `[5, 5, 10]`, whatever
`strconv.Unquote` does. -/
theorem BuildRangeComparison_example_args_not_5_5_10 :
    ¬ ∃ (U : GoString → Option GoString) (text : GoString),
      BuildRangeComparison U [lit "a", lit "b"] [lit "5", lit "10"]
        [.int 5, .int 10] (lit ">=") = some (text, [.int 5, .int 5, .int 10], none) := by
  rintro ⟨U, text, h⟩
  rw [BuildRangeComparison_ok U _ _ _ _ (by decide) (by decide) (by decide) (by decide)
    (by decide)] at h
  simp only [Option.some.injEq, Prod.mk.injEq] at h
  have h2 := h.2.1
  revert h2
  decide

theorem getElem?_map_range_append {α : Type} (f : Nat → α) (n : Nat) (l : List α) (i : Nat)
    (hi : i < n) : ((List.range n).map f ++ l)[i]? = some (f i) := by
  rw [List.getElem?_append_left (by simpa using hi)]
  simp [List.getElem?_range hi]

/-- C2: for columns, values and args of the same length n ≥ 1 with no empty column name and no
empty value text, and a sign among `<`, `<=`, `>`, `>=` with strict form `s`, the text of
`BuildRangeComparison` is the OR-terms joined by " or " in parentheses, where term 0 is
`BuildValueComparison(columns[0], values[0], s)`, term i ≥ 1 is
`"(" + BuildEqualsComparison(columns[0:i], values[0:i]) + " AND " +
BuildValueComparison(columns[i], values[i], s) + ")"`, there are n terms for `<` and `>`, and
for `<=` and `>=` the term `BuildEqualsComparison(columns, values)` is appended last. -/
theorem BuildRangeComparison_text (U : GoString → Option GoString)
    (columns values : List GoString) (args : List Value) (sign : GoString)
    (hn : 1 ≤ columns.length)
    (hlv : values.length = columns.length) (hla : args.length = columns.length)
    (hc : ∀ c ∈ columns, c ≠ []) (hv : ∀ v ∈ values, v ≠ [])
    (hs : sign = LessThanComparisonSign ∨ sign = LessThanOrEqualsComparisonSign ∨
      sign = GreaterThanComparisonSign ∨ sign = GreaterThanOrEqualsComparisonSign) :
    ∃ terms explodedArgs,
      BuildRangeComparison U columns values args sign =
        some (lit "(" ++ Join terms (lit " or ") ++ lit ")", explodedArgs, none) ∧
      terms.length = columns.length +
        (if sign = LessThanOrEqualsComparisonSign ∨ sign = GreaterThanOrEqualsComparisonSign
          then 1 else 0) ∧
      (∀ c v, columns[0]? = some c → values[0]? = some v →
        ∃ t, BuildValueComparison U c v (strictSign sign) = (t, none) ∧ terms[0]? = some t) ∧
      (∀ i c v, 1 ≤ i → columns[i]? = some c → values[i]? = some v →
        ∃ e t, BuildEqualsComparison U (columns.take i) (values.take i) = some (e, none) ∧
          BuildValueComparison U c v (strictSign sign) = (t, none) ∧
          terms[i]? = some (lit "(" ++ e ++ lit " AND " ++ t ++ lit ")")) ∧
      (sign = LessThanOrEqualsComparisonSign ∨ sign = GreaterThanOrEqualsComparisonSign →
        ∃ e, BuildEqualsComparison U columns values = some (e, none) ∧
          terms[columns.length]? = some e) := by
  have hne : columns ≠ [] := by intro h; simp [h] at hn
  have hget : ∀ i c v, columns[i]? = some c → values[i]? = some v →
      i < columns.length ∧ c ≠ [] ∧ v ≠ [] ∧ columns.getD i [] = c ∧
        values.getD i [] = v := by
    intro i c v h1 h2
    refine ⟨(List.getElem?_eq_some.mp h1).1, hc c (List.getElem?_mem h1),
      hv v (List.getElem?_mem h2), ?_, ?_⟩
    · rw [List.getD_eq_getElem?_getD, h1]; rfl
    · rw [List.getD_eq_getElem?_getD, h2]; rfl
  refine ⟨_, _, BuildRangeComparison_ok U columns values args sign hne hlv.symm hla.symm hc hv,
    ?_, ?_, ?_, ?_⟩
  · by_cases h : sign = LessThanOrEqualsComparisonSign ∨
        sign = GreaterThanOrEqualsComparisonSign
    · rw [if_pos ((rangeSign_snd sign).mpr h), if_pos h]; simp
    · rw [if_neg (fun h2 => h ((rangeSign_snd sign).mp h2)), if_neg h]; simp
  · intro c v h1 h2
    obtain ⟨hi, hc0, hv0, hgc, hgv⟩ := hget 0 c v h1 h2
    refine ⟨_, BuildValueComparison_ok U c v _ hc0 hv0, ?_⟩
    rw [getElem?_map_range_append _ _ _ _ hi, rangeSign_fst_of_four sign hs]
    simp only [rangeTermText, if_true, hgc, hgv, BuildValueComparison_ok U c v _ hc0 hv0]
  · intro i c v hi1 h1 h2
    obtain ⟨hi, hc0, hv0, hgc, hgv⟩ := hget i c v h1 h2
    have hpos : columns.take i ≠ [] := by
      intro h
      have := congrArg List.length h
      rw [List.length_take, List.length_nil] at this
      omega
    refine ⟨_, _, BuildEqualsComparison_ok U (columns.take i) (values.take i) hpos
      (by simp [List.length_take, hlv]) (fun c h => hc c (List.mem_of_mem_take h))
      (fun v h => hv v (List.mem_of_mem_take h)),
      BuildValueComparison_ok U c v _ hc0 hv0, ?_⟩
    rw [getElem?_map_range_append _ _ _ _ hi, rangeSign_fst_of_four sign hs]
    have hz : i ≠ 0 := by omega
    simp only [rangeTermText, hz, if_false, hgc, hgv,
      BuildValueComparison_ok U c v _ hc0 hv0]
  · intro h
    refine ⟨_, BuildEqualsComparison_ok U columns values hne hlv.symm hc hv, ?_⟩
    rw [if_pos ((rangeSign_snd sign).mpr h),
      List.getElem?_append_right (by simp)]
    simp

/-- C2 at the specification's example: three OR-terms for `>=` over two columns. -/
theorem BuildRangeComparison_text_witness :
    ∃ terms explodedArgs,
      BuildRangeComparison unquoteNone [lit "a", lit "b"] [lit "5", lit "10"]
          [.int 5, .int 10] (lit ">=") =
        some (lit "(" ++ Join terms (lit " or ") ++ lit ")", explodedArgs, none) ∧
      terms = [lit "(`a` > 5)", lit "(((`a` = 5)) AND (`b` > 10))",
        lit "((`a` = 5) and (`b` = 10))"] := by
  obtain ⟨terms, explodedArgs, h, hlen, h0, hi, he⟩ :=
    BuildRangeComparison_text unquoteNone [lit "a", lit "b"] [lit "5", lit "10"]
      [.int 5, .int 10] (lit ">=") (by decide) (by decide) (by decide) (by decide)
      (by decide) (by decide)
  refine ⟨terms, explodedArgs, h, ?_⟩
  obtain ⟨t0, ht0, hterm0⟩ := h0 (lit "a") (lit "5") (by decide) (by decide)
  obtain ⟨e1, t1, he1, ht1, hterm1⟩ := hi 1 (lit "b") (lit "10") (by decide) (by decide)
    (by decide)
  obtain ⟨e2, he2, hterm2⟩ := he (by decide)
  have e0 : BuildValueComparison unquoteNone (lit "a") (lit "5") (strictSign (lit ">=")) =
      (lit "(`a` > 5)", none) := by decide
  have e1 : BuildValueComparison unquoteNone (lit "b") (lit "10") (strictSign (lit ">=")) =
      (lit "(`b` > 10)", none) := by decide
  have e2 : BuildEqualsComparison unquoteNone (List.take 1 [lit "a", lit "b"])
      (List.take 1 [lit "5", lit "10"]) = some (lit "((`a` = 5))", none) := by decide
  have e3 : BuildEqualsComparison unquoteNone [lit "a", lit "b"] [lit "5", lit "10"] =
      some (lit "((`a` = 5) and (`b` = 10))", none) := by decide
  rw [e0] at ht0
  rw [e1] at ht1
  rw [e2] at he1
  rw [e3] at he2
  obtain rfl := (Prod.mk.inj ht0).1
  obtain rfl := (Prod.mk.inj ht1).1
  obtain rfl := (Prod.mk.inj (Option.some.inj he1)).1
  obtain rfl := (Prod.mk.inj (Option.some.inj he2)).1
  have hlen3 : terms.length = 3 := by rw [hlen]; decide
  match terms, hlen3, hterm0, hterm1, hterm2 with
  | [x0, x1, x2], _, h0, h1, h2 =>
    simp only [List.getElem?_cons_zero, List.getElem?_cons_succ, List.length_cons,
      List.length_nil, Option.some.injEq] at h0 h1 h2
    subst h0 h1 h2
    decide

/-! ## Lemmas: the range comparison read on rows -/


/-- Lexicographic `<` between tuples of the same length: some index has a strictly smaller
entry and all earlier entries agree. -/
theorem lex_iff_exists_index {α : Type} [LinearOrder α] :
    ∀ (x v : List α), x.length = v.length →
      (List.Lex (· < ·) x v ↔
        ∃ i : Nat, (∀ j : Nat, j < i → x[j]? = v[j]?) ∧
          ∃ a b : α, x[i]? = some a ∧ v[i]? = some b ∧ a < b) := by
  intro x
  induction x with
  | nil =>
    intro v hlen
    have hv : v = [] := by
      cases v with
      | nil => rfl
      | cons _ _ => simp at hlen
    subst hv
    constructor
    · intro h; cases h
    · rintro ⟨i, _, a, b, h, _⟩; simp at h
  | cons a xs ih =>
    intro v hlen
    cases v with
    | nil => simp at hlen
    | cons b vs =>
      have hlen' : xs.length = vs.length := by simpa using hlen
      constructor
      · intro h
        cases h with
        | cons h' =>
          obtain ⟨i, hpre, c, d, hc, hd, hlt⟩ := (ih vs hlen').mp h'
          refine ⟨i + 1, ?_, c, d, by simpa using hc, by simpa using hd, hlt⟩
          intro j hj
          cases j with
          | zero => simp
          | succ j => simpa using hpre j (by omega)
        | rel h' => exact ⟨0, by intro j hj; omega, a, b, by simp, by simp, h'⟩
      · rintro ⟨i, hpre, c, d, hc, hd, hlt⟩
        cases i with
        | zero =>
          simp at hc hd
          subst hc hd
          exact List.Lex.rel hlt
        | succ i =>
          have h0 := hpre 0 (by omega)
          simp at h0
          subst h0
          refine List.Lex.cons ((ih vs hlen').mpr ⟨i, ?_, c, d, by simpa using hc,
            by simpa using hd, hlt⟩)
          intro j hj
          simpa using hpre (j + 1) (by omega)

theorem cmp_holds_iff {α : Type} [LinearOrder α] (x v : List α) (i : Nat) (s : GoString) :
    Cmp.holds x v ⟨i, s⟩ = true ↔
      ∃ a b : α, x[i]? = some a ∧ v[i]? = some b ∧ signHolds s a b = true := by
  unfold Cmp.holds
  cases hx : x[i]? <;> cases hv : v[i]? <;> simp

theorem signHolds_equals {α : Type} [LinearOrder α] (a b : α) :
    signHolds EqualsComparisonSign a b = true ↔ a = b := by
  have h1 : EqualsComparisonSign ≠ LessThanComparisonSign := by decide
  have h2 : EqualsComparisonSign ≠ LessThanOrEqualsComparisonSign := by decide
  simp [signHolds, h1, h2]

theorem signHolds_less {α : Type} [LinearOrder α] (a b : α) :
    signHolds LessThanComparisonSign a b = true ↔ a < b := by
  simp [signHolds]

theorem signHolds_greater {α : Type} [LinearOrder α] (a b : α) :
    signHolds GreaterThanComparisonSign a b = true ↔ b < a := by
  have h1 : GreaterThanComparisonSign ≠ LessThanComparisonSign := by decide
  have h2 : GreaterThanComparisonSign ≠ LessThanOrEqualsComparisonSign := by decide
  have h3 : GreaterThanComparisonSign ≠ EqualsComparisonSign := by decide
  have h4 : GreaterThanComparisonSign ≠ GreaterThanOrEqualsComparisonSign := by decide
  simp [signHolds, h1, h2, h3, h4]

/-- The equality fragments of the first `i` columns hold exactly when row and cursor agree on
those columns (`i` within the tuples' common length). -/
theorem equalities_hold_iff {α : Type} [LinearOrder α] (x v : List α) (i : Nat)
    (hx : i ≤ x.length) (hv : i ≤ v.length) :
    ((List.range i).map fun j => (⟨j, EqualsComparisonSign⟩ : Cmp)).all (Cmp.holds x v) = true
      ↔ ∀ j : Nat, j < i → x[j]? = v[j]? := by
  simp only [List.all_eq_true, List.mem_map, List.mem_range]
  constructor
  · intro h j hj
    obtain ⟨a, b, ha, hb, hab⟩ := (cmp_holds_iff x v j _).mp (h _ ⟨j, hj, rfl⟩)
    rw [ha, hb, (signHolds_equals a b).mp hab]
  · rintro h c ⟨j, hj, rfl⟩
    have hjx : j < x.length := by omega
    have hjv : j < v.length := by omega
    refine (cmp_holds_iff x v j _).mpr ⟨x[j], v[j], List.getElem?_eq_getElem hjx,
      List.getElem?_eq_getElem hjv, (signHolds_equals _ _).mpr ?_⟩
    have := h j hj
    rw [List.getElem?_eq_getElem hjx, List.getElem?_eq_getElem hjv] at this
    exact Option.some.inj this

/-- The OR-terms of the loop hold on a row exactly when some column compares strictly and all
earlier columns agree. -/
theorem loop_terms_hold_iff {α : Type} [LinearOrder α] (x v : List α) (n : Nat)
    (hx : x.length = n) (hv : v.length = n) (s : GoString) :
    ((List.range n).map fun i =>
        if i = 0 then RangeTerm.single ⟨i, s⟩
        else RangeTerm.guarded ((List.range i).map fun j => ⟨j, EqualsComparisonSign⟩)
          ⟨i, s⟩).any (RangeTerm.holds x v) = true ↔
      ∃ i : Nat, (∀ j : Nat, j < i → x[j]? = v[j]?) ∧
        ∃ a b : α, x[i]? = some a ∧ v[i]? = some b ∧ signHolds s a b = true := by
  simp only [List.any_eq_true, List.mem_map, List.mem_range]
  constructor
  · rintro ⟨t, ⟨i, hi, rfl⟩, ht⟩
    by_cases hz : i = 0
    · subst hz
      simp only [if_true, RangeTerm.holds] at ht
      exact ⟨0, by intro j hj; omega, (cmp_holds_iff x v 0 s).mp ht⟩
    · simp only [hz, if_false, RangeTerm.holds, Bool.and_eq_true] at ht
      exact ⟨i, (equalities_hold_iff x v i (by omega) (by omega)).mp ht.1,
        (cmp_holds_iff x v i s).mp ht.2⟩
  · rintro ⟨i, hpre, a, b, ha, hb, hab⟩
    have hi : i < n := by
      have := (List.getElem?_eq_some.mp ha).1
      omega
    refine ⟨_, ⟨i, hi, rfl⟩, ?_⟩
    by_cases hz : i = 0
    · subst hz
      simp only [if_true, RangeTerm.holds]
      exact (cmp_holds_iff x v 0 s).mpr ⟨a, b, ha, hb, hab⟩
    · simp only [hz, if_false, RangeTerm.holds, Bool.and_eq_true]
      exact ⟨(equalities_hold_iff x v i (by omega) (by omega)).mpr hpre,
        (cmp_holds_iff x v i s).mpr ⟨a, b, ha, hb, hab⟩⟩

/-- The all-columns-equal term holds exactly on the cursor row itself. -/
theorem equals_term_holds_iff {α : Type} [LinearOrder α] (x v : List α) (n : Nat)
    (hx : x.length = n) (hv : v.length = n) :
    (RangeTerm.equals ((List.range n).map fun j => ⟨j, EqualsComparisonSign⟩)).holds x v = true
      ↔ x = v := by
  rw [RangeTerm.holds, equalities_hold_iff x v n (by omega) (by omega)]
  constructor
  · intro h
    apply List.ext_getElem?
    intro j
    by_cases hj : j < n
    · exact h j hj
    · rw [List.getElem?_eq_none (by omega), List.getElem?_eq_none (by omega)]
  · intro h j _; rw [h]

theorem zipWith_take_eq_map_range {β : Type} (f : GoString → GoString → β)
    (cs vs : List GoString) (i : Nat) (hi : i ≤ cs.length) (hlen : cs.length = vs.length) :
    List.zipWith f (cs.take i) (vs.take i) =
      (List.range i).map fun j => f (cs.getD j []) (vs.getD j []) := by
  apply List.ext_getElem
  · simp [List.length_zipWith, List.length_take]; omega
  · intro k h1 h2
    have hk : k < i := by simpa using h2
    have hkc : k < cs.length := by omega
    have hkv : k < vs.length := by omega
    simp [List.getElem_zipWith, List.getElem_take, List.getD_eq_getElem?_getD,
      List.getElem?_eq_getElem hkc, List.getElem?_eq_getElem hkv]

theorem render_rangeTerms (U : GoString → Option GoString) (columns values : List GoString)
    (hlv : values.length = columns.length) (sign : GoString) :
    (rangeTerms columns.length sign).map (RangeTerm.render U columns values) =
      (List.range columns.length).map (rangeTermText U columns values (rangeSign sign).1)
        ++ (if (rangeSign sign).2 then [equalsText U columns values] else []) := by
  unfold rangeTerms
  rw [List.map_append, List.map_map]
  congr 1
  · apply List.map_congr_left
    intro i hi
    have hi' : i < columns.length := List.mem_range.mp hi
    by_cases hz : i = 0
    · simp [hz, RangeTerm.render, rangeTermText, Cmp.render]
    · simp only [Function.comp, hz, if_false, RangeTerm.render, rangeTermText, equalsText,
        List.map_map, Cmp.render]
      rw [zipWith_take_eq_map_range _ columns values i (by omega) hlv.symm]
      rfl
  · by_cases h : (rangeSign sign).2 = true
    · simp only [h, if_true, List.map_cons, List.map_nil, RangeTerm.render, equalsText,
        List.map_map]
      have := zipWith_take_eq_map_range
        (fun c v => (BuildValueComparison U c v EqualsComparisonSign).1) columns values
        columns.length (Nat.le_refl _) hlv.symm
      rw [List.take_length, ← hlv, List.take_length, hlv] at this
      rw [this]
      rfl
    · simp [h]

theorem exists_index_swap {α : Type} (r : α → α → Prop) (x v : List α) :
    (∃ i : Nat, (∀ j : Nat, j < i → v[j]? = x[j]?) ∧
        ∃ a b : α, v[i]? = some a ∧ x[i]? = some b ∧ r a b) ↔
      ∃ i : Nat, (∀ j : Nat, j < i → x[j]? = v[j]?) ∧
        ∃ a b : α, x[i]? = some a ∧ v[i]? = some b ∧ r b a := by
  constructor
  · rintro ⟨i, hpre, a, b, ha, hb, hr⟩
    exact ⟨i, fun j hj => (hpre j hj).symm, b, a, hb, ha, hr⟩
  · rintro ⟨i, hpre, a, b, ha, hb, hr⟩
    exact ⟨i, fun j hj => (hpre j hj).symm, b, a, hb, ha, hr⟩

/-- The disjunction of the OR-terms holds on a row exactly when the row tuple stands in the
requested relation to the cursor tuple under lexicographic order. -/
theorem rangeTerms_hold_iff {α : Type} [LinearOrder α] (x v : List α) (n : Nat)
    (hx : x.length = n) (hv : v.length = n) (sign : GoString)
    (hs : sign = LessThanComparisonSign ∨ sign = LessThanOrEqualsComparisonSign ∨
      sign = GreaterThanComparisonSign ∨ sign = GreaterThanOrEqualsComparisonSign) :
    (rangeTerms n sign).any (RangeTerm.holds x v) = true ↔ lexHolds sign x v := by
  have hxv : x.length = v.length := by omega
  have d1 : LessThanOrEqualsComparisonSign ≠ LessThanComparisonSign := by decide
  have d2 : GreaterThanComparisonSign ≠ LessThanComparisonSign := by decide
  have d3 : GreaterThanComparisonSign ≠ LessThanOrEqualsComparisonSign := by decide
  have d4 : GreaterThanOrEqualsComparisonSign ≠ LessThanComparisonSign := by decide
  have d5 : GreaterThanOrEqualsComparisonSign ≠ LessThanOrEqualsComparisonSign := by decide
  have d6 : GreaterThanOrEqualsComparisonSign ≠ GreaterThanComparisonSign := by decide
  have r1 : rangeSign LessThanComparisonSign = (LessThanComparisonSign, false) := by decide
  have r2 : rangeSign LessThanOrEqualsComparisonSign = (LessThanComparisonSign, true) := by
    decide
  have r3 : rangeSign GreaterThanComparisonSign = (GreaterThanComparisonSign, false) := by
    decide
  have r4 : rangeSign GreaterThanOrEqualsComparisonSign = (GreaterThanComparisonSign, true) :=
    by decide
  have hlt := loop_terms_hold_iff x v n hx hv LessThanComparisonSign
  have hgt := loop_terms_hold_iff x v n hx hv GreaterThanComparisonSign
  have heq := equals_term_holds_iff x v n hx hv
  simp only [signHolds_less] at hlt
  simp only [signHolds_greater] at hgt
  rw [← lex_iff_exists_index x v hxv] at hlt
  rw [← exists_index_swap (· < ·) x v, ← lex_iff_exists_index v x hxv.symm] at hgt
  rcases hs with h | h | h | h <;> subst h
  · simp only [rangeTerms, r1, lexHolds, if_true, List.any_append, Bool.or_eq_true, hlt]
    simp
  · simp only [rangeTerms, r2, lexHolds, d1, if_true, if_false, List.any_append,
      Bool.or_eq_true, hlt, List.any_cons, List.any_nil, Bool.or_false, heq]
    exact Or.comm
  · simp only [rangeTerms, r3, lexHolds, d2, d3, if_true, if_false, List.any_append,
      Bool.or_eq_true, hgt]
    simp
  · simp only [rangeTerms, r4, lexHolds, d4, d5, d6, if_true, if_false, List.any_append,
      Bool.or_eq_true, hgt, List.any_cons, List.any_nil, Bool.or_false, heq]
    exact Or.comm

/-- C3: for n ≥ 1 columns and a sign among `<`, `<=`, `>`, `>=`, the text of
`BuildRangeComparison` is the rendering of the OR-terms `rangeTerms`, and, reading each fragment
as the comparison of the row's value with the cursor's value in that column over a linear
order, the disjunction holds on a row tuple `x` exactly when `x` stands in the requested
relation to the cursor tuple `v` under lexicographic order. -/
theorem BuildRangeComparison_lexicographic (U : GoString → Option GoString)
    (columns values : List GoString) (args : List Value) (sign : GoString)
    (hn : 1 ≤ columns.length)
    (hlv : values.length = columns.length) (hla : args.length = columns.length)
    (hc : ∀ c ∈ columns, c ≠ []) (hv : ∀ v ∈ values, v ≠ [])
    (hs : sign = LessThanComparisonSign ∨ sign = LessThanOrEqualsComparisonSign ∨
      sign = GreaterThanComparisonSign ∨ sign = GreaterThanOrEqualsComparisonSign) :
    (∃ explodedArgs, BuildRangeComparison U columns values args sign =
      some (lit "(" ++ Join ((rangeTerms columns.length sign).map
        (RangeTerm.render U columns values)) (lit " or ") ++ lit ")", explodedArgs, none)) ∧
    ∀ (α : Type) [LinearOrder α] (x v : List α),
      x.length = columns.length → v.length = columns.length →
      ((rangeTerms columns.length sign).any (RangeTerm.holds x v) = true ↔
        lexHolds sign x v) := by
  have hne : columns ≠ [] := by intro h; simp [h] at hn
  refine ⟨?_, fun α _ x v hx hv' => rangeTerms_hold_iff x v columns.length hx hv' sign hs⟩
  rw [render_rangeTerms U columns values hlv sign]
  exact ⟨_, BuildRangeComparison_ok U columns values args sign hne hlv.symm hla.symm hc hv⟩

/-- C3 at the specification's example, read on the row `(5, 11)` against the cursor
`(5, 10)`. -/
theorem BuildRangeComparison_lexicographic_witness :
    (∃ explodedArgs, BuildRangeComparison unquoteNone [lit "a", lit "b"] [lit "5", lit "10"]
        [.int 5, .int 10] (lit ">=") =
      some (lit "((`a` > 5) or (((`a` = 5)) AND (`b` > 10)) or ((`a` = 5) and (`b` = 10)))",
        explodedArgs, none)) ∧
    ((rangeTerms 2 (lit ">=")).any (RangeTerm.holds [5, 11] [5, 10]) = true ↔
      lexHolds (lit ">=") ([5, 11] : List Nat) [5, 10]) := by
  have h := BuildRangeComparison_lexicographic unquoteNone [lit "a", lit "b"]
    [lit "5", lit "10"] [.int 5, .int 10] (lit ">=") (by decide) (by decide) (by decide)
    (by decide) (by decide) (by decide)
  refine ⟨?_, h.2 Nat [5, 11] [5, 10] rfl rfl⟩
  obtain ⟨e, he⟩ := h.1
  refine ⟨e, ?_⟩
  rw [he]
  have : (lit "(" ++ Join ((rangeTerms [lit "a", lit "b"].length (lit ">=")).map
      (RangeTerm.render unquoteNone [lit "a", lit "b"] [lit "5", lit "10"])) (lit " or ")
      ++ lit ")") =
    lit "((`a` > 5) or (((`a` = 5)) AND (`b` > 10)) or ((`a` = 5) and (`b` = 10)))" := by
    decide
  rw [this]

/-! ## Lemmas: the where loop -/

theorem BuildValueComparison_err (U : GoString → Option GoString) (value sign : GoString) :
    BuildValueComparison U [] value sign = ([], some "Empty column in GetValueComparison") := by
  simp [BuildValueComparison]

/-- One iteration of the where loop, by the row value of the column. -/
theorem whereLoop_cons (U : GoString → Option GoString) (tableColumns : ColumnList)
    (args : List ArgPtr) (column : Column) (rest : List Column) (comparisons : List GoString)
    (uniqueKeyArgs : List Value) (addr : Nat) (v : Value)
    (hd : deref args (tableColumns.ordinal column.Name) = some (addr, v)) :
    whereLoop U tableColumns args (column :: rest) comparisons uniqueKeyArgs =
      if column.Name = [] then
        some (.returned (uniqueKeyArgs ++ whereArg column v,
          "Empty column in GetValueComparison"))
      else
        whereLoop U tableColumns args rest (comparisons ++ [wherePredicate U column v])
          (uniqueKeyArgs ++ whereArg column v) := by
  have hlit1 : lit "NULL" ≠ [] := by decide
  have hlit2 : lit "?" ≠ [] := by decide
  have hlit3 : castLiteral column v ≠ [] := by
    unfold castLiteral
    intro h
    have := congrArg List.length h
    simp only [List.length_append, List.length_nil] at this
    have h6 : (lit "cast(\x27").length = 6 := by decide
    omega
  rw [whereLoop]
  simp only [hd]
  by_cases hname : column.Name = []
  · simp only [hname, if_true, BuildValueComparison_err]
    cases v <;> simp only [whereArg] <;> split <;> simp_all
  · simp only [hname, if_false]
    cases v <;> simp only [whereArg, wherePredicate] <;> split <;>
      simp_all [BuildValueComparison_ok, castLiteral]

/-- When the where loop runs to its end, it has read a value for every column, every column
has a name, and it has appended one comparison per column and the converted values of the
placeholder columns. -/
theorem whereLoop_done (U : GoString → Option GoString) (tableColumns : ColumnList)
    (args : List ArgPtr) :
    ∀ (rest : List Column) (comparisons : List GoString) (uniqueKeyArgs : List Value)
      (comparisons' : List GoString) (uniqueKeyArgs' : List Value),
      whereLoop U tableColumns args rest comparisons uniqueKeyArgs =
        some (.done (comparisons', uniqueKeyArgs')) →
      ∃ vals : List Value,
        rest.map (rowValue tableColumns args) = vals.map some ∧
        (∀ c ∈ rest, c.Name ≠ []) ∧
        comparisons' = comparisons ++ List.zipWith (wherePredicate U) rest vals ∧
        uniqueKeyArgs' = uniqueKeyArgs ++ (List.zipWith whereArg rest vals).flatten := by
  intro rest
  induction rest with
  | nil =>
    intro comparisons uniqueKeyArgs comparisons' uniqueKeyArgs' h
    simp only [whereLoop, Option.some.injEq, Step.done.injEq, Prod.mk.injEq] at h
    exact ⟨[], by simp, by simp, by simp [h.1], by simp [h.2]⟩
  | cons column rest ih =>
    intro comparisons uniqueKeyArgs comparisons' uniqueKeyArgs' h
    cases hd : deref args (tableColumns.ordinal column.Name) with
    | none => rw [whereLoop] at h; simp [hd] at h
    | some p =>
      obtain ⟨addr, v⟩ := p
      have hrow : rowValue tableColumns args column = some v := by simp [rowValue, hd]
      rw [whereLoop_cons U tableColumns args column rest _ _ addr v hd] at h
      by_cases hname : column.Name = []
      · simp [hname] at h
      · rw [if_neg hname] at h
        obtain ⟨vals, h1, h2, h3, h4⟩ := ih _ _ _ _ h
        refine ⟨v :: vals, by simp [hrow, h1], ?_, by simp [h3], by simp [h4]⟩
        intro c hc
        rcases List.mem_cons.mp hc with rfl | hc
        · exact hname
        · exact h2 c hc

/-! ## Lemmas: update -/

/-- What a successful `BuildDMLUpdateQuery` has gone through. -/
theorem BuildDMLUpdateQuery_success (U : GoString → Option GoString)
    (databaseName tableName : GoString)
    (tableColumns sharedColumns mappedSharedColumns uniqueKeyColumns : ColumnList)
    (valueArgs whereArgs : List ArgPtr) (text : GoString) (sharedArgs uniqueKeyArgs : List Value)
    (h : BuildDMLUpdateQuery U databaseName tableName tableColumns sharedColumns
      mappedSharedColumns uniqueKeyColumns valueArgs whereArgs =
        some (text, sharedArgs, uniqueKeyArgs, none)) :
    valueArgs.length = tableColumns.Len ∧ whereArgs.length = tableColumns.Len ∧
    sharedColumns.IsSubsetOf tableColumns = true ∧ sharedColumns.Len ≠ 0 ∧
    BuildDMLUpdateQuery.loop tableColumns valueArgs tableColumns.ColumnList [] =
      some sharedArgs ∧
    ∃ comparisons,
      whereLoop U tableColumns whereArgs tableColumns.ColumnList [] [] =
        some (.done (comparisons, uniqueKeyArgs)) ∧
      text = (lit "\n \t\t\tupdate\n \t\t\t\t\t" ++ EscapeName U databaseName ++ lit "."
          ++ EscapeName U tableName ++ lit "\n\t\t\t\tset\n\t\t\t\t\t"
          ++ (BuildSetPreparedClause U mappedSharedColumns).1
          ++ lit "\n\t\t\t\twhere\n \t\t\t\t\t"
          ++ (lit "(" ++ Join comparisons (lit " and ") ++ lit ")")
          ++ lit "\n \t\t\t\tlimit 1\n \t\t") := by
  unfold BuildDMLUpdateQuery at h
  split_ifs at h with h1 h2 h3 h4
  · simp at h
  · simp at h
  · simp at h
  · simp at h
  · cases hl : BuildDMLUpdateQuery.loop tableColumns valueArgs tableColumns.ColumnList [] with
    | none => simp [hl] at h
    | some sa =>
      cases hw : whereLoop U tableColumns whereArgs tableColumns.ColumnList [] [] with
      | none => simp [hl, hw] at h
      | some st =>
        cases st with
        | returned r => simp [hl, hw] at h
        | done s =>
          obtain ⟨comparisons, uka⟩ := s
          simp only [hl, hw, Option.some.injEq, Prod.mk.injEq, and_true] at h
          obtain ⟨ht, hsa, huka⟩ := h
          subst hsa huka
          refine ⟨not_not.mp h1, not_not.mp h2, by simpa using h3, h4, rfl,
            comparisons, rfl, ht.symm⟩

/-- The comparison the where loop writes is the placeholder comparison exactly for a column
that is not binary and whose value is not NULL. -/
theorem wherePredicate_eq_placeholder_iff (U : GoString → Option GoString) (c : Column)
    (v : Value) (hname : c.Name ≠ []) :
    wherePredicate U c v = (BuildValueComparison U c.Name (lit "?") EqualsComparisonSign).1 ↔
      v ≠ Value.nil ∧ HasPrefix c.ColumnType (lit "binary") = false := by
  have hlit1 : lit "NULL" ≠ [] := by decide
  have hlit2 : lit "?" ≠ [] := by decide
  have hc : lit "cast(\x27" = 99 :: lit "ast(\x27" := by decide
  have hq : lit "?" = [63] := by decide
  have hlit3 : castLiteral c v ≠ [] := by simp [castLiteral, hc]
  have hne : IsEqualsComparisonSign ++ (lit " " ++ (lit "NULL" ++ lit ")")) ≠
      EqualsComparisonSign ++ (lit " " ++ (lit "?" ++ lit ")")) := by decide
  have he : EqualsComparisonSign = [61] := by decide
  have hs : lit " " = [32] := by decide
  unfold wherePredicate
  by_cases hv : v = Value.nil
  · simp [hv, BuildValueComparison_ok, hname, hlit1, hlit2, hne]
  · by_cases hb : HasPrefix c.ColumnType (lit "binary") = true
    · simp [hv, hb, BuildValueComparison_ok, hname, hlit2, hlit3]
      simp [castLiteral, hc, hq]
    · simp [hv, hb]

theorem flatten_whereArg_eq_filter :
    ∀ (cols : List Column) (vals : List Value),
      (List.zipWith whereArg cols vals).flatten =
        ((cols.zip vals).filter fun cv =>
          decide (cv.2 ≠ Value.nil) && !HasPrefix cv.1.ColumnType (lit "binary")).map
          fun cv => cv.1.ConvertArg cv.2 := by
  intro cols
  induction cols with
  | nil => intro vals; simp
  | cons c cols ih =>
    intro vals
    cases vals with
    | nil => simp
    | cons v vals =>
      simp only [List.zipWith_cons_cons, List.flatten_cons, List.zip_cons_cons, ih vals,
        List.filter_cons]
      by_cases hv : v = Value.nil
      · simp [whereArg, hv]
      · by_cases hb : HasPrefix c.ColumnType (lit "binary") = true
        · simp [whereArg, hv, hb]
        · simp [whereArg, hv, hb]

theorem length_flatten_whereArg (U : GoString → Option GoString) :
    ∀ (cols : List Column) (vals : List Value), (∀ c ∈ cols, c.Name ≠ []) →
      ((List.zipWith whereArg cols vals).flatten).length =
        ((cols.zip (List.zipWith (wherePredicate U) cols vals)).filter fun cp =>
          decide (cp.2 =
            (BuildValueComparison U cp.1.Name (lit "?") EqualsComparisonSign).1)).length := by
  intro cols
  induction cols with
  | nil => intro vals _; simp
  | cons c cols ih =>
    intro vals hn
    cases vals with
    | nil => simp
    | cons v vals =>
      have hname : c.Name ≠ [] := hn c (by simp)
      simp only [List.zipWith_cons_cons, List.flatten_cons, List.zip_cons_cons,
        List.filter_cons, List.length_append, ih vals (fun c h => hn c (by simp [h]))]
      by_cases hp : v ≠ Value.nil ∧ HasPrefix c.ColumnType (lit "binary") = false
      · have := (wherePredicate_eq_placeholder_iff U c v hname).mpr hp
        simp [this, whereArg, hp.1, hp.2]
        omega
      · have hnp : ¬ wherePredicate U c v =
            (BuildValueComparison U c.Name (lit "?") EqualsComparisonSign).1 :=
          fun h => hp ((wherePredicate_eq_placeholder_iff U c v hname).mp h)
        simp only [decide_eq_true_eq, hnp, if_false]
        by_cases hv : v = Value.nil
        · simp [whereArg, hv]
        · have hb : HasPrefix c.ColumnType (lit "binary") = true := by
            by_contra hb
            exact hp ⟨hv, by simpa using hb⟩
          simp [whereArg, hv, hb]

/-! ## Lemmas: counting `?` -/

theorem questionMarks_append (a b : GoString) :
    questionMarks (a ++ b) = questionMarks a + questionMarks b := by
  simp [questionMarks, List.count_append]

theorem questionMarks_Join (sep : GoString) (hsep : questionMarks sep = 0) :
    ∀ xs : List GoString, questionMarks (Join xs sep) = (xs.map questionMarks).sum := by
  intro xs
  induction xs with
  | nil => simp [Join, questionMarks]
  | cons a xs ih =>
    cases xs with
    | nil => simp [Join]
    | cons b xs =>
      rw [Join, questionMarks_append, questionMarks_append, ih, hsep]
      simp

theorem questionMarks_wherePredicate (U : GoString → Option GoString) (c : Column) (v : Value)
    (hname : c.Name ≠ []) (hn : questionMarks (EscapeName U c.Name) = 0)
    (hb : v ≠ Value.nil → HasPrefix c.ColumnType (lit "binary") = true →
      questionMarks c.ColumnType = 0 ∧ questionMarks (Sprint (c.ConvertArg v)) = 0) :
    questionMarks (wherePredicate U c v) = (whereArg c v).length := by
  have hlit1 : lit "NULL" ≠ [] := by decide
  have hlit2 : lit "?" ≠ [] := by decide
  have hc : lit "cast(\x27" = 99 :: lit "ast(\x27" := by decide
  have hlit3 : castLiteral c v ≠ [] := by simp [castLiteral, hc]
  have q1 : questionMarks (lit "(") = 0 := by decide
  have q2 : questionMarks (lit " ") = 0 := by decide
  have q3 : questionMarks (lit ")") = 0 := by decide
  have q4 : questionMarks IsEqualsComparisonSign = 0 := by decide
  have q5 : questionMarks EqualsComparisonSign = 0 := by decide
  have q6 : questionMarks (lit "NULL") = 0 := by decide
  have q7 : questionMarks (lit "?") = 1 := by decide
  have q8 : questionMarks (lit "cast(\x27") = 0 := by decide
  have q9 : questionMarks (lit "\x27 as ") = 0 := by decide
  unfold wherePredicate whereArg
  by_cases hv : v = Value.nil
  · simp [hv, BuildValueComparison_ok, hname, hlit1, questionMarks_append, q1, q2, q3, q4, q6,
      hn]
  · by_cases hbin : HasPrefix c.ColumnType (lit "binary") = true
    · simp [hv, hbin, BuildValueComparison_ok, hname, hlit3, questionMarks_append, q1, q2, q3,
        q5, hn]
      simp [castLiteral, questionMarks_append, q8, q9, q3, (hb hv hbin).1, (hb hv hbin).2]
    · simp [hv, hbin, BuildValueComparison_ok, hname, hlit2, questionMarks_append, q1, q2, q3,
        q5, q7, hn]

theorem questionMarks_whereClause (U : GoString → Option GoString) :
    ∀ (cols : List Column) (vals : List Value), (∀ c ∈ cols, c.Name ≠ []) →
      (∀ cv ∈ cols.zip vals, questionMarks (EscapeName U cv.1.Name) = 0 ∧
        (cv.2 ≠ Value.nil → HasPrefix cv.1.ColumnType (lit "binary") = true →
          questionMarks cv.1.ColumnType = 0 ∧
          questionMarks (Sprint (cv.1.ConvertArg cv.2)) = 0)) →
      ((List.zipWith (wherePredicate U) cols vals).map questionMarks).sum =
        ((List.zipWith whereArg cols vals).flatten).length := by
  intro cols
  induction cols with
  | nil => intro vals _ _; simp
  | cons c cols ih =>
    intro vals h1 h2
    cases vals with
    | nil => simp
    | cons v vals =>
      simp only [List.zipWith_cons_cons, List.map_cons, List.sum_cons, List.flatten_cons,
        List.length_append]
      have hcv := h2 (c, v) (by simp)
      rw [ih vals (fun c h => h1 c (by simp [h])) (fun cv h => h2 cv (by simp [h])),
        questionMarks_wherePredicate U c v (h1 c (by simp)) hcv.1 hcv.2]

/-! ## Update: the where clause -/

set_option maxRecDepth 10000 in
/-- C5 as stated fails: with the unique key `[id]` on the table `[id, name, bin_data]`, the
WHERE clause of `BuildDMLUpdateQuery` holds a predicate for `name` and for `bin_data` as well;
it is not the clause with the one predicate of the unique-key column. -/
theorem BuildDMLUpdateQuery_where_not_uniqueKeyColumns :
    BuildDMLUpdateQuery unquoteNone (lit "db") (lit "tbl") sampleColumns sampleColumns
        sampleColumns sampleKey sampleRow sampleRow =
      some ((lit "\n \t\t\tupdate\n \t\t\t\t\t" ++ lit "`db`" ++ lit "." ++ lit "`tbl`"
          ++ lit "\n\t\t\t\tset\n\t\t\t\t\t" ++ lit "`id`=?, `name`=?, `bin_data`=?"
          ++ lit "\n\t\t\t\twhere\n \t\t\t\t\t"
          ++ lit "((`id` = ?) and (`name` = ?) and (`bin_data` is NULL))"
          ++ lit "\n \t\t\t\tlimit 1\n \t\t"),
        [.ptr 1 (.int 1), .ptr 2 (.str (lit "x")), .ptr 3 .nil], [.int 1, .str (lit "x")],
        none) ∧
    sampleKey.Names = [lit "id"] ∧
    lit "((`id` = ?) and (`name` = ?) and (`bin_data` is NULL))" ≠
      lit "(" ++ Join (List.zipWith (wherePredicate unquoteNone) sampleKey.ColumnList
        [.int 1]) (lit " and ") ++ lit ")" := by
  refine ⟨by decide, by decide, by decide⟩

/-- C5 (amended): whenever `BuildDMLUpdateQuery` succeeds, its WHERE clause is built from
`tableColumns`: exactly one predicate for each column of the full table column list, in that
list's order, joined by " and " in parentheses; `uniqueKeyColumns` is not read, so the result is
the same for every `uniqueKeyColumns`. -/
theorem BuildDMLUpdateQuery_where_tableColumns (U : GoString → Option GoString)
    (databaseName tableName : GoString)
    (tableColumns sharedColumns mappedSharedColumns uniqueKeyColumns : ColumnList)
    (valueArgs whereArgs : List ArgPtr) (text : GoString) (sharedArgs uniqueKeyArgs : List Value)
    (h : BuildDMLUpdateQuery U databaseName tableName tableColumns sharedColumns
      mappedSharedColumns uniqueKeyColumns valueArgs whereArgs =
        some (text, sharedArgs, uniqueKeyArgs, none)) :
    (∃ vals : List Value,
      tableColumns.ColumnList.map (rowValue tableColumns whereArgs) = vals.map some ∧
      text = (lit "\n \t\t\tupdate\n \t\t\t\t\t" ++ EscapeName U databaseName ++ lit "."
          ++ EscapeName U tableName ++ lit "\n\t\t\t\tset\n\t\t\t\t\t"
          ++ (BuildSetPreparedClause U mappedSharedColumns).1
          ++ lit "\n\t\t\t\twhere\n \t\t\t\t\t"
          ++ (lit "(" ++ Join
              (List.zipWith (wherePredicate U) tableColumns.ColumnList vals)
              (lit " and ") ++ lit ")")
          ++ lit "\n \t\t\t\tlimit 1\n \t\t")) ∧
    ∀ uniqueKeyColumns' : ColumnList,
      BuildDMLUpdateQuery U databaseName tableName tableColumns sharedColumns
        mappedSharedColumns uniqueKeyColumns' valueArgs whereArgs =
      BuildDMLUpdateQuery U databaseName tableName tableColumns sharedColumns
        mappedSharedColumns uniqueKeyColumns valueArgs whereArgs := by
  obtain ⟨_, _, _, _, _, comparisons, hw, ht⟩ :=
    BuildDMLUpdateQuery_success U databaseName tableName tableColumns sharedColumns
      mappedSharedColumns uniqueKeyColumns valueArgs whereArgs text sharedArgs uniqueKeyArgs h
  obtain ⟨vals, hvals, _, hc, _⟩ := whereLoop_done U tableColumns whereArgs _ _ _ _ _ hw
  refine ⟨⟨vals, hvals, ?_⟩, fun _ => rfl⟩
  rw [ht, hc, List.nil_append]

set_option maxRecDepth 10000 in
/-- C5 (amended) at the table `[id, name, bin_data]` with shared columns `[id, name]`. -/
theorem BuildDMLUpdateQuery_where_tableColumns_witness :
    BuildDMLUpdateQuery unquoteNone (lit "db") (lit "tbl") sampleColumns sampleShared
        sampleShared sampleKey sampleRow sampleRow =
      some (lit "\n \t\t\tupdate\n \t\t\t\t\t" ++ lit "`db`" ++ lit "." ++ lit "`tbl`"
          ++ lit "\n\t\t\t\tset\n\t\t\t\t\t" ++ lit "`id`=?, `name`=?"
          ++ lit "\n\t\t\t\twhere\n \t\t\t\t\t"
          ++ lit "((`id` = ?) and (`name` = ?) and (`bin_data` is NULL))"
          ++ lit "\n \t\t\t\tlimit 1\n \t\t",
        [.ptr 1 (.int 1), .ptr 2 (.str (lit "x")), .ptr 3 .nil], [.int 1, .str (lit "x")],
        none) ∧
    (∃ vals : List Value,
      sampleColumns.ColumnList.map (rowValue sampleColumns sampleRow) = vals.map some ∧
      (lit "\n \t\t\tupdate\n \t\t\t\t\t" ++ lit "`db`" ++ lit "." ++ lit "`tbl`"
          ++ lit "\n\t\t\t\tset\n\t\t\t\t\t" ++ lit "`id`=?, `name`=?"
          ++ lit "\n\t\t\t\twhere\n \t\t\t\t\t"
          ++ lit "((`id` = ?) and (`name` = ?) and (`bin_data` is NULL))"
          ++ lit "\n \t\t\t\tlimit 1\n \t\t") =
        (lit "\n \t\t\tupdate\n \t\t\t\t\t" ++ EscapeName unquoteNone (lit "db") ++ lit "."
            ++ EscapeName unquoteNone (lit "tbl") ++ lit "\n\t\t\t\tset\n\t\t\t\t\t"
            ++ (BuildSetPreparedClause unquoteNone sampleShared).1
            ++ lit "\n\t\t\t\twhere\n \t\t\t\t\t"
            ++ (lit "(" ++ Join
                (List.zipWith (wherePredicate unquoteNone) sampleColumns.ColumnList vals)
                (lit " and ") ++ lit ")")
            ++ lit "\n \t\t\t\tlimit 1\n \t\t")) ∧
    ∀ uniqueKeyColumns' : ColumnList,
      BuildDMLUpdateQuery unquoteNone (lit "db") (lit "tbl") sampleColumns sampleShared
        sampleShared uniqueKeyColumns' sampleRow sampleRow =
      BuildDMLUpdateQuery unquoteNone (lit "db") (lit "tbl") sampleColumns sampleShared
        sampleShared sampleKey sampleRow sampleRow :=
  ⟨by decide,
  BuildDMLUpdateQuery_where_tableColumns unquoteNone (lit "db") (lit "tbl") sampleColumns
    sampleShared sampleShared sampleKey sampleRow sampleRow
    (lit "\n \t\t\tupdate\n \t\t\t\t\t" ++ lit "`db`" ++ lit "." ++ lit "`tbl`"
        ++ lit "\n\t\t\t\tset\n\t\t\t\t\t" ++ lit "`id`=?, `name`=?"
        ++ lit "\n\t\t\t\twhere\n \t\t\t\t\t"
        ++ lit "((`id` = ?) and (`name` = ?) and (`bin_data` is NULL))"
        ++ lit "\n \t\t\t\tlimit 1\n \t\t")
    [.ptr 1 (.int 1), .ptr 2 (.str (lit "x")), .ptr 3 .nil] [.int 1, .str (lit "x")]
    (by decide)⟩

/-- In the WHERE clause of a successful `BuildDMLUpdateQuery` (the predicates `preds` joined by
" and " in parentheses, one per table column), a binary column with a value that is not NULL
appears as the inline `cast('<value>' as <type>)` equality and not as the `?` comparison; a
column that is not binary with a value that is not NULL appears as the `?` comparison;
`uniqueKeyArgs` is exactly the `ConvertArg`-converted values of the columns that are not NULL
and not binary, in column order; and its length is the number of `?` comparisons in the clause.
It is the number of `?` bytes of the clause only when no escaped name, and no type or converted
value of an inlined column, holds a `?`: the inlined value is not escaped. -/
theorem BuildDMLUpdateQuery_where_binary_inline (U : GoString → Option GoString)
    (databaseName tableName : GoString)
    (tableColumns sharedColumns mappedSharedColumns uniqueKeyColumns : ColumnList)
    (valueArgs whereArgs : List ArgPtr) (text : GoString) (sharedArgs uniqueKeyArgs : List Value)
    (h : BuildDMLUpdateQuery U databaseName tableName tableColumns sharedColumns
      mappedSharedColumns uniqueKeyColumns valueArgs whereArgs =
        some (text, sharedArgs, uniqueKeyArgs, none)) :
    ∃ (vals : List Value) (preds : List GoString),
      tableColumns.ColumnList.map (rowValue tableColumns whereArgs) = vals.map some ∧
      preds.length = tableColumns.Len ∧
      text = (lit "\n \t\t\tupdate\n \t\t\t\t\t" ++ EscapeName U databaseName ++ lit "."
          ++ EscapeName U tableName ++ lit "\n\t\t\t\tset\n\t\t\t\t\t"
          ++ (BuildSetPreparedClause U mappedSharedColumns).1
          ++ lit "\n\t\t\t\twhere\n \t\t\t\t\t"
          ++ (lit "(" ++ Join preds (lit " and ") ++ lit ")") ++ lit "\n \t\t\t\tlimit 1\n \t\t") ∧
      (∀ (i : Nat) (c : Column) (v : Value), tableColumns.ColumnList[i]? = some c →
        vals[i]? = some v → v ≠ Value.nil →
        (HasPrefix c.ColumnType (lit "binary") = true →
          BuildValueComparison U c.Name
              (lit "cast(\x27" ++ Sprint (c.ConvertArg v) ++ lit "\x27 as " ++ c.ColumnType
                ++ lit ")") EqualsComparisonSign =
            (lit "(" ++ EscapeName U c.Name ++ lit " = cast(\x27" ++ Sprint (c.ConvertArg v)
              ++ lit "\x27 as " ++ c.ColumnType ++ lit "))", none) ∧
          preds[i]? = some (lit "(" ++ EscapeName U c.Name ++ lit " = cast(\x27"
            ++ Sprint (c.ConvertArg v) ++ lit "\x27 as " ++ c.ColumnType ++ lit "))") ∧
          preds[i]? ≠ some (lit "(" ++ EscapeName U c.Name ++ lit " = ?)")) ∧
        (HasPrefix c.ColumnType (lit "binary") = false →
          BuildValueComparison U c.Name (lit "?") EqualsComparisonSign =
            (lit "(" ++ EscapeName U c.Name ++ lit " = ?)", none) ∧
          preds[i]? = some (lit "(" ++ EscapeName U c.Name ++ lit " = ?)"))) ∧
      uniqueKeyArgs =
        ((tableColumns.ColumnList.zip vals).filter fun cv =>
          decide (cv.2 ≠ Value.nil) && !HasPrefix cv.1.ColumnType (lit "binary")).map
          (fun cv => cv.1.ConvertArg cv.2) ∧
      uniqueKeyArgs.length =
        ((tableColumns.ColumnList.zip preds).filter fun cp =>
          decide (cp.2 = lit "(" ++ EscapeName U cp.1.Name ++ lit " = ?)")).length ∧
      ((∀ cv ∈ tableColumns.ColumnList.zip vals,
          questionMarks (EscapeName U cv.1.Name) = 0 ∧
          (cv.2 ≠ Value.nil → HasPrefix cv.1.ColumnType (lit "binary") = true →
            questionMarks cv.1.ColumnType = 0 ∧
            questionMarks (Sprint (cv.1.ConvertArg cv.2)) = 0)) →
        questionMarks (lit "(" ++ Join preds (lit " and ") ++ lit ")") =
          uniqueKeyArgs.length) := by
  obtain ⟨_, _, _, _, _, comparisons, hw, ht⟩ :=
    BuildDMLUpdateQuery_success U databaseName tableName tableColumns sharedColumns
      mappedSharedColumns uniqueKeyColumns valueArgs whereArgs text sharedArgs uniqueKeyArgs h
  obtain ⟨vals, hvals, hnames, hc, hu⟩ := whereLoop_done U tableColumns whereArgs _ _ _ _ _ hw
  rw [List.nil_append] at hc hu
  have hlen : vals.length = tableColumns.ColumnList.length := by
    have := congrArg List.length hvals
    simpa using this.symm
  have hcast : lit "cast(\x27" = 99 :: lit "ast(\x27" := by decide
  have hlit2 : lit "?" ≠ [] := by decide
  have e1 : ∀ a b : GoString, lit "(" ++ a ++ lit " " ++ EqualsComparisonSign ++ lit " "
      ++ b ++ lit ")" = lit "(" ++ a ++ lit " = " ++ b ++ lit ")" := by
    intro a b
    have : lit " " ++ EqualsComparisonSign ++ lit " " = lit " = " := by decide
    simp only [List.append_assoc] at this ⊢
    rw [← this]
    simp only [List.append_assoc]
  have e2 : ∀ a : GoString, lit "(" ++ a ++ lit " = " ++ lit "?" ++ lit ")" =
      lit "(" ++ a ++ lit " = ?)" := by
    intro a
    have : lit " = " ++ lit "?" ++ lit ")" = lit " = ?)" := by decide
    simp only [List.append_assoc] at this ⊢
    rw [this]
  have e3 : ∀ a b : GoString, lit "(" ++ a ++ lit " = " ++ (lit "cast(\x27" ++ b ++ lit ")")
      ++ lit ")" = lit "(" ++ a ++ lit " = cast(\x27" ++ b ++ lit "))" := by
    intro a b
    have h1 : lit " = " ++ lit "cast(\x27" = lit " = cast(\x27" := by decide
    have h2 : lit ")" ++ lit ")" = lit "))" := by decide
    simp only [List.append_assoc]
    rw [h2, ← List.append_assoc (lit " = "), h1]
  have hplace : ∀ c : Column, c.Name ≠ [] →
      BuildValueComparison U c.Name (lit "?") EqualsComparisonSign =
        (lit "(" ++ EscapeName U c.Name ++ lit " = ?)", none) := by
    intro c hn
    rw [BuildValueComparison_ok U _ _ _ hn hlit2, e1, e2]
  refine ⟨vals, comparisons, hvals, ?_, ht, ?_, ?_, ?_, ?_⟩
  · rw [hc, List.length_zipWith, hlen, Nat.min_self]; rfl
  · intro i c v hi hv hnil
    have hn : c.Name ≠ [] := hnames c (List.getElem?_mem hi)
    have hp : comparisons[i]? = some (wherePredicate U c v) := by
      rw [hc, List.getElem?_zipWith, hi, hv]
    constructor
    · intro hb
      have hl3 : lit "cast(\x27" ++ Sprint (c.ConvertArg v) ++ lit "\x27 as "
          ++ c.ColumnType ++ lit ")" ≠ [] := by simp [hcast]
      have hbvc := BuildValueComparison_ok U c.Name _ EqualsComparisonSign hn hl3
      rw [e1] at hbvc
      have e3' := e3 (EscapeName U c.Name)
        (Sprint (c.ConvertArg v) ++ lit "\x27 as " ++ c.ColumnType)
      simp only [List.append_assoc] at hbvc e3' ⊢
      rw [e3'] at hbvc
      have hpred : wherePredicate U c v = lit "(" ++ (EscapeName U c.Name ++ (lit " = cast(\x27"
          ++ (Sprint (c.ConvertArg v) ++ (lit "\x27 as " ++ (c.ColumnType ++ lit "))"))))) := by
        simp only [wherePredicate, hnil, hb, if_true, if_false, castLiteral,
          List.append_assoc, hbvc]
      refine ⟨hbvc, by rw [hp, hpred], ?_⟩
      rw [hp, hpred]
      have hq : lit " = ?)" = 32 :: 61 :: 32 :: 63 :: lit ")" := by decide
      have hk : lit " = cast(\x27" = 32 :: 61 :: 32 :: 99 :: lit "ast(\x27" := by decide
      simp [hq, hk]
    · intro hb
      refine ⟨hplace c hn, ?_⟩
      rw [hp]
      simp only [wherePredicate, hnil, hb, if_false, hplace c hn, Bool.false_eq_true]
  · rw [hu, flatten_whereArg_eq_filter]
  · rw [hu, length_flatten_whereArg U _ _ hnames, hc]
    congr 1
    apply List.filter_congr
    intro cp hcp
    have hn : cp.1.Name ≠ [] := hnames cp.1 (List.of_mem_zip hcp).1
    rw [hplace cp.1 hn]
  · intro hq
    have q1 : questionMarks (lit "(") = 0 := by decide
    have q2 : questionMarks (lit ")") = 0 := by decide
    have q3 : questionMarks (lit " and ") = 0 := by decide
    rw [questionMarks_append, questionMarks_append, questionMarks_Join _ q3, q1, q2, hc,
      questionMarks_whereClause U _ _ hnames hq, hu]
    simp

set_option maxRecDepth 10000 in
/-- The WHERE clause of the update at the row image `[1, nil, "a'b"]` of the table
`[id, name, bin_data]`. -/
theorem BuildDMLUpdateQuery_where_binary_inline_witness :
    ∃ (vals : List Value) (preds : List GoString),
      sampleColumns.ColumnList.map (rowValue sampleColumns sampleQuoteRow) = vals.map some ∧
      preds.length = sampleColumns.Len ∧
      (lit "\n \t\t\tupdate\n \t\t\t\t\t" ++ lit "`db`" ++ lit "." ++ lit "`tbl`"
          ++ lit "\n\t\t\t\tset\n\t\t\t\t\t" ++ lit "`id`=?, `name`=?, `bin_data`=?"
          ++ lit "\n\t\t\t\twhere\n \t\t\t\t\t" ++ sampleQuoteWhere
          ++ lit "\n \t\t\t\tlimit 1\n \t\t") =
        (lit "\n \t\t\tupdate\n \t\t\t\t\t" ++ EscapeName unquoteNone (lit "db") ++ lit "."
            ++ EscapeName unquoteNone (lit "tbl") ++ lit "\n\t\t\t\tset\n\t\t\t\t\t"
            ++ (BuildSetPreparedClause unquoteNone sampleColumns).1
            ++ lit "\n\t\t\t\twhere\n \t\t\t\t\t"
            ++ (lit "(" ++ Join preds (lit " and ") ++ lit ")")
            ++ lit "\n \t\t\t\tlimit 1\n \t\t") ∧
      (∀ (i : Nat) (c : Column) (v : Value), sampleColumns.ColumnList[i]? = some c →
        vals[i]? = some v → v ≠ Value.nil →
        (HasPrefix c.ColumnType (lit "binary") = true →
          BuildValueComparison unquoteNone c.Name
              (lit "cast(\x27" ++ Sprint (c.ConvertArg v) ++ lit "\x27 as " ++ c.ColumnType
                ++ lit ")") EqualsComparisonSign =
            (lit "(" ++ EscapeName unquoteNone c.Name ++ lit " = cast(\x27"
              ++ Sprint (c.ConvertArg v) ++ lit "\x27 as " ++ c.ColumnType ++ lit "))", none) ∧
          preds[i]? = some (lit "(" ++ EscapeName unquoteNone c.Name ++ lit " = cast(\x27"
            ++ Sprint (c.ConvertArg v) ++ lit "\x27 as " ++ c.ColumnType ++ lit "))") ∧
          preds[i]? ≠ some (lit "(" ++ EscapeName unquoteNone c.Name ++ lit " = ?)")) ∧
        (HasPrefix c.ColumnType (lit "binary") = false →
          BuildValueComparison unquoteNone c.Name (lit "?") EqualsComparisonSign =
            (lit "(" ++ EscapeName unquoteNone c.Name ++ lit " = ?)", none) ∧
          preds[i]? = some (lit "(" ++ EscapeName unquoteNone c.Name ++ lit " = ?)"))) ∧
      [Value.int 1] =
        ((sampleColumns.ColumnList.zip vals).filter fun cv =>
          decide (cv.2 ≠ Value.nil) && !HasPrefix cv.1.ColumnType (lit "binary")).map
          (fun cv => cv.1.ConvertArg cv.2) ∧
      [Value.int 1].length =
        ((sampleColumns.ColumnList.zip preds).filter fun cp =>
          decide (cp.2 = lit "(" ++ EscapeName unquoteNone cp.1.Name ++ lit " = ?)")).length ∧
      ((∀ cv ∈ sampleColumns.ColumnList.zip vals,
          questionMarks (EscapeName unquoteNone cv.1.Name) = 0 ∧
          (cv.2 ≠ Value.nil → HasPrefix cv.1.ColumnType (lit "binary") = true →
            questionMarks cv.1.ColumnType = 0 ∧
            questionMarks (Sprint (cv.1.ConvertArg cv.2)) = 0)) →
        questionMarks (lit "(" ++ Join preds (lit " and ") ++ lit ")") =
          [Value.int 1].length) :=
  BuildDMLUpdateQuery_where_binary_inline unquoteNone (lit "db") (lit "tbl")
    sampleColumns sampleColumns sampleColumns sampleKey sampleRow sampleQuoteRow
    (lit "\n \t\t\tupdate\n \t\t\t\t\t" ++ lit "`db`" ++ lit "." ++ lit "`tbl`"
        ++ lit "\n\t\t\t\tset\n\t\t\t\t\t" ++ lit "`id`=?, `name`=?, `bin_data`=?"
        ++ lit "\n\t\t\t\twhere\n \t\t\t\t\t" ++ sampleQuoteWhere
        ++ lit "\n \t\t\t\tlimit 1\n \t\t")
    [.ptr 1 (.int 1), .ptr 2 (.str (lit "x")), .ptr 3 .nil] [.int 1] (by decide)

set_option maxRecDepth 10000 in
/-- C7, at the binary value `x' or ?='`: `BuildDMLUpdateQuery` writes the value between the
single quotes of the inline literal as it is (builder.go:333, without `EscapeValue`), so the
WHERE clause reads `cast('x' or ?='' as binary(4))`: the literal ends after `x`, the binary
column brings a `?` placeholder of its own, and the clause holds two `?` while `uniqueKeyArgs`
holds the one value of `id`. With the `EscapeValue` text `x\' or ?=\'` the `?` would stay inside
the literal. -/
theorem BuildDMLUpdateQuery_where_binary_value_placeholder :
    BuildDMLUpdateQuery unquoteNone (lit "db") (lit "tbl") sampleColumns sampleColumns
        sampleColumns sampleKey sampleRow samplePlaceholderRow =
      some (lit "\n \t\t\tupdate\n \t\t\t\t\t`db`.`tbl`\n\t\t\t\tset\n\t\t\t\t\t"
          ++ lit "`id`=?, `name`=?, `bin_data`=?" ++ lit "\n\t\t\t\twhere\n \t\t\t\t\t"
          ++ lit "((`id` = ?) and (`name` is NULL) and "
          ++ lit "(`bin_data` = cast(\x27x\x27 or ?=\x27\x27 as binary(4))))"
          ++ lit "\n \t\t\t\tlimit 1\n \t\t",
        [.ptr 1 (.int 1), .ptr 2 (.str (lit "x")), .ptr 3 .nil], [.int 1], none) ∧
    questionMarks (lit "((`id` = ?) and (`name` is NULL) and "
      ++ lit "(`bin_data` = cast(\x27x\x27 or ?=\x27\x27 as binary(4))))") = 2 ∧
    [Value.int 1].length = 1 ∧
    EscapeValue (lit "x\x27 or ?=\x27") = lit "x\\\x27 or ?=\\\x27" := by
  refine ⟨by decide, by decide, by decide, by decide⟩

/-! ## Update: the shared arguments -/

set_option maxRecDepth 10000 in
/-- C6, at a shared column list that is a strict subset of the table columns: the SET clause
is built from the two mapped shared columns and holds two `?`, while `sharedArgs` holds three
entries, one per table column. -/
theorem BuildDMLUpdateQuery_sharedArgs_mismatch :
    BuildDMLUpdateQuery unquoteNone (lit "db") (lit "tbl") sampleColumns sampleShared
        sampleShared sampleKey sampleRow sampleRow =
      some (updateStatement (lit "`db`") (lit "`tbl`") (lit "`id`=?, `name`=?")
          (lit "((`id` = ?) and (`name` = ?) and (`bin_data` is NULL))"),
        [.ptr 1 (.int 1), .ptr 2 (.str (lit "x")), .ptr 3 .nil], [.int 1, .str (lit "x")],
        none) ∧
    sampleShared.IsSubsetOf sampleColumns = true ∧
    BuildSetPreparedClause unquoteNone sampleShared = (lit "`id`=?, `name`=?", none) ∧
    questionMarks (lit "`id`=?, `name`=?") = 2 ∧
    [Value.ptr 1 (.int 1), Value.ptr 2 (.str (lit "x")), Value.ptr 3 .nil].length = 3 := by
  refine ⟨by decide, by decide, by decide, by decide, by decide⟩

/-! ## Lemmas: delete -/

/-- What a successful `BuildDMLDeleteQuery` has gone through. -/
theorem BuildDMLDeleteQuery_success (U : GoString → Option GoString)
    (databaseName tableName : GoString) (tableColumns : ColumnList) (args : List ArgPtr)
    (text : GoString) (uniqueKeyArgs : List Value)
    (h : BuildDMLDeleteQuery U databaseName tableName tableColumns args =
      some (text, uniqueKeyArgs, none)) :
    args.length = tableColumns.Len ∧
    ∃ comparisons,
      whereLoop U tableColumns args tableColumns.ColumnList [] [] =
        some (.done (comparisons, uniqueKeyArgs)) ∧
      text = (lit "\n\t\t\tdelete\n\t\t\t\tfrom\n\t\t\t\t\t" ++ EscapeName U databaseName ++ lit "."
          ++ EscapeName U tableName ++ lit "\n\t\t\t\twhere\n\t\t\t\t\t"
          ++ (lit "(" ++ Join comparisons (lit " and ") ++ lit ")") ++ lit "\n\t\t") := by
  unfold BuildDMLDeleteQuery at h
  split_ifs at h with h1
  · simp at h
  · cases hw : whereLoop U tableColumns args tableColumns.ColumnList [] [] with
    | none => simp [hw] at h
    | some st =>
      cases st with
      | returned r => simp [hw] at h
      | done s =>
        obtain ⟨comparisons, uka⟩ := s
        simp only [hw, Option.some.injEq, Prod.mk.injEq, and_true] at h
        obtain ⟨ht, huka⟩ := h
        subst huka
        exact ⟨not_not.mp h1, comparisons, rfl, ht.symm⟩

/-- The comparison the where loop writes for a binary column with a value that is not NULL:
the inline literal holds the `%v` text of the converted value as it is. -/
theorem wherePredicate_binary (U : GoString → Option GoString) (c : Column) (v : Value)
    (hname : c.Name ≠ []) (hnil : v ≠ Value.nil)
    (hb : HasPrefix c.ColumnType (lit "binary") = true) :
    wherePredicate U c v =
      lit "(" ++ EscapeName U c.Name ++ lit " = cast(\x27" ++ Sprint (c.ConvertArg v)
        ++ lit "\x27 as " ++ c.ColumnType ++ lit "))" := by
  have hcast : lit "cast(\x27" = 99 :: lit "ast(\x27" := by decide
  have hl3 : castLiteral c v ≠ [] := by simp [castLiteral, hcast]
  have h1 : lit " " ++ (EqualsComparisonSign ++ (lit " " ++ lit "cast(\x27")) =
      lit " = cast(\x27" := by decide
  have h2 : lit ")" ++ lit ")" = lit "))" := by decide
  rw [wherePredicate, if_neg hnil, if_pos hb,
    BuildValueComparison_ok U c.Name _ EqualsComparisonSign hname hl3]
  simp only [castLiteral, List.append_assoc, h2]
  rw [← h1]
  simp only [List.append_assoc]

/-- In the comparisons the where loop has written, the entry of a binary column whose value is
not NULL is the inline literal with the `%v` text of the converted value as it is. -/
theorem zipWith_wherePredicate_binary (U : GoString → Option GoString) (cols : List Column)
    (vals : List Value) (hnames : ∀ c ∈ cols, c.Name ≠ []) (i : Nat) (c : Column) (v : Value)
    (hi : cols[i]? = some c) (hv : vals[i]? = some v) (hnil : v ≠ Value.nil)
    (hb : HasPrefix c.ColumnType (lit "binary") = true) :
    (List.zipWith (wherePredicate U) cols vals)[i]? =
      some (lit "(" ++ EscapeName U c.Name ++ lit " = cast(\x27" ++ Sprint (c.ConvertArg v)
        ++ lit "\x27 as " ++ c.ColumnType ++ lit "))") := by
  rw [List.getElem?_zipWith, hi, hv,
    ← wherePredicate_binary U c v (hnames c (List.getElem?_mem hi)) hnil hb]

/-! ## Update and delete: the inline literal of a binary column -/

/-- For every binary column with a value that is not NULL, the text between the single quotes
of the inline `cast('...' as <type>)` literal written by `BuildDMLUpdateQuery` and by
`BuildDMLDeleteQuery` is the `%v` text of the converted value as it is: `EscapeValue` is not
applied. -/
theorem binary_literal_is_unescaped_value (U : GoString → Option GoString)
    (databaseName tableName : GoString)
    (tableColumns sharedColumns mappedSharedColumns uniqueKeyColumns : ColumnList)
    (valueArgs whereArgs args : List ArgPtr) :
    (∀ (text : GoString) (sharedArgs uniqueKeyArgs : List Value),
      BuildDMLUpdateQuery U databaseName tableName tableColumns sharedColumns
        mappedSharedColumns uniqueKeyColumns valueArgs whereArgs =
          some (text, sharedArgs, uniqueKeyArgs, none) →
      ∃ (vals : List Value) (preds : List GoString),
        tableColumns.ColumnList.map (rowValue tableColumns whereArgs) = vals.map some ∧
        preds.length = tableColumns.Len ∧
        text = (lit "\n \t\t\tupdate\n \t\t\t\t\t" ++ EscapeName U databaseName ++ lit "."
            ++ EscapeName U tableName ++ lit "\n\t\t\t\tset\n\t\t\t\t\t"
            ++ (BuildSetPreparedClause U mappedSharedColumns).1
            ++ lit "\n\t\t\t\twhere\n \t\t\t\t\t"
            ++ (lit "(" ++ Join preds (lit " and ") ++ lit ")")
            ++ lit "\n \t\t\t\tlimit 1\n \t\t") ∧
        ∀ (i : Nat) (c : Column) (v : Value), tableColumns.ColumnList[i]? = some c →
          vals[i]? = some v → v ≠ Value.nil →
          HasPrefix c.ColumnType (lit "binary") = true →
          preds[i]? = some (lit "(" ++ EscapeName U c.Name ++ lit " = cast(\x27"
            ++ Sprint (c.ConvertArg v) ++ lit "\x27 as " ++ c.ColumnType ++ lit "))")) ∧
    (∀ (text : GoString) (uniqueKeyArgs : List Value),
      BuildDMLDeleteQuery U databaseName tableName tableColumns args =
          some (text, uniqueKeyArgs, none) →
      ∃ (vals : List Value) (preds : List GoString),
        tableColumns.ColumnList.map (rowValue tableColumns args) = vals.map some ∧
        preds.length = tableColumns.Len ∧
        text = (lit "\n\t\t\tdelete\n\t\t\t\tfrom\n\t\t\t\t\t" ++ EscapeName U databaseName
            ++ lit "."
            ++ EscapeName U tableName ++ lit "\n\t\t\t\twhere\n\t\t\t\t\t"
            ++ (lit "(" ++ Join preds (lit " and ") ++ lit ")") ++ lit "\n\t\t") ∧
        ∀ (i : Nat) (c : Column) (v : Value), tableColumns.ColumnList[i]? = some c →
          vals[i]? = some v → v ≠ Value.nil →
          HasPrefix c.ColumnType (lit "binary") = true →
          preds[i]? = some (lit "(" ++ EscapeName U c.Name ++ lit " = cast(\x27"
            ++ Sprint (c.ConvertArg v) ++ lit "\x27 as " ++ c.ColumnType ++ lit "))")) := by
  constructor
  · intro text sharedArgs uniqueKeyArgs h
    obtain ⟨_, _, _, _, _, comparisons, hw, ht⟩ :=
      BuildDMLUpdateQuery_success U databaseName tableName tableColumns sharedColumns
        mappedSharedColumns uniqueKeyColumns valueArgs whereArgs text sharedArgs uniqueKeyArgs h
    obtain ⟨vals, hvals, hnames, hc, _⟩ := whereLoop_done U tableColumns whereArgs _ _ _ _ _ hw
    rw [List.nil_append] at hc
    have hlen : vals.length = tableColumns.ColumnList.length := by
      have := congrArg List.length hvals
      simpa using this.symm
    refine ⟨vals, comparisons, hvals, ?_, ht, ?_⟩
    · rw [hc, List.length_zipWith, hlen, Nat.min_self]; rfl
    · intro i c v hi hv hnil hb
      rw [hc]
      exact zipWith_wherePredicate_binary U _ _ hnames i c v hi hv hnil hb
  · intro text uniqueKeyArgs h
    obtain ⟨_, comparisons, hw, ht⟩ :=
      BuildDMLDeleteQuery_success U databaseName tableName tableColumns args text
        uniqueKeyArgs h
    obtain ⟨vals, hvals, hnames, hc, _⟩ := whereLoop_done U tableColumns args _ _ _ _ _ hw
    rw [List.nil_append] at hc
    have hlen : vals.length = tableColumns.ColumnList.length := by
      have := congrArg List.length hvals
      simpa using this.symm
    refine ⟨vals, comparisons, hvals, ?_, ht, ?_⟩
    · rw [hc, List.length_zipWith, hlen, Nat.min_self]; rfl
    · intro i c v hi hv hnil hb
      rw [hc]
      exact zipWith_wherePredicate_binary U _ _ hnames i c v hi hv hnil hb

set_option maxRecDepth 10000 in
/-- C8, at the binary value `a'b`: `BuildDMLDeleteQuery` and `BuildDMLUpdateQuery` write
`cast('a'b' as binary(4))`, the value between the single quotes as it is (builder.go:219, 333),
with its single quote unescaped; the `EscapeValue` text of the value is `a\'b`, and the literal
with it, `cast('a\'b' as binary(4))`, is not what either statement holds. -/
theorem binary_literal_not_escaped :
    BuildDMLDeleteQuery unquoteNone (lit "db") (lit "tbl") sampleColumns sampleQuoteRow =
      some (lit "\n\t\t\tdelete\n\t\t\t\tfrom\n\t\t\t\t\t`db`.`tbl`\n\t\t\t\twhere\n\t\t\t\t\t"
          ++ lit "((`id` = ?) and (`name` is NULL) and "
          ++ lit "(`bin_data` = cast(\x27a\x27b\x27 as binary(4))))" ++ lit "\n\t\t",
        [.int 1], none) ∧
    BuildDMLUpdateQuery unquoteNone (lit "db") (lit "tbl") sampleColumns sampleColumns
        sampleColumns sampleKey sampleRow sampleQuoteRow =
      some (lit "\n \t\t\tupdate\n \t\t\t\t\t`db`.`tbl`\n\t\t\t\tset\n\t\t\t\t\t"
          ++ lit "`id`=?, `name`=?, `bin_data`=?" ++ lit "\n\t\t\t\twhere\n \t\t\t\t\t"
          ++ lit "((`id` = ?) and (`name` is NULL) and "
          ++ lit "(`bin_data` = cast(\x27a\x27b\x27 as binary(4))))"
          ++ lit "\n \t\t\t\tlimit 1\n \t\t",
        [.ptr 1 (.int 1), .ptr 2 (.str (lit "x")), .ptr 3 .nil], [.int 1], none) ∧
    EscapeValue (lit "a\x27b") = lit "a\\\x27b" ∧
    lit "(`bin_data` = cast(\x27a\x27b\x27 as binary(4)))" ≠
      lit "(`bin_data` = cast(\x27" ++ EscapeValue (lit "a\x27b") ++ lit "\x27 as binary(4)))" := by
  refine ⟨by decide, by decide, by decide, by decide⟩

set_option maxRecDepth 10000 in
/-- The inline literal at the row image `[1, nil, "a'b"]` of the table `[id, name, bin_data]`. -/
theorem binary_literal_is_unescaped_value_witness :
    (∃ (vals : List Value) (preds : List GoString),
        sampleColumns.ColumnList.map (rowValue sampleColumns sampleQuoteRow) = vals.map some ∧
        preds.length = sampleColumns.Len ∧
        (lit "\n \t\t\tupdate\n \t\t\t\t\t" ++ lit "`db`" ++ lit "." ++ lit "`tbl`"
            ++ lit "\n\t\t\t\tset\n\t\t\t\t\t" ++ lit "`id`=?, `name`=?, `bin_data`=?"
            ++ lit "\n\t\t\t\twhere\n \t\t\t\t\t" ++ sampleQuoteWhere
            ++ lit "\n \t\t\t\tlimit 1\n \t\t") =
        (lit "\n \t\t\tupdate\n \t\t\t\t\t" ++ EscapeName unquoteNone (lit "db") ++ lit "."
            ++ EscapeName unquoteNone (lit "tbl") ++ lit "\n\t\t\t\tset\n\t\t\t\t\t"
            ++ (BuildSetPreparedClause unquoteNone sampleColumns).1
            ++ lit "\n\t\t\t\twhere\n \t\t\t\t\t"
            ++ (lit "(" ++ Join preds (lit " and ") ++ lit ")")
            ++ lit "\n \t\t\t\tlimit 1\n \t\t") ∧
        ∀ (i : Nat) (c : Column) (v : Value), sampleColumns.ColumnList[i]? = some c →
          vals[i]? = some v → v ≠ Value.nil →
          HasPrefix c.ColumnType (lit "binary") = true →
          preds[i]? = some (lit "(" ++ EscapeName unquoteNone c.Name ++ lit " = cast(\x27"
            ++ Sprint (c.ConvertArg v) ++ lit "\x27 as " ++ c.ColumnType ++ lit "))")) ∧
    (∃ (vals : List Value) (preds : List GoString),
        sampleColumns.ColumnList.map (rowValue sampleColumns sampleQuoteRow) = vals.map some ∧
        preds.length = sampleColumns.Len ∧
        (lit "\n\t\t\tdelete\n\t\t\t\tfrom\n\t\t\t\t\t" ++ lit "`db`" ++ lit "." ++ lit "`tbl`"
            ++ lit "\n\t\t\t\twhere\n\t\t\t\t\t" ++ sampleQuoteWhere ++ lit "\n\t\t") =
        (lit "\n\t\t\tdelete\n\t\t\t\tfrom\n\t\t\t\t\t" ++ EscapeName unquoteNone (lit "db")
            ++ lit "." ++ EscapeName unquoteNone (lit "tbl") ++ lit "\n\t\t\t\twhere\n\t\t\t\t\t"
            ++ (lit "(" ++ Join preds (lit " and ") ++ lit ")") ++ lit "\n\t\t") ∧
        ∀ (i : Nat) (c : Column) (v : Value), sampleColumns.ColumnList[i]? = some c →
          vals[i]? = some v → v ≠ Value.nil →
          HasPrefix c.ColumnType (lit "binary") = true →
          preds[i]? = some (lit "(" ++ EscapeName unquoteNone c.Name ++ lit " = cast(\x27"
            ++ Sprint (c.ConvertArg v) ++ lit "\x27 as " ++ c.ColumnType ++ lit "))")) :=
  ⟨(binary_literal_is_unescaped_value unquoteNone (lit "db") (lit "tbl") sampleColumns
      sampleColumns sampleColumns sampleKey sampleRow sampleQuoteRow sampleQuoteRow).1
      (lit "\n \t\t\tupdate\n \t\t\t\t\t" ++ lit "`db`" ++ lit "." ++ lit "`tbl`"
          ++ lit "\n\t\t\t\tset\n\t\t\t\t\t" ++ lit "`id`=?, `name`=?, `bin_data`=?"
          ++ lit "\n\t\t\t\twhere\n \t\t\t\t\t" ++ sampleQuoteWhere
          ++ lit "\n \t\t\t\tlimit 1\n \t\t")
      [.ptr 1 (.int 1), .ptr 2 (.str (lit "x")), .ptr 3 .nil] [.int 1] (by decide),
    (binary_literal_is_unescaped_value unquoteNone (lit "db") (lit "tbl") sampleColumns
      sampleColumns sampleColumns sampleKey sampleRow sampleQuoteRow sampleQuoteRow).2
      (lit "\n\t\t\tdelete\n\t\t\t\tfrom\n\t\t\t\t\t" ++ lit "`db`" ++ lit "." ++ lit "`tbl`"
          ++ lit "\n\t\t\t\twhere\n\t\t\t\t\t" ++ sampleQuoteWhere ++ lit "\n\t\t")
      [.int 1] (by decide)⟩

/-! ## Lemmas: insert -/

/-- When the loop of `BuildDMLInsertQuery` runs to its end, it has read a value for every
column and appended one argument per column. -/
theorem insertLoop_some (tableColumns : ColumnList) (args : List ArgPtr) :
    ∀ (rest : List Column) (sharedArgs sharedArgs' : List Value),
      BuildDMLInsertQuery.loop tableColumns args rest sharedArgs = some sharedArgs' →
      ∃ vals : List Value,
        rest.map (rowValue tableColumns args) = vals.map some ∧
        sharedArgs' = sharedArgs ++ List.zipWith insertArg rest vals := by
  intro rest
  induction rest with
  | nil =>
    intro sharedArgs sharedArgs' h
    simp only [BuildDMLInsertQuery.loop, Option.some.injEq] at h
    exact ⟨[], by simp, by simp [h]⟩
  | cons column rest ih =>
    intro sharedArgs sharedArgs' h
    rw [BuildDMLInsertQuery.loop] at h
    cases hd : deref args (tableColumns.ordinal column.Name) with
    | none => simp [hd] at h
    | some p =>
      obtain ⟨addr, v⟩ := p
      have hrow : rowValue tableColumns args column = some v := by simp [rowValue, hd]
      have hstep : BuildDMLInsertQuery.loop tableColumns args rest
          (sharedArgs ++ [insertArg column v]) = some sharedArgs' := by
        cases v <;> simpa [hd, insertArg] using h
      obtain ⟨vals, h1, h2⟩ := ih _ _ hstep
      exact ⟨v :: vals, by simp [hrow, h1], by simp [h2]⟩

/-- What a successful `BuildDMLInsertQuery` has gone through. -/
theorem BuildDMLInsertQuery_success (U : GoString → Option GoString)
    (databaseName tableName : GoString)
    (tableColumns sharedColumns mappedSharedColumns : ColumnList) (args : List ArgPtr)
    (text : GoString) (sharedArgs : List Value)
    (h : BuildDMLInsertQuery U databaseName tableName tableColumns sharedColumns
      mappedSharedColumns args = some (text, sharedArgs, none)) :
    args.length = tableColumns.Len ∧
    sharedColumns.IsSubsetOf tableColumns = true ∧ sharedColumns.Len ≠ 0 ∧
    BuildDMLInsertQuery.loop tableColumns args tableColumns.ColumnList [] = some sharedArgs ∧
    text = (lit "\n\t\t\treplace into\n\t\t\t\t" ++ EscapeName U databaseName ++ lit "."
        ++ EscapeName U tableName ++ lit "\n\t\t\t\t\t("
        ++ Join ((duplicateNames tableColumns.Names).map (EscapeName U)) (lit ", ")
        ++ lit ")\n\t\t\t\tvalues\n\t\t\t\t\t("
        ++ Join (buildColumnsPreparedValues tableColumns) (lit ", ") ++ lit ")\n\t\t") := by
  unfold BuildDMLInsertQuery at h
  split_ifs at h with h1 h2 h3
  · simp at h
  · simp at h
  · simp at h
  · cases hl : BuildDMLInsertQuery.loop tableColumns args tableColumns.ColumnList [] with
    | none => simp [hl] at h
    | some sa =>
      simp only [hl, Option.some.injEq, Prod.mk.injEq, and_true] at h
      obtain ⟨ht, hsa⟩ := h
      subst hsa
      exact ⟨not_not.mp h1, by simpa using h2, h3, rfl, ht.symm⟩

/-- The row value of the `i`-th column when the ordinal map sends it to `i`. -/
theorem rowValue_of_ordinal (tableColumns : ColumnList) (args : List ArgPtr) (i : Nat)
    (c : Column) (hord : tableColumns.Ordinals c.Name = some (i : Int)) :
    rowValue tableColumns args c = (args[i]?).join.map (·.2) := by
  have hneg : ¬ ((i : Int) < 0) := by omega
  simp [rowValue, deref, index, ColumnList.ordinal, hord, hneg]

/-- The ordinal map of `sampleColumns` sends the `i`-th column to `i`. -/
theorem sampleColumns_ordinals (i : Nat) (c : Column)
    (hi : sampleColumns.ColumnList[i]? = some c) :
    sampleColumns.Ordinals c.Name = some (i : Int) := by
  match i, hi with
  | 0, hi =>
    obtain rfl : plainColumn "id" "int" = c := by
      simpa [sampleColumns, newColumnList, ColumnList.ColumnList] using hi
    decide
  | 1, hi =>
    obtain rfl : plainColumn "name" "varchar(8)" = c := by
      simpa [sampleColumns, newColumnList, ColumnList.ColumnList] using hi
    decide
  | 2, hi =>
    obtain rfl : plainColumn "bin_data" "binary(4)" = c := by
      simpa [sampleColumns, newColumnList, ColumnList.ColumnList] using hi
    decide
  | n + 3, hi => simp [sampleColumns, newColumnList, ColumnList.ColumnList] at hi

/-! ## Insert -/

/-- C9: whenever `BuildDMLInsertQuery` succeeds on a column list whose ordinal map sends the
i-th column to i, the returned argument list has the length of the full column list, and its
i-th entry is NULL when `rowArgs[i]` is NULL and the i-th column's `ConvertArg` of `rowArgs[i]`
otherwise. -/
theorem BuildDMLInsertQuery_args (U : GoString → Option GoString)
    (databaseName tableName : GoString)
    (tableColumns sharedColumns mappedSharedColumns : ColumnList) (rowArgs : List ArgPtr)
    (text : GoString) (sharedArgs : List Value)
    (h : BuildDMLInsertQuery U databaseName tableName tableColumns sharedColumns
      mappedSharedColumns rowArgs = some (text, sharedArgs, none))
    (hord : ∀ (i : Nat) (c : Column), tableColumns.ColumnList[i]? = some c →
      tableColumns.Ordinals c.Name = some (i : Int)) :
    sharedArgs.length = tableColumns.Len ∧
    ∀ (i : Nat) (c : Column), tableColumns.ColumnList[i]? = some c →
      ∃ (addr : Nat) (v : Value), rowArgs[i]? = some (some (addr, v)) ∧
        sharedArgs[i]? = some (if v = Value.nil then Value.nil else c.ConvertArg v) := by
  obtain ⟨_, _, _, hl, _⟩ := BuildDMLInsertQuery_success U databaseName tableName tableColumns
    sharedColumns mappedSharedColumns rowArgs text sharedArgs h
  obtain ⟨vals, hvals, hsa⟩ := insertLoop_some tableColumns rowArgs _ _ _ hl
  rw [List.nil_append] at hsa
  have hlen : vals.length = tableColumns.ColumnList.length := by
    have := congrArg List.length hvals
    simpa using this.symm
  constructor
  · rw [hsa, List.length_zipWith, hlen, Nat.min_self]; rfl
  · intro i c hi
    have hi' : i < tableColumns.ColumnList.length := (List.getElem?_eq_some.mp hi).1
    have hv : vals[i]? = some vals[i] := List.getElem?_eq_getElem (by omega)
    have hrow := congrArg (fun l => l[i]?) hvals
    simp only [List.getElem?_map, hi, hv, Option.map_some'] at hrow
    rw [rowValue_of_ordinal tableColumns rowArgs i c (hord i c hi)] at hrow
    cases ha : rowArgs[i]? with
    | none => simp [ha] at hrow
    | some p =>
      cases p with
      | none => simp [ha] at hrow
      | some q =>
        obtain ⟨addr, v⟩ := q
        simp only [ha, Option.join, Option.bind, Option.map_some', Option.some.injEq] at hrow
        refine ⟨addr, v, rfl, ?_⟩
        rw [hsa, List.getElem?_zipWith, hi, hv, ← hrow]
        rfl

set_option maxRecDepth 10000 in
/-- C9 at the specification's example: columns `[id, name, bin_data]`, row `[1, "x", nil]`,
identity conversion, returned arguments `[1, "x", nil]`. -/
theorem BuildDMLInsertQuery_args_witness :
    [Value.int 1, Value.str (lit "x"), Value.nil].length = sampleColumns.Len ∧
    ∀ (i : Nat) (c : Column), sampleColumns.ColumnList[i]? = some c →
      ∃ (addr : Nat) (v : Value), sampleRow[i]? = some (some (addr, v)) ∧
        [Value.int 1, Value.str (lit "x"), Value.nil][i]? =
          some (if v = Value.nil then Value.nil else c.ConvertArg v) :=
  BuildDMLInsertQuery_args unquoteNone (lit "db") (lit "tbl") sampleColumns
    sampleShared sampleShared sampleRow
    (insertStatement (lit "`db`") (lit "`tbl`") (lit "`id`, `name`, `bin_data`") (lit "?, ?, ?"))
    [.int 1, .str (lit "x"), .nil] (by decide) sampleColumns_ordinals

/-- A prepared-value token holds exactly one `?` when the target timezone text holds none. -/
theorem questionMarks_preparedValueToken (c : Column)
    (htz : ∀ tz, c.TimezoneConversion = some tz → questionMarks tz.ToTimezone = 0) :
    questionMarks (preparedValueToken c) = 1 := by
  have q1 : questionMarks (lit "convert_tz(?, \x27") = 1 := by decide
  have q2 : questionMarks (lit "\x27, \x27") = 0 := by decide
  have q3 : questionMarks (lit "+00:00") = 0 := by decide
  have q4 : questionMarks (lit "\x27)") = 0 := by decide
  have q5 : questionMarks (lit "?") = 1 := by decide
  unfold preparedValueToken
  cases h : c.TimezoneConversion with
  | none => simpa using q5
  | some tz => simp [questionMarks_append, q1, q2, q3, q4, htz tz h]

/-- C10: whenever `BuildDMLInsertQuery` succeeds, the column-name list of the statement is the
`EscapeName` of every column of the full table list in physical order joined by ", " (whatever
`sharedColumns` and `mappedSharedColumns` are), and its VALUES list has exactly one token per
full-table column in the same order, `?` or `convert_tz(?, '<tz>', '+00:00')` for a column with
a timezone conversion; the number of tokens is the length of the returned argument list, and
so is the number of `?` bytes of the VALUES list when no timezone text holds a `?`. -/
theorem BuildDMLInsertQuery_statement (U : GoString → Option GoString)
    (databaseName tableName : GoString)
    (tableColumns sharedColumns mappedSharedColumns : ColumnList) (rowArgs : List ArgPtr)
    (text : GoString) (sharedArgs : List Value)
    (h : BuildDMLInsertQuery U databaseName tableName tableColumns sharedColumns
      mappedSharedColumns rowArgs = some (text, sharedArgs, none)) :
    ∃ tokens : List GoString,
      text = (lit "\n\t\t\treplace into\n\t\t\t\t" ++ EscapeName U databaseName ++ lit "."
          ++ EscapeName U tableName ++ lit "\n\t\t\t\t\t("
          ++ (Join (tableColumns.ColumnList.map fun c => EscapeName U c.Name) (lit ", "))
          ++ lit ")\n\t\t\t\tvalues\n\t\t\t\t\t(" ++ Join tokens (lit ", ") ++ lit ")\n\t\t") ∧
      tokens.length = tableColumns.Len ∧
      (∀ (i : Nat) (c : Column), tableColumns.ColumnList[i]? = some c →
        (c.TimezoneConversion = none → tokens[i]? = some (lit "?")) ∧
        (∀ tz, c.TimezoneConversion = some tz →
          tokens[i]? = some (lit "convert_tz(?, \x27" ++ tz.ToTimezone
            ++ lit "\x27, \x27+00:00\x27)"))) ∧
      tokens.length = sharedArgs.length ∧
      ((∀ c ∈ tableColumns.ColumnList, ∀ tz, c.TimezoneConversion = some tz →
          questionMarks tz.ToTimezone = 0) →
        questionMarks (Join tokens (lit ", ")) = sharedArgs.length) := by
  obtain ⟨_, _, _, hl, ht⟩ := BuildDMLInsertQuery_success U databaseName tableName tableColumns
    sharedColumns mappedSharedColumns rowArgs text sharedArgs h
  obtain ⟨vals, hvals, hsa⟩ := insertLoop_some tableColumns rowArgs _ _ _ hl
  rw [List.nil_append] at hsa
  have hlen : vals.length = tableColumns.ColumnList.length := by
    have := congrArg List.length hvals
    simpa using this.symm
  have hsalen : sharedArgs.length = tableColumns.ColumnList.length := by
    rw [hsa, List.length_zipWith, hlen, Nat.min_self]
  refine ⟨buildColumnsPreparedValues tableColumns, ?_, ?_, ?_, ?_, ?_⟩
  · rw [ht]
    simp only [duplicateNames, ColumnList.Names, ColumnList.ColumnList, List.map_map]
    rfl
  · simp [buildColumnsPreparedValues, ColumnList.Len, ColumnList.ColumnList]
  · intro i c hi
    have htok : (buildColumnsPreparedValues tableColumns)[i]? = some (preparedValueToken c) := by
      simp [buildColumnsPreparedValues, hi]
    constructor
    · intro hnone
      rw [htok]; simp [preparedValueToken, hnone]
    · intro tz htz
      have e : lit "\x27, \x27" ++ lit "+00:00" ++ lit "\x27)" = lit "\x27, \x27+00:00\x27)" := by
        decide
      rw [htok]
      simp only [preparedValueToken, htz, List.append_assoc, Option.some.injEq,
        List.append_cancel_left_eq]
      simpa using e
  · rw [hsalen]; simp [buildColumnsPreparedValues]
  · intro htz
    have q : questionMarks (lit ", ") = 0 := by decide
    rw [questionMarks_Join _ q, hsalen]
    simp only [buildColumnsPreparedValues, List.map_map]
    rw [List.map_congr_left (g := fun _ => 1)
      (fun c hc => by simpa using questionMarks_preparedValueToken c (htz c hc))]
    simp

set_option maxRecDepth 10000 in
/-- C10 at the specification's example: `(id, name, bin_data)` and `(?, ?, ?)`. -/
theorem BuildDMLInsertQuery_statement_witness :
    BuildDMLInsertQuery unquoteNone (lit "db") (lit "tbl") sampleColumns sampleShared
        sampleKey sampleRow =
      some (lit "\n\t\t\treplace into\n\t\t\t\t" ++ lit "`db`" ++ lit "." ++ lit "`tbl`"
          ++ lit "\n\t\t\t\t\t(" ++ lit "`id`, `name`, `bin_data`"
          ++ lit ")\n\t\t\t\tvalues\n\t\t\t\t\t(" ++ lit "?, ?, ?" ++ lit ")\n\t\t",
        [.int 1, .str (lit "x"), .nil], none) ∧
    ∃ tokens : List GoString,
      (lit "\n\t\t\treplace into\n\t\t\t\t" ++ lit "`db`" ++ lit "." ++ lit "`tbl`"
          ++ lit "\n\t\t\t\t\t(" ++ lit "`id`, `name`, `bin_data`"
          ++ lit ")\n\t\t\t\tvalues\n\t\t\t\t\t(" ++ lit "?, ?, ?" ++ lit ")\n\t\t") =
        (lit "\n\t\t\treplace into\n\t\t\t\t" ++ EscapeName unquoteNone (lit "db") ++ lit "."
            ++ EscapeName unquoteNone (lit "tbl") ++ lit "\n\t\t\t\t\t("
            ++ (Join (sampleColumns.ColumnList.map fun c => EscapeName unquoteNone c.Name)
                (lit ", "))
            ++ lit ")\n\t\t\t\tvalues\n\t\t\t\t\t(" ++ Join tokens (lit ", ") ++ lit ")\n\t\t") ∧
      tokens.length = sampleColumns.Len ∧
      (∀ (i : Nat) (c : Column), sampleColumns.ColumnList[i]? = some c →
        (c.TimezoneConversion = none → tokens[i]? = some (lit "?")) ∧
        (∀ tz, c.TimezoneConversion = some tz →
          tokens[i]? = some (lit "convert_tz(?, \x27" ++ tz.ToTimezone
            ++ lit "\x27, \x27+00:00\x27)"))) ∧
      tokens.length = [Value.int 1, Value.str (lit "x"), Value.nil].length ∧
      ((∀ c ∈ sampleColumns.ColumnList, ∀ tz, c.TimezoneConversion = some tz →
          questionMarks tz.ToTimezone = 0) →
        questionMarks (Join tokens (lit ", ")) =
          [Value.int 1, Value.str (lit "x"), Value.nil].length) :=
  ⟨by decide,
  BuildDMLInsertQuery_statement unquoteNone (lit "db") (lit "tbl") sampleColumns
    sampleShared sampleKey sampleRow
    (lit "\n\t\t\treplace into\n\t\t\t\t" ++ lit "`db`" ++ lit "." ++ lit "`tbl`"
        ++ lit "\n\t\t\t\t\t(" ++ lit "`id`, `name`, `bin_data`"
        ++ lit ")\n\t\t\t\tvalues\n\t\t\t\t\t(" ++ lit "?, ?, ?" ++ lit ")\n\t\t")
    [.int 1, .str (lit "x"), .nil] (by decide)⟩

/-! ## Value and equals comparisons: errors -/

/-- C19: for every column, value and sign, `BuildValueComparison` returns an error exactly when
the column or the value is the empty string, and then the text is empty; otherwise it returns
exactly `"(" + EscapeName(column) + " " + sign + " " + value + ")"` with no error. -/
theorem BuildValueComparison_error_iff (U : GoString → Option GoString)
    (column value sign : GoString) :
    ((BuildValueComparison U column value sign).2 ≠ none ↔ (column = [] ∨ value = [])) ∧
    ((BuildValueComparison U column value sign).2 ≠ none →
      (BuildValueComparison U column value sign).1 = []) ∧
    (¬ (column = [] ∨ value = []) →
      BuildValueComparison U column value sign =
        (lit "(" ++ EscapeName U column ++ lit " " ++ sign ++ lit " " ++ value ++ lit ")",
          none)) := by
  unfold BuildValueComparison
  by_cases hc : column = []
  · simp [hc]
  · by_cases hv : value = []
    · simp [hc, hv]
    · simp [hc, hv]

/-- C19 at an empty column, an empty value, and the fragment `(a = ?)`. -/
theorem BuildValueComparison_error_iff_witness :
    BuildValueComparison unquoteNone [] (lit "?") (lit "=") =
      ([], some "Empty column in GetValueComparison") ∧
    BuildValueComparison unquoteNone (lit "a") [] (lit "=") =
      ([], some "Empty value in GetValueComparison") ∧
    BuildValueComparison unquoteNone (lit "a") (lit "?") (lit "=") = (lit "(`a` = ?)", none) := by
  refine ⟨by decide, by decide, ?_⟩
  rw [(BuildValueComparison_error_iff unquoteNone (lit "a") (lit "?") (lit "=")).2.2
    (by decide)]
  decide

/-- With an empty column name or an empty value text `BuildValueComparison` returns empty text
and an error. -/
theorem BuildValueComparison_fails (U : GoString → Option GoString)
    (column value sign : GoString) (h : column = [] ∨ value = []) :
    ∃ err, BuildValueComparison U column value sign = ([], some err) := by
  unfold BuildValueComparison
  by_cases hc : column = []
  · exact ⟨_, by rw [if_pos hc]⟩
  · have hv : value = [] := h.resolve_left hc
    exact ⟨_, by rw [if_neg hc, if_pos hv]⟩

/-- The loop of `BuildEqualsComparison` never panics once the lengths agree; it runs to its end
exactly when no remaining column name and no remaining value is empty, and an early return
carries empty text and an error. -/
theorem equalsLoop_total (U : GoString → Option GoString) (values : List GoString) :
    ∀ (rest : List GoString) (i : Nat) (comparisons : List GoString),
      rest.length + i = values.length →
      ∃ r, BuildEqualsComparison.loop U values rest i comparisons = some r ∧
        ((∃ comparisons', r = .done comparisons') ↔
          ((∀ c ∈ rest, c ≠ []) ∧ ∀ v ∈ values.drop i, v ≠ [])) ∧
        (∀ ret, r = .returned ret → ret.1 = [] ∧ ret.2 ≠ none) := by
  intro rest
  induction rest with
  | nil =>
    intro i comparisons hlen
    have hd : values.drop i = [] := List.drop_of_length_le (by simp at hlen; omega)
    exact ⟨_, rfl, by simp [hd], by simp⟩
  | cons column rest ih =>
    intro i comparisons hlen
    have hi : i < values.length := by simp at hlen; omega
    have hdrop : values.drop i = values[i] :: values.drop (i + 1) :=
      List.drop_eq_getElem_cons hi
    rw [BuildEqualsComparison.loop, List.getElem?_eq_getElem hi]
    by_cases hok : column = [] ∨ values[i] = []
    · obtain ⟨err, hbv⟩ := BuildValueComparison_fails U column values[i] EqualsComparisonSign hok
      simp only [hbv]
      refine ⟨_, rfl, ?_, ?_⟩
      · constructor
        · rintro ⟨c', hc'⟩; cases hc'
        · rintro ⟨h1, h2⟩
          rcases hok with h | h
          · exact absurd h (h1 column (by simp))
          · exact absurd h (h2 values[i] (hdrop ▸ List.mem_cons_self _ _))
      · intro ret hret
        cases hret
        simp
    · have hcol : column ≠ [] := fun h => hok (Or.inl h)
      have hval : values[i] ≠ [] := fun h => hok (Or.inr h)
      simp only [BuildValueComparison_ok U column values[i] _ hcol hval]
      obtain ⟨r, hr, hiff, hret⟩ := ih (i + 1) (comparisons ++ [lit "(" ++ EscapeName U column
        ++ lit " " ++ EqualsComparisonSign ++ lit " " ++ values[i] ++ lit ")"])
        (by simp at hlen ⊢; omega)
      refine ⟨r, hr, ?_, hret⟩
      rw [hiff]
      constructor
      · rintro ⟨h1, h2⟩
        refine ⟨fun c hc => ?_, fun v hv => ?_⟩
        · rcases List.mem_cons.mp hc with rfl | hc
          · exact hcol
          · exact h1 c hc
        · rw [hdrop] at hv
          rcases List.mem_cons.mp hv with rfl | hv
          · exact hval
          · exact h2 v hv
      · rintro ⟨h1, h2⟩
        exact ⟨fun c hc => h1 c (List.mem_cons_of_mem _ hc),
          fun v hv => h2 v (by rw [hdrop]; exact List.mem_cons_of_mem _ hv)⟩

/-- C20: `BuildEqualsComparison` returns (it does not panic), and it returns an error exactly
when `columns` is empty, or `len(columns) != len(values)`, or some column name or some value
text is the empty string; with an error the text is empty. -/
theorem BuildEqualsComparison_error_iff (U : GoString → Option GoString)
    (columns values : List GoString) :
    ∃ (text : GoString) (err : Option Error),
      BuildEqualsComparison U columns values = some (text, err) ∧
      (err ≠ none ↔
        (columns = [] ∨ columns.length ≠ values.length ∨ (∃ c ∈ columns, c = []) ∨
          ∃ v ∈ values, v = [])) ∧
      (err ≠ none → text = []) := by
  unfold BuildEqualsComparison
  by_cases h0 : columns.length = 0
  · have : columns = [] := List.length_eq_zero.mp h0
    exact ⟨_, _, by rw [if_pos h0], by simp [this], fun _ => rfl⟩
  · have hne : columns ≠ [] := fun h => h0 (by simp [h])
    by_cases hl : columns.length ≠ values.length
    · exact ⟨_, _, by rw [if_neg h0, if_pos hl], by simp [hl], fun _ => rfl⟩
    · rw [if_neg h0, if_neg hl]
      have hl' : columns.length = values.length := not_not.mp hl
      obtain ⟨r, hr, hiff, hret⟩ := equalsLoop_total U values columns 0 [] (by simpa using hl')
      rw [hr]
      rw [List.drop_zero] at hiff
      cases r with
      | returned ret =>
        obtain ⟨t, e⟩ := ret
        obtain ⟨ht, he⟩ := hret (t, e) rfl
        refine ⟨t, e, rfl, ?_, fun _ => ht⟩
        constructor
        · intro _
          by_contra hcon
          push_neg at hcon
          have := hiff.mpr ⟨hcon.2.2.1, hcon.2.2.2⟩
          obtain ⟨c', hc'⟩ := this
          cases hc'
        · intro _; exact he
      | done comparisons =>
        refine ⟨_, none, rfl, ?_, fun h => absurd rfl h⟩
        have := hiff.mp ⟨comparisons, rfl⟩
        constructor
        · intro h; exact absurd rfl h
        · rintro (h | h | ⟨c, hc, hce⟩ | ⟨v, hv, hve⟩)
          · exact absurd h hne
          · exact absurd hl' h
          · exact absurd hce (this.1 c hc)
          · exact absurd hve (this.2 v hv)

/-- C20 at the specification's example: `BuildEqualsComparison(["a","b"], ["1"])` fails, with
empty text. -/
theorem BuildEqualsComparison_error_iff_witness :
    ∃ err : Error, BuildEqualsComparison unquoteNone [lit "a", lit "b"] [lit "1"] =
      some ([], some err) := by
  obtain ⟨text, err, h, hiff, hempty⟩ :=
    BuildEqualsComparison_error_iff unquoteNone [lit "a", lit "b"] [lit "1"]
  have herr : err ≠ none := hiff.mpr (Or.inr (Or.inl (by decide)))
  cases err with
  | none => exact absurd rfl herr
  | some e => exact ⟨e, by rw [h, hempty herr]⟩

/-! ## DML builders: errors -/

/-- C14: each of `BuildDMLInsertQuery`, `BuildDMLDeleteQuery` and `BuildDMLUpdateQuery` returns
an error, with empty statement text and empty argument lists, whenever the length of an
argument vector it is given (`rowArgs`; for update `valueArgs` or `whereArgs`) differs from the
full table column count. -/
theorem DML_error_of_args_length (U : GoString → Option GoString)
    (databaseName tableName : GoString)
    (tableColumns sharedColumns mappedSharedColumns uniqueKeyColumns : ColumnList)
    (rowArgs valueArgs whereArgs : List ArgPtr) :
    (rowArgs.length ≠ tableColumns.Len →
      ∃ err : Error, BuildDMLInsertQuery U databaseName tableName tableColumns sharedColumns
        mappedSharedColumns rowArgs = some ([], [], some err)) ∧
    (rowArgs.length ≠ tableColumns.Len →
      ∃ err : Error, BuildDMLDeleteQuery U databaseName tableName tableColumns rowArgs =
        some ([], [], some err)) ∧
    ((valueArgs.length ≠ tableColumns.Len ∨ whereArgs.length ≠ tableColumns.Len) →
      ∃ err : Error, BuildDMLUpdateQuery U databaseName tableName tableColumns sharedColumns
        mappedSharedColumns uniqueKeyColumns valueArgs whereArgs =
          some ([], [], [], some err)) := by
  refine ⟨fun h => ?_, fun h => ?_, fun h => ?_⟩
  · exact ⟨_, by rw [BuildDMLInsertQuery, if_pos h]⟩
  · exact ⟨_, by rw [BuildDMLDeleteQuery, if_pos h]⟩
  · by_cases hv : valueArgs.length ≠ tableColumns.Len
    · exact ⟨_, by rw [BuildDMLUpdateQuery, if_pos hv]⟩
    · have hw : whereArgs.length ≠ tableColumns.Len := h.resolve_left hv
      exact ⟨_, by rw [BuildDMLUpdateQuery, if_neg hv, if_pos hw]⟩

/-- C14 at a row image of two values for the three columns of `sampleColumns`. -/
theorem DML_error_of_args_length_witness :
    (∃ err : Error, BuildDMLInsertQuery unquoteNone (lit "db") (lit "tbl") sampleColumns
      sampleShared sampleShared [some (1, .int 1), some (2, .nil)] = some ([], [], some err)) ∧
    (∃ err : Error, BuildDMLDeleteQuery unquoteNone (lit "db") (lit "tbl") sampleColumns
      [some (1, .int 1), some (2, .nil)] = some ([], [], some err)) ∧
    (∃ err : Error, BuildDMLUpdateQuery unquoteNone (lit "db") (lit "tbl") sampleColumns
      sampleShared sampleShared sampleKey sampleRow [some (1, .int 1), some (2, .nil)] =
        some ([], [], [], some err)) :=
  have h := DML_error_of_args_length unquoteNone (lit "db") (lit "tbl") sampleColumns
    sampleShared sampleShared sampleKey [some (1, .int 1), some (2, .nil)] sampleRow
    [some (1, .int 1), some (2, .nil)]
  ⟨h.1 (by decide), h.2.1 (by decide), h.2.2 (Or.inr (by decide))⟩

/-- C13: `BuildDMLInsertQuery` returns an error whenever `sharedColumns` contains a column
absent from the full column list, and whenever `sharedColumns` is empty; in both cases the
returned statement text is empty and no arguments are returned. -/
theorem BuildDMLInsertQuery_error_of_shared (U : GoString → Option GoString)
    (databaseName tableName : GoString)
    (tableColumns sharedColumns mappedSharedColumns : ColumnList) (rowArgs : List ArgPtr)
    (h : (∃ c ∈ sharedColumns.ColumnList, c.Name ∉ tableColumns.Names) ∨
      sharedColumns.Len = 0) :
    ∃ err : Error, BuildDMLInsertQuery U databaseName tableName tableColumns sharedColumns
      mappedSharedColumns rowArgs = some ([], [], some err) := by
  unfold BuildDMLInsertQuery
  by_cases h1 : rowArgs.length ≠ tableColumns.Len
  · exact ⟨_, by rw [if_pos h1]⟩
  · rw [if_neg h1]
    by_cases h2 : (!sharedColumns.IsSubsetOf tableColumns) = true
    · exact ⟨_, by rw [if_pos h2]⟩
    · rw [if_neg h2]
      have h3 : sharedColumns.Len = 0 := by
        rcases h with ⟨c, hc, hn⟩ | h
        · exfalso
          apply h2
          simp only [ColumnList.IsSubsetOf, Bool.not_eq_true', List.all_eq_false]
          exact ⟨c, hc, by simpa using hn⟩
        · exact h
      exact ⟨_, by rw [if_pos h3]⟩

/-- C13 at shared columns `[id, name]` against a table that has only `id`, and at an empty
shared column list. -/
theorem BuildDMLInsertQuery_error_of_shared_witness :
    (∃ err : Error, BuildDMLInsertQuery unquoteNone (lit "db") (lit "tbl") sampleKey
      sampleShared sampleShared [some (1, .int 1)] = some ([], [], some err)) ∧
    (∃ err : Error, BuildDMLInsertQuery unquoteNone (lit "db") (lit "tbl") sampleColumns
      (newColumnList []) (newColumnList []) sampleRow = some ([], [], some err)) :=
  ⟨BuildDMLInsertQuery_error_of_shared unquoteNone (lit "db") (lit "tbl") sampleKey
      sampleShared sampleShared [some (1, .int 1)]
      (Or.inl ⟨plainColumn "name" "varchar(8)", by
        simp [sampleShared, newColumnList, ColumnList.ColumnList], by decide⟩),
    BuildDMLInsertQuery_error_of_shared unquoteNone (lit "db") (lit "tbl") sampleColumns
      (newColumnList []) (newColumnList []) sampleRow (Or.inr (by decide))⟩

set_option maxRecDepth 10000 in
/-- C12, at an empty `mappedSharedColumns`: `BuildSetPreparedClause` fails, and
`BuildDMLUpdateQuery` returns a nil error together with a statement whose SET clause is
empty. -/
theorem BuildDMLUpdateQuery_swallows_set_error :
    BuildSetPreparedClause unquoteNone (newColumnList []) =
      ([], some "Got 0 columns in BuildSetPreparedClause") ∧
    BuildDMLUpdateQuery unquoteNone (lit "db") (lit "tbl") sampleColumns sampleShared
        (newColumnList []) sampleKey sampleRow sampleRow =
      some (updateStatement (lit "`db`") (lit "`tbl`") []
          (lit "((`id` = ?) and (`name` = ?) and (`bin_data` is NULL))"),
        [.ptr 1 (.int 1), .ptr 2 (.str (lit "x")), .ptr 3 .nil], [.int 1, .str (lit "x")],
        none) := by
  refine ⟨by decide, by decide⟩

/-! ## Delete: the where clause -/

/-- The comparison the where loop writes for a column whose value is NULL. -/
theorem wherePredicate_null (U : GoString → Option GoString) (c : Column)
    (hname : c.Name ≠ []) :
    wherePredicate U c Value.nil = lit "(" ++ EscapeName U c.Name ++ lit " is NULL)" := by
  have hl : lit "NULL" ≠ [] := by decide
  have h1 : lit " " ++ (IsEqualsComparisonSign ++ (lit " " ++ (lit "NULL" ++ lit ")"))) =
      lit " is NULL)" := by decide
  rw [wherePredicate, if_pos rfl, BuildValueComparison_ok U c.Name _ _ hname hl]
  simp only [List.append_assoc]
  rw [h1]

/-- The comparison the where loop writes for a column that is not binary and whose value is
not NULL. -/
theorem wherePredicate_placeholder (U : GoString → Option GoString) (c : Column) (v : Value)
    (hname : c.Name ≠ []) (hnil : v ≠ Value.nil)
    (hb : HasPrefix c.ColumnType (lit "binary") = false) :
    wherePredicate U c v = lit "(" ++ EscapeName U c.Name ++ lit " = ?)" := by
  have hl : lit "?" ≠ [] := by decide
  have h1 : lit " " ++ (EqualsComparisonSign ++ (lit " " ++ (lit "?" ++ lit ")"))) =
      lit " = ?)" := by decide
  rw [wherePredicate, if_neg hnil, hb, if_neg (by simp),
    BuildValueComparison_ok U c.Name _ _ hname hl]
  simp only [List.append_assoc]
  rw [h1]

/-- The row value read by ordinal is the value behind `rowArgs[i]` when the ordinal map sends
the column to `i`. -/
theorem rowArgs_of_rowValue (tableColumns : ColumnList) (rowArgs : List ArgPtr) (i : Nat)
    (c : Column) (v : Value) (hord : tableColumns.Ordinals c.Name = some (i : Int))
    (hrow : rowValue tableColumns rowArgs c = some v) :
    ∃ addr : Nat, rowArgs[i]? = some (some (addr, v)) := by
  rw [rowValue_of_ordinal tableColumns rowArgs i c hord] at hrow
  cases ha : rowArgs[i]? with
  | none => simp [ha] at hrow
  | some p =>
    cases p with
    | none => simp [ha] at hrow
    | some q =>
      obtain ⟨addr, w⟩ := q
      simp only [ha, Option.join, Option.bind, Option.map_some', Option.some.injEq, id] at hrow
      exact ⟨addr, by rw [hrow]⟩

/-- C11: whenever `BuildDMLDeleteQuery` succeeds on a table of n columns, its WHERE clause is
the n predicates `preds` joined by " and " in parentheses, one per full-table column in
physical order, where the predicate of a column is `(col is NULL)` when its row value (the
value behind `rowArgs[i]` when the ordinal map sends the i-th column to i) is NULL, the inline
`cast(...)` equality when the value is not NULL and the column type is binary, and `(col = ?)`
otherwise; and `uniqueKeyArgs` is exactly the converted values of the `?` columns in column
order. -/
theorem BuildDMLDeleteQuery_where (U : GoString → Option GoString)
    (databaseName tableName : GoString) (tableColumns : ColumnList) (rowArgs : List ArgPtr)
    (text : GoString) (uniqueKeyArgs : List Value)
    (h : BuildDMLDeleteQuery U databaseName tableName tableColumns rowArgs =
      some (text, uniqueKeyArgs, none)) :
    ∃ (vals : List Value) (preds : List GoString),
      tableColumns.ColumnList.map (rowValue tableColumns rowArgs) = vals.map some ∧
      preds.length = tableColumns.Len ∧
      text = (lit "\n\t\t\tdelete\n\t\t\t\tfrom\n\t\t\t\t\t" ++ EscapeName U databaseName ++ lit "."
          ++ EscapeName U tableName ++ lit "\n\t\t\t\twhere\n\t\t\t\t\t"
          ++ (lit "(" ++ Join preds (lit " and ") ++ lit ")") ++ lit "\n\t\t") ∧
      (∀ (i : Nat) (c : Column) (v : Value), tableColumns.ColumnList[i]? = some c →
        vals[i]? = some v →
        (tableColumns.Ordinals c.Name = some (i : Int) →
          ∃ addr : Nat, rowArgs[i]? = some (some (addr, v))) ∧
        (v = Value.nil →
          preds[i]? = some (lit "(" ++ EscapeName U c.Name ++ lit " is NULL)")) ∧
        (v ≠ Value.nil → HasPrefix c.ColumnType (lit "binary") = true →
          preds[i]? = some (lit "(" ++ EscapeName U c.Name ++ lit " = cast(\x27"
            ++ Sprint (c.ConvertArg v) ++ lit "\x27 as " ++ c.ColumnType ++ lit "))")) ∧
        (v ≠ Value.nil → HasPrefix c.ColumnType (lit "binary") = false →
          preds[i]? = some (lit "(" ++ EscapeName U c.Name ++ lit " = ?)"))) ∧
      uniqueKeyArgs =
        ((tableColumns.ColumnList.zip vals).filter fun cv =>
          decide (cv.2 ≠ Value.nil) && !HasPrefix cv.1.ColumnType (lit "binary")).map
          (fun cv => cv.1.ConvertArg cv.2) := by
  obtain ⟨_, comparisons, hw, ht⟩ :=
    BuildDMLDeleteQuery_success U databaseName tableName tableColumns rowArgs text
      uniqueKeyArgs h
  obtain ⟨vals, hvals, hnames, hc, hu⟩ := whereLoop_done U tableColumns rowArgs _ _ _ _ _ hw
  rw [List.nil_append] at hc hu
  have hlen : vals.length = tableColumns.ColumnList.length := by
    have := congrArg List.length hvals
    simpa using this.symm
  refine ⟨vals, comparisons, hvals, ?_, ht, ?_, ?_⟩
  · rw [hc, List.length_zipWith, hlen, Nat.min_self]; rfl
  · intro i c v hi hv
    have hn : c.Name ≠ [] := hnames c (List.getElem?_mem hi)
    have hp : comparisons[i]? = some (wherePredicate U c v) := by
      rw [hc, List.getElem?_zipWith, hi, hv]
    have hrow : rowValue tableColumns rowArgs c = some v := by
      have := congrArg (fun l => l[i]?) hvals
      simpa [List.getElem?_map, hi, hv] using this
    refine ⟨fun hord => rowArgs_of_rowValue tableColumns rowArgs i c v hord hrow, ?_, ?_, ?_⟩
    · intro hnil
      rw [hp, hnil, wherePredicate_null U c hn]
    · intro hnil hb
      rw [hp, wherePredicate_binary U c v hn hnil hb]
    · intro hnil hb
      rw [hp, wherePredicate_placeholder U c v hn hnil hb]
  · rw [hu, flatten_whereArg_eq_filter]

set_option maxRecDepth 10000 in
/-- C11 at the row image `[1, nil, "a'b"]` of the three-column table `sampleColumns`. -/
theorem BuildDMLDeleteQuery_where_witness :
    BuildDMLDeleteQuery unquoteNone (lit "db") (lit "tbl") sampleColumns sampleQuoteRow =
      some (lit "\n\t\t\tdelete\n\t\t\t\tfrom\n\t\t\t\t\t" ++ lit "`db`" ++ lit "."
          ++ lit "`tbl`" ++ lit "\n\t\t\t\twhere\n\t\t\t\t\t"
          ++ lit "((`id` = ?) and (`name` is NULL) and "
          ++ lit "(`bin_data` = cast(\x27a\x27b\x27 as binary(4))))" ++ lit "\n\t\t",
        [.int 1], none) ∧
    ∃ (vals : List Value) (preds : List GoString),
      sampleColumns.ColumnList.map (rowValue sampleColumns sampleQuoteRow) = vals.map some ∧
      preds.length = sampleColumns.Len ∧
      (lit "\n\t\t\tdelete\n\t\t\t\tfrom\n\t\t\t\t\t" ++ lit "`db`" ++ lit "." ++ lit "`tbl`"
          ++ lit "\n\t\t\t\twhere\n\t\t\t\t\t" ++ sampleQuoteWhere ++ lit "\n\t\t") =
        (lit "\n\t\t\tdelete\n\t\t\t\tfrom\n\t\t\t\t\t" ++ EscapeName unquoteNone (lit "db")
            ++ lit "." ++ EscapeName unquoteNone (lit "tbl") ++ lit "\n\t\t\t\twhere\n\t\t\t\t\t"
            ++ (lit "(" ++ Join preds (lit " and ") ++ lit ")") ++ lit "\n\t\t") ∧
      (∀ (i : Nat) (c : Column) (v : Value), sampleColumns.ColumnList[i]? = some c →
        vals[i]? = some v →
        (sampleColumns.Ordinals c.Name = some (i : Int) →
          ∃ addr : Nat, sampleQuoteRow[i]? = some (some (addr, v))) ∧
        (v = Value.nil →
          preds[i]? = some (lit "(" ++ EscapeName unquoteNone c.Name ++ lit " is NULL)")) ∧
        (v ≠ Value.nil → HasPrefix c.ColumnType (lit "binary") = true →
          preds[i]? = some (lit "(" ++ EscapeName unquoteNone c.Name ++ lit " = cast(\x27"
            ++ Sprint (c.ConvertArg v) ++ lit "\x27 as " ++ c.ColumnType ++ lit "))")) ∧
        (v ≠ Value.nil → HasPrefix c.ColumnType (lit "binary") = false →
          preds[i]? = some (lit "(" ++ EscapeName unquoteNone c.Name ++ lit " = ?)"))) ∧
      [Value.int 1] =
        ((sampleColumns.ColumnList.zip vals).filter fun cv =>
          decide (cv.2 ≠ Value.nil) && !HasPrefix cv.1.ColumnType (lit "binary")).map
          (fun cv => cv.1.ConvertArg cv.2) :=
  ⟨by decide,
  BuildDMLDeleteQuery_where unquoteNone (lit "db") (lit "tbl") sampleColumns
    sampleQuoteRow (lit "\n\t\t\tdelete\n\t\t\t\tfrom\n\t\t\t\t\t" ++ lit "`db`" ++ lit "."
        ++ lit "`tbl`"
        ++ lit "\n\t\t\t\twhere\n\t\t\t\t\t" ++ sampleQuoteWhere ++ lit "\n\t\t")
    [.int 1] (by decide)⟩

/-! ## DML builders: panics -/

/-- With positional ordinals, a row vector as long as the column list and no nil pointer in
it, `*args[tableColumns.Ordinals[column.Name]]` is defined for every column. -/
theorem deref_of_ordinals (tableColumns : ColumnList) (args : List ArgPtr)
    (hord : ∀ (i : Nat) (c : Column), tableColumns.ColumnList[i]? = some c →
      tableColumns.Ordinals c.Name = some (i : Int))
    (hlen : args.length = tableColumns.Len) (hnn : ∀ p ∈ args, p ≠ none) :
    ∀ c ∈ tableColumns.ColumnList,
      ∃ (addr : Nat) (v : Value), deref args (tableColumns.ordinal c.Name) = some (addr, v) := by
  intro c hc
  obtain ⟨i, hi, hget⟩ := List.getElem_of_mem hc
  have hget? : tableColumns.ColumnList[i]? = some c := by
    rw [List.getElem?_eq_getElem hi, hget]
  have hia : i < args.length := by rw [hlen]; exact hi
  have hneg : ¬ ((i : Int) < 0) := by omega
  have hp : args[i] ≠ none := hnn _ (List.getElem_mem _)
  cases hv : args[i] with
  | none => exact absurd hv hp
  | some q =>
    refine ⟨q.1, q.2, ?_⟩
    simp [deref, index, ColumnList.ordinal, hord i c hget?, hneg,
      List.getElem?_eq_getElem hia, hv]

/-- The where loop does not panic when the row value of every remaining column is defined. -/
theorem whereLoop_returns (U : GoString → Option GoString) (tableColumns : ColumnList)
    (args : List ArgPtr) :
    ∀ (rest : List Column) (comparisons : List GoString) (uniqueKeyArgs : List Value),
      (∀ c ∈ rest, ∃ (addr : Nat) (v : Value),
        deref args (tableColumns.ordinal c.Name) = some (addr, v)) →
      ∃ r, whereLoop U tableColumns args rest comparisons uniqueKeyArgs = some r := by
  intro rest
  induction rest with
  | nil => intro comparisons uniqueKeyArgs _; exact ⟨_, rfl⟩
  | cons column rest ih =>
    intro comparisons uniqueKeyArgs h
    obtain ⟨addr, v, hd⟩ := h column (by simp)
    rw [whereLoop_cons U tableColumns args column rest _ _ addr v hd]
    by_cases hname : column.Name = []
    · rw [if_pos hname]; exact ⟨_, rfl⟩
    · rw [if_neg hname]; exact ih _ _ (fun c hc => h c (by simp [hc]))

/-- The loop of `BuildDMLInsertQuery` does not panic when the row value of every remaining
column is defined. -/
theorem insertLoop_returns (tableColumns : ColumnList) (args : List ArgPtr) :
    ∀ (rest : List Column) (sharedArgs : List Value),
      (∀ c ∈ rest, ∃ (addr : Nat) (v : Value),
        deref args (tableColumns.ordinal c.Name) = some (addr, v)) →
      ∃ r, BuildDMLInsertQuery.loop tableColumns args rest sharedArgs = some r := by
  intro rest
  induction rest with
  | nil => intro sharedArgs _; exact ⟨_, rfl⟩
  | cons column rest ih =>
    intro sharedArgs h
    obtain ⟨addr, v, hd⟩ := h column (by simp)
    rw [BuildDMLInsertQuery.loop]
    cases v <;> simp only [hd] <;> exact ih _ (fun c hc => h c (by simp [hc]))

/-- The loop of `BuildDMLUpdateQuery` that collects `sharedArgs` does not panic when the row
value of every remaining column is defined. -/
theorem updateLoop_returns (tableColumns : ColumnList) (valueArgs : List ArgPtr) :
    ∀ (rest : List Column) (sharedArgs : List Value),
      (∀ c ∈ rest, ∃ (addr : Nat) (v : Value),
        deref valueArgs (tableColumns.ordinal c.Name) = some (addr, v)) →
      ∃ r, BuildDMLUpdateQuery.loop tableColumns valueArgs rest sharedArgs = some r := by
  intro rest
  induction rest with
  | nil => intro sharedArgs _; exact ⟨_, rfl⟩
  | cons column rest ih =>
    intro sharedArgs h
    obtain ⟨addr, v, hd⟩ := h column (by simp)
    rw [BuildDMLUpdateQuery.loop]
    simp only [hd]
    split <;> exact ih _ (fun c hc => h c (by simp [hc]))

/-- C15 (amended): for every column list in which the ordinal of the i-th column is i, the DML
builders do not panic on argument vectors that hold no nil pointer: `BuildDMLInsertQuery`,
`BuildDMLDeleteQuery` and `BuildDMLUpdateQuery` return a result or an error; and for every
argument vector that has passed the length check, every lookup
`args[Ordinals[column.Name]]` is within bounds. -/
theorem DML_returns_of_ordinals (U : GoString → Option GoString)
    (databaseName tableName : GoString)
    (tableColumns sharedColumns mappedSharedColumns uniqueKeyColumns : ColumnList)
    (rowArgs valueArgs whereArgs : List ArgPtr)
    (hord : ∀ (i : Nat) (c : Column), tableColumns.ColumnList[i]? = some c →
      tableColumns.Ordinals c.Name = some (i : Int)) :
    ((∀ p ∈ rowArgs, p ≠ none) →
      ∃ r, BuildDMLInsertQuery U databaseName tableName tableColumns sharedColumns
        mappedSharedColumns rowArgs = some r) ∧
    ((∀ p ∈ rowArgs, p ≠ none) →
      ∃ r, BuildDMLDeleteQuery U databaseName tableName tableColumns rowArgs = some r) ∧
    ((∀ p ∈ valueArgs, p ≠ none) → (∀ p ∈ whereArgs, p ≠ none) →
      ∃ r, BuildDMLUpdateQuery U databaseName tableName tableColumns sharedColumns
        mappedSharedColumns uniqueKeyColumns valueArgs whereArgs = some r) ∧
    (∀ args : List ArgPtr, args.length = tableColumns.Len →
      ∀ c ∈ tableColumns.ColumnList,
        ∃ p : ArgPtr, index args (tableColumns.ordinal c.Name) = some p) := by
  refine ⟨fun hnn => ?_, fun hnn => ?_, fun hv hw => ?_, fun args hlen c hc => ?_⟩
  · unfold BuildDMLInsertQuery
    split_ifs with h1 h2 h3
    · exact ⟨_, rfl⟩
    · exact ⟨_, rfl⟩
    · exact ⟨_, rfl⟩
    · obtain ⟨sa, hsa⟩ := insertLoop_returns tableColumns rowArgs tableColumns.ColumnList []
        (deref_of_ordinals tableColumns rowArgs hord (not_not.mp h1) hnn)
      rw [hsa]; exact ⟨_, rfl⟩
  · unfold BuildDMLDeleteQuery
    split_ifs with h1
    · exact ⟨_, rfl⟩
    · obtain ⟨st, hst⟩ := whereLoop_returns U tableColumns rowArgs tableColumns.ColumnList [] []
        (deref_of_ordinals tableColumns rowArgs hord (not_not.mp h1) hnn)
      rw [hst]
      cases st with
      | returned r => exact ⟨_, rfl⟩
      | done s => exact ⟨_, rfl⟩
  · unfold BuildDMLUpdateQuery
    split_ifs with h1 h2 h3 h4
    · exact ⟨_, rfl⟩
    · exact ⟨_, rfl⟩
    · exact ⟨_, rfl⟩
    · exact ⟨_, rfl⟩
    · obtain ⟨sa, hsa⟩ := updateLoop_returns tableColumns valueArgs tableColumns.ColumnList []
        (deref_of_ordinals tableColumns valueArgs hord (not_not.mp h1) hv)
      obtain ⟨st, hst⟩ := whereLoop_returns U tableColumns whereArgs tableColumns.ColumnList
        [] [] (deref_of_ordinals tableColumns whereArgs hord (not_not.mp h2) hw)
      rw [hsa, hst]
      cases st with
      | returned r => exact ⟨_, rfl⟩
      | done s => exact ⟨_, rfl⟩
  · obtain ⟨i, hi, hget⟩ := List.getElem_of_mem hc
    have hget? : tableColumns.ColumnList[i]? = some c := by
      rw [List.getElem?_eq_getElem hi, hget]
    have hia : i < args.length := by rw [hlen]; exact hi
    have hneg : ¬ ((i : Int) < 0) := by omega
    exact ⟨args[i], by
      simp [index, ColumnList.ordinal, hord i c hget?, hneg, List.getElem?_eq_getElem hia]⟩

/-- C15 (amended) at `sampleColumns` and the row image `[1, "x", nil]`. -/
theorem DML_returns_of_ordinals_witness :
    (∃ r, BuildDMLInsertQuery unquoteNone (lit "db") (lit "tbl") sampleColumns sampleShared
      sampleShared sampleRow = some r) ∧
    (∃ r, BuildDMLDeleteQuery unquoteNone (lit "db") (lit "tbl") sampleColumns sampleRow =
      some r) ∧
    (∃ r, BuildDMLUpdateQuery unquoteNone (lit "db") (lit "tbl") sampleColumns sampleShared
      sampleShared sampleKey sampleRow sampleQuoteRow = some r) ∧
    (∀ args : List ArgPtr, args.length = sampleColumns.Len →
      ∀ c ∈ sampleColumns.ColumnList,
        ∃ p : ArgPtr, index args (sampleColumns.ordinal c.Name) = some p) :=
  have h := DML_returns_of_ordinals unquoteNone (lit "db") (lit "tbl") sampleColumns
    sampleShared sampleShared sampleKey sampleRow sampleRow sampleQuoteRow
    sampleColumns_ordinals
  ⟨h.1 (by decide), h.2.1 (by decide), h.2.2.1 (by decide) (by decide), h.2.2.2⟩

/-- C15 as stated fails: on the one-column list `[id]`, whose ordinal map sends `id` to 0, and
the argument vector of one nil pointer, which passes the length check, each of the three
builders dereferences the nil pointer and panics. -/
theorem DML_panics_on_nil_pointer :
    sampleKey.Ordinals (lit "id") = some 0 ∧
    ([none] : List ArgPtr).length = sampleKey.Len ∧
    BuildDMLInsertQuery unquoteNone (lit "db") (lit "tbl") sampleKey sampleKey sampleKey
      [none] = none ∧
    BuildDMLDeleteQuery unquoteNone (lit "db") (lit "tbl") sampleKey [none] = none ∧
    BuildDMLUpdateQuery unquoteNone (lit "db") (lit "tbl") sampleKey sampleKey sampleKey
      sampleKey [none] [none] = none := by
  refine ⟨by decide, by decide, by decide, by decide, by decide⟩


/-! ## Escaping a value -/

/-- A code point from 0x80 on is none of the seven special characters. -/
theorem escapeOf_of_ge (c : Nat) (h : 128 ≤ c) : escapeOf c = none := by
  unfold escapeOf
  have h0 : c ≠ 0 := by omega
  have h1 : c ≠ 10 := by omega
  have h2 : c ≠ 13 := by omega
  have h3 : c ≠ 92 := by omega
  have h4 : c ≠ 39 := by omega
  have h5 : c ≠ 34 := by omega
  have h6 : c ≠ 26 := by omega
  simp [h0, h1, h2, h3, h4, h5, h6]

/-- The rune decoded at the head of a text is either the ASCII byte at its head, or a rune
from 0x80 on that spans between one and four bytes of the text, all of them from 0x80 on. -/
theorem decodeRune_cons (b0 : UInt8) (t : GoString) :
    (b0.toNat < 128 ∧ decodeRune (b0 :: t) = (b0.toNat, 1)) ∨
    (128 ≤ b0.toNat ∧ 128 ≤ (decodeRune (b0 :: t)).1 ∧ 1 ≤ (decodeRune (b0 :: t)).2 ∧
      (decodeRune (b0 :: t)).2 ≤ (b0 :: t).length ∧
      ∀ b ∈ (b0 :: t).take (decodeRune (b0 :: t)).2, 128 ≤ b.toNat) := by
  by_cases h : b0.toNat < 128
  · left
    exact ⟨h, by simp [decodeRune, h]⟩
  · right
    have hb : 128 ≤ b0.toNat := by omega
    refine ⟨hb, ?_⟩
    unfold decodeRune
    simp only [h, if_false]
    split_ifs <;> (try split) <;> (try split_ifs) <;>
      simp_all [List.take] <;> omega

theorem UInt8_eq_iff_toNat (b k : UInt8) : b = k ↔ b.toNat = k.toNat := by
  constructor
  · intro h; rw [h]
  · intro h
    cases b with
    | mk bv =>
      cases k with
      | mk kv =>
        simp only [UInt8.toNat] at h
        have : bv = kv := BitVec.eq_of_toNat_eq h
        rw [this]

/-- The escape the switch of `EscapeValue` finds for an ASCII byte is the escape of the
specification. -/
theorem escapeByte_of_escapeOf (b : UInt8) :
    (∀ esc, escapeOf b.toNat = some esc → escapeByte b = esc ∧ isSpecialByte b = true) ∧
    (escapeOf b.toNat = none → escapeByte b = [b] ∧ isSpecialByte b = false) := by
  have e0 := UInt8_eq_iff_toNat b 0
  have e1 := UInt8_eq_iff_toNat b 10
  have e2 := UInt8_eq_iff_toNat b 13
  have e3 := UInt8_eq_iff_toNat b 92
  have e4 := UInt8_eq_iff_toNat b 39
  have e5 := UInt8_eq_iff_toNat b 34
  have e6 := UInt8_eq_iff_toNat b 26
  have t0 : (0 : UInt8).toNat = 0 := by decide
  have t1 : (10 : UInt8).toNat = 10 := by decide
  have t2 : (13 : UInt8).toNat = 13 := by decide
  have t3 : (92 : UInt8).toNat = 92 := by decide
  have t4 : (39 : UInt8).toNat = 39 := by decide
  have t5 : (34 : UInt8).toNat = 34 := by decide
  have t6 : (26 : UInt8).toNat = 26 := by decide
  rw [t0] at e0; rw [t1] at e1; rw [t2] at e2; rw [t3] at e3; rw [t4] at e4; rw [t5] at e5
  rw [t6] at e6
  unfold escapeOf escapeByte isSpecialByte
  simp only [e0, e1, e2, e3, e4, e5, e6]
  constructor
  · intro esc h
    split_ifs at h ⊢ <;> simp_all
  · intro h
    split_ifs at h ⊢
    simp_all

theorem escapeBytes_append (a b : GoString) :
    escapeBytes (a ++ b) = escapeBytes a ++ escapeBytes b := by
  simp [escapeBytes]

theorem escapeBytes_cons (b : UInt8) (s : GoString) :
    escapeBytes (b :: s) = escapeByte b ++ escapeBytes s := by
  simp [escapeBytes]

/-- A text without special bytes is its own escape. -/
theorem escapeBytes_of_not_special :
    ∀ s : GoString, (∀ b ∈ s, isSpecialByte b = false) → escapeBytes s = s := by
  intro s
  induction s with
  | nil => intro _; rfl
  | cons b s ih =>
    intro h
    have hb : isSpecialByte b = false := h b (by simp)
    have : escapeByte b = [b] := by
      cases he : escapeOf b.toNat with
      | none => exact ((escapeByte_of_escapeOf b).2 he).1
      | some esc =>
        have := ((escapeByte_of_escapeOf b).1 esc he).2
        rw [hb] at this
        cases this
    rw [escapeBytes_cons, this, ih (fun b hb => h b (by simp [hb]))]
    rfl

/-- A byte from 0x80 on is not special. -/
theorem isSpecialByte_of_ge (b : UInt8) (h : 128 ≤ b.toNat) : isSpecialByte b = false :=
  ((escapeByte_of_escapeOf b).2 (escapeOf_of_ge _ h)).2

/-- The loop of `EscapeValue`, at a text split into the bytes already copied (`pre`), the bytes
scanned but not yet copied (`mid`, none of them special) and the bytes still to scan (`rest`):
it returns the buffer, then `mid`, then the byte-by-byte escape of `rest`. -/
theorem escapeLoop_eq :
    ∀ (fuel : Nat) (pre mid rest colBuffer : GoString),
      (∀ b ∈ mid, isSpecialByte b = false) → rest.length ≤ fuel →
      EscapeValue.loop (pre ++ mid ++ rest) fuel (pre.length + mid.length) pre.length colBuffer =
        colBuffer ++ mid ++ escapeBytes rest := by
  intro fuel
  induction fuel with
  | zero =>
    intro pre mid rest colBuffer _ hlen
    have : rest = [] := List.length_eq_zero.mp (by omega)
    subst this
    simp [EscapeValue.loop, escapeBytes]
  | succ fuel ih =>
    intro pre mid rest colBuffer hmid hlen
    rw [EscapeValue.loop]
    cases rest with
    | nil => simp [escapeBytes]
    | cons b0 t =>
      have hi : pre.length + mid.length < (pre ++ mid ++ (b0 :: t)).length := by
        simp
      have hdrop : (pre ++ mid ++ (b0 :: t)).drop (pre.length + mid.length) = b0 :: t := by
        rw [← List.length_append, List.drop_left]
      have hdropl : (pre ++ (mid ++ (b0 :: t))).drop pre.length = mid ++ (b0 :: t) :=
        List.drop_left _ _
      rw [if_pos hi, hdrop]
      rcases decodeRune_cons b0 t with ⟨hlt, hdec⟩ | ⟨hge, hc, hs1, hs2, hall⟩
      · rw [hdec]
        simp only
        cases he : escapeOf b0.toNat with
        | none =>
          obtain ⟨hb1, hb2⟩ := (escapeByte_of_escapeOf b0).2 he
          have := ih pre (mid ++ [b0]) t colBuffer
            (by intro b hb; rcases List.mem_append.mp hb with h | h
                · exact hmid b h
                · rw [List.mem_singleton.mp h]; exact hb2)
            (by simp at hlen; omega)
          simp only [List.length_append, List.length_singleton, List.append_assoc,
            List.singleton_append, ← Nat.add_assoc] at this
          simp only [List.append_assoc]
          rw [this, escapeBytes_cons, hb1]
          simp
        | some esc =>
          obtain ⟨hb1, _⟩ := (escapeByte_of_escapeOf b0).1 esc he
          have := ih (pre ++ mid ++ [b0]) [] t
            (colBuffer ++ (mid ++ (b0 :: t)).take (pre.length + mid.length - pre.length) ++ esc)
            (by simp) (by simp at hlen; omega)
          simp only [List.length_append, List.length_singleton, List.append_assoc,
            List.singleton_append, List.length_nil, Nat.add_zero, List.nil_append,
            ← Nat.add_assoc] at this
          simp only [Nat.add_sub_cancel_left, List.take_left] at this
          simp only [List.append_assoc, hdropl, Nat.add_sub_cancel_left, List.take_left]
          rw [this, escapeBytes_cons, hb1]
      · cases hdec : decodeRune (b0 :: t) with
        | mk c size =>
          rw [hdec] at hc hs1 hs2 hall
          simp only at hc hs1 hs2 hall
          simp only [escapeOf_of_ge c hc]
          have hsplit : b0 :: t = (b0 :: t).take size ++ (b0 :: t).drop size :=
            (List.take_append_drop _ _).symm
          have hchunk : ∀ b ∈ (b0 :: t).take size, isSpecialByte b = false :=
            fun b hb => isSpecialByte_of_ge b (hall b hb)
          have hcl : ((b0 :: t).take size).length = size := by
            rw [List.length_take]; omega
          have := ih pre (mid ++ (b0 :: t).take size) ((b0 :: t).drop size) colBuffer
            (by intro b hb; rcases List.mem_append.mp hb with h | h
                · exact hmid b h
                · exact hchunk b h)
            (by rw [List.length_drop]; simp at hlen ⊢; omega)
          rw [List.length_append, hcl, ← Nat.add_assoc] at this
          have e : pre ++ (mid ++ (b0 :: t).take size) ++ (b0 :: t).drop size =
              pre ++ mid ++ (b0 :: t) := by
            simp only [List.append_assoc, List.take_append_drop]
          rw [e] at this
          rw [this]
          conv_rhs => rw [hsplit, escapeBytes_append, escapeBytes_of_not_special _ hchunk]
          simp only [List.append_assoc]

/-- The escape of one byte is two bytes long for a special byte and one byte long otherwise. -/
theorem length_escapeByte (b : UInt8) :
    (escapeByte b).length = 1 + (if isSpecialByte b then 1 else 0) := by
  unfold escapeByte isSpecialByte
  have l0 : (lit "\\0").length = 2 := by decide
  have l1 : (lit "\\n").length = 2 := by decide
  have l2 : (lit "\\r").length = 2 := by decide
  have l3 : (lit "\\\\").length = 2 := by decide
  have l4 : (lit "\\\x27").length = 2 := by decide
  have l5 : (lit "\\\"").length = 2 := by decide
  have l6 : (lit "\\Z").length = 2 := by decide
  split_ifs <;> simp_all

theorem length_escapeBytes :
    ∀ s : GoString, (escapeBytes s).length = s.length + s.countP isSpecialByte := by
  intro s
  induction s with
  | nil => rfl
  | cons b s ih =>
    rw [escapeBytes_cons, List.length_append, ih, length_escapeByte, List.countP_cons,
      List.length_cons]
    omega

/-- C17: for every string `s`, valid UTF-8 or not, `EscapeValue(s)` is the concatenation over
the bytes of `s`, in order, of the two-character escape for NUL, newline, carriage return,
backslash, single quote, double quote and 0x1A, and of the byte itself for every other byte;
a string with none of the seven special characters is returned unchanged, and the length of
the output is `len(s)` plus the number of special characters in `s`. -/
theorem EscapeValue_eq_escapeBytes (s : GoString) :
    EscapeValue s = escapeBytes s ∧
    ((∀ b ∈ s, isSpecialByte b = false) → EscapeValue s = s) ∧
    (EscapeValue s).length = s.length + s.countP isSpecialByte := by
  have h : EscapeValue s = escapeBytes s := by
    have := escapeLoop_eq s.length [] [] s [] (by simp) (Nat.le_refl _)
    simpa [EscapeValue] using this
  exact ⟨h, fun hs => by rw [h, escapeBytes_of_not_special s hs],
    by rw [h, length_escapeBytes]⟩

/-- C17 at a text without special characters whose bytes are not valid UTF-8. -/
theorem EscapeValue_eq_escapeBytes_witness :
    EscapeValue [0xff, 0x61, 0xc3, 0xe2, 0x82] = [0xff, 0x61, 0xc3, 0xe2, 0x82] :=
  (EscapeValue_eq_escapeBytes [0xff, 0x61, 0xc3, 0xe2, 0x82]).2.1 (by decide)

theorem unescape_cons_of_ne (b : UInt8) (r : GoString) (h : b ≠ 92) :
    unescape (b :: r) = b :: unescape r := by
  cases r with
  | nil => rfl
  | cons x r => simp [unescape, h]

/-- Un-escaping the escape of one byte in front of a text gives back the byte in front of the
un-escaped text. -/
theorem unescape_escapeByte_append (b : UInt8) (r : GoString) :
    unescape (escapeByte b ++ r) = b :: unescape r := by
  have l0 : lit "\\0" = [92, 48] := by decide
  have l1 : lit "\\n" = [92, 110] := by decide
  have l2 : lit "\\r" = [92, 114] := by decide
  have l3 : lit "\\\\" = [92, 92] := by decide
  have l4 : lit "\\\x27" = [92, 39] := by decide
  have l5 : lit "\\\"" = [92, 34] := by decide
  have l6 : lit "\\Z" = [92, 90] := by decide
  unfold escapeByte
  split_ifs with h0 h1 h2 h3 h4 h5 h6
  · subst h0; rw [l0]; simp [unescape, unescapeChar]
  · subst h1; rw [l1]; simp [unescape, unescapeChar]
  · subst h2; rw [l2]; simp [unescape, unescapeChar]
  · subst h3; rw [l3]; simp [unescape, unescapeChar]
  · subst h4; rw [l4]; simp [unescape, unescapeChar]
  · subst h5; rw [l5]; simp [unescape, unescapeChar]
  · subst h6; rw [l6]; simp [unescape, unescapeChar]
  · exact unescape_cons_of_ne b r h3

theorem unescape_escapeBytes : ∀ s : GoString, unescape (escapeBytes s) = s := by
  intro s
  induction s with
  | nil => rfl
  | cons b s ih => rw [escapeBytes_cons, unescape_escapeByte_append, ih]

/-- C16: for every string `s`, un-escaping `EscapeValue(s)`, replacing each two-character
sequence `\0`, `\n`, `\r`, `\\`, `\'`, `\"`, `\Z` by the character it stands for, scanning left
to right, recovers `s` exactly. -/
theorem unescape_EscapeValue (s : GoString) : unescape (EscapeValue s) = s := by
  have h := escapeLoop_eq s.length [] [] s [] (by simp) (Nat.le_refl _)
  have h' : EscapeValue s = escapeBytes s := by simpa [EscapeValue] using h
  rw [h', unescape_escapeBytes]

/-! ## Escaping a name -/

theorem index_eq_none (c : UInt8) :
    ∀ s : GoString, (∀ b ∈ s, b ≠ c) → strconv.index s c = none := by
  intro s
  induction s with
  | nil => intro _; rfl
  | cons b s ih =>
    intro h
    simp [strconv.index, h b (by simp), ih (fun x hx => h x (by simp [hx]))]

theorem index_append_cons (c : UInt8) (r : GoString) :
    ∀ n : GoString, (∀ b ∈ n, b ≠ c) → strconv.index (n ++ c :: r) c = some n.length := by
  intro n
  induction n with
  | nil => intro _; simp [strconv.index]
  | cons b n ih =>
    intro h
    simp [strconv.index, h b (by simp), ih (fun x hx => h x (by simp [hx]))]

theorem contains_eq_false (c : UInt8) (s : GoString) (h : ∀ b ∈ s, b ≠ c) :
    strconv.contains s c = false := by
  simp [strconv.contains, index_eq_none c s h]

/-- `strconv.Unquote` rejects a text that does not begin with a quote character. -/
theorem Unquote_of_no_quote (n : GoString)
    (h : ∀ b ∈ n, b ≠ 34 ∧ b ≠ 39 ∧ b ≠ 96) : strconv.Unquote n = none := by
  unfold strconv.Unquote
  split_ifs with hlen
  · rfl
  · cases n with
    | nil => rfl
    | cons q t =>
      obtain ⟨h1, h2, h3⟩ := h q (by simp)
      simp only
      cases strconv.index t q with
      | none => rfl
      | some e => simp [h1, h2, h3]

/-- `strconv.Unquote` of a text wrapped in backticks, without backtick or carriage return
inside: the text. -/
theorem Unquote_backticks (n : GoString) (h : ∀ b ∈ n, b ≠ 96 ∧ b ≠ 13) :
    strconv.Unquote (96 :: (n ++ [96])) = some n := by
  have hidx : strconv.index (n ++ [96]) 96 = some n.length :=
    index_append_cons 96 [] n (fun b hb => (h b hb).1)
  have hlen : ¬ (96 :: (n ++ [96])).length < 2 := by simp
  have htake : (96 :: (n ++ [96])).take (n.length + 2) = 96 :: (n ++ [96]) :=
    List.take_of_length_le (by simp)
  have hdrop : (96 :: (n ++ [96])).drop (n.length + 2) = [] :=
    List.drop_of_length_le (by simp)
  have hmid : ((96 :: (n ++ [96])).take (n.length + 2 - 1)).drop 1 = n := by
    simp [List.take_append_of_le_length]
  have hcr : strconv.contains (96 :: (n ++ [96])) 13 = false := by
    apply contains_eq_false
    intro b hb
    rcases List.mem_cons.mp hb with rfl | hb
    · decide
    · rcases List.mem_append.mp hb with hb | hb
      · exact (h b hb).2
      · rw [List.mem_singleton.mp hb]; decide
  unfold strconv.Unquote
  rw [if_neg hlen]
  simp only [hidx, htake, hdrop, hmid, hcr]
  simp

/-- `strconv.Unquote` of a text wrapped in double quotes, valid UTF-8 and without double quote,
backslash or newline inside: the text. -/
theorem Unquote_double_quotes (n : GoString) (h : ∀ b ∈ n, b ≠ 34 ∧ b ≠ 92 ∧ b ≠ 10)
    (hvalid : utf8.ValidString n = true) :
    strconv.Unquote (34 :: (n ++ [34])) = some n := by
  have hidx : strconv.index (n ++ [34]) 34 = some n.length :=
    index_append_cons 34 [] n (fun b hb => (h b hb).1)
  have hlen : ¬ (34 :: (n ++ [34])).length < 2 := by simp
  have htake : (34 :: (n ++ [34])).take (n.length + 2) = 34 :: (n ++ [34]) :=
    List.take_of_length_le (by simp)
  have hdrop : (34 :: (n ++ [34])).drop (n.length + 2) = [] :=
    List.drop_of_length_le (by simp)
  have hmid : ((34 :: (n ++ [34])).take (n.length + 2 - 1)).drop 1 = n := by
    simp [List.take_append_of_le_length]
  have hbs : strconv.contains (34 :: (n ++ [34])) 92 = false := by
    apply contains_eq_false
    intro b hb
    rcases List.mem_cons.mp hb with rfl | hb
    · decide
    · rcases List.mem_append.mp hb with hb | hb
      · exact (h b hb).2.1
      · rw [List.mem_singleton.mp hb]; decide
  have hnl : strconv.contains (34 :: (n ++ [34])) 10 = false := by
    apply contains_eq_false
    intro b hb
    rcases List.mem_cons.mp hb with rfl | hb
    · decide
    · rcases List.mem_append.mp hb with hb | hb
      · exact (h b hb).2.2
      · rw [List.mem_singleton.mp hb]; decide
  have h96 : (34 : UInt8) ≠ 96 := by decide
  unfold strconv.Unquote
  rw [if_neg hlen]
  simp only [hidx, htake, hdrop, hmid, hbs, hnl, hvalid, h96]
  simp

/-- C18 (amended): for every name `n` that contains no quote character, backslash, newline or
carriage return, `EscapeName(n)` and `EscapeName` of `n` wrapped in backticks equal `n`
wrapped in one pair of backticks, so `EscapeName(EscapeName(n)) = EscapeName(n)`; and
`EscapeName` of `n` wrapped in double quotes equals it as well when `n` is valid UTF-8. -/
theorem EscapeName_of_plain_name (n : GoString)
    (h : ∀ b ∈ n, b ≠ 34 ∧ b ≠ 39 ∧ b ≠ 96 ∧ b ≠ 92 ∧ b ≠ 10 ∧ b ≠ 13) :
    EscapeName strconv.Unquote n = lit "`" ++ n ++ lit "`" ∧
    EscapeName strconv.Unquote (lit "`" ++ n ++ lit "`") = lit "`" ++ n ++ lit "`" ∧
    EscapeName strconv.Unquote (EscapeName strconv.Unquote n) =
      EscapeName strconv.Unquote n ∧
    (utf8.ValidString n = true →
      EscapeName strconv.Unquote (lit "\"" ++ n ++ lit "\"") = lit "`" ++ n ++ lit "`") := by
  have hb : lit "`" = [96] := by decide
  have hd : lit "\"" = [34] := by decide
  have h1 : EscapeName strconv.Unquote n = lit "`" ++ n ++ lit "`" := by
    simp only [EscapeName,
      Unquote_of_no_quote n (fun b hb => ⟨(h b hb).1, (h b hb).2.1, (h b hb).2.2.1⟩)]
  have h2 : EscapeName strconv.Unquote (lit "`" ++ n ++ lit "`") = lit "`" ++ n ++ lit "`" := by
    have := Unquote_backticks n (fun b hb => ⟨(h b hb).2.2.1, (h b hb).2.2.2.2.2⟩)
    simp only [hb, List.singleton_append, List.cons_append, List.nil_append] at this ⊢
    simp only [EscapeName, this, hb, List.singleton_append, List.cons_append, List.nil_append]
  refine ⟨h1, h2, by rw [h1, h2], fun hvalid => ?_⟩
  have := Unquote_double_quotes n
    (fun b hb => ⟨(h b hb).1, (h b hb).2.2.2.1, (h b hb).2.2.2.2.1⟩) hvalid
  simp only [hb, hd, List.singleton_append, List.cons_append, List.nil_append] at this ⊢
  simp only [EscapeName, this, hb, List.singleton_append, List.cons_append, List.nil_append]

/-- C18 (amended) at the name `bin_data`. -/
theorem EscapeName_of_plain_name_witness :
    EscapeName strconv.Unquote (lit "bin_data") = lit "`bin_data`" ∧
    EscapeName strconv.Unquote (lit "`bin_data`") = lit "`bin_data`" ∧
    EscapeName strconv.Unquote (EscapeName strconv.Unquote (lit "bin_data")) =
      EscapeName strconv.Unquote (lit "bin_data") ∧
    EscapeName strconv.Unquote (lit "\"bin_data\"") = lit "`bin_data`" := by
  have h := EscapeName_of_plain_name (lit "bin_data") (by decide)
  exact ⟨h.1, h.2.1, h.2.2.1, h.2.2.2 (by decide)⟩

/-- C18 as stated fails: the name of the single byte 0xFF contains none of the excluded
characters, and `EscapeName` of it wrapped in double quotes is U+FFFD wrapped in backticks,
not the name wrapped in backticks. -/
theorem EscapeName_double_quoted_invalid_utf8 :
    (∀ b ∈ ([0xff] : GoString), b ≠ 34 ∧ b ≠ 39 ∧ b ≠ 96 ∧ b ≠ 92 ∧ b ≠ 10 ∧ b ≠ 13) ∧
    EscapeName strconv.Unquote (lit "\"" ++ [0xff] ++ lit "\"") =
      lit "`" ++ [0xEF, 0xBF, 0xBD] ++ lit "`" ∧
    EscapeName strconv.Unquote (lit "\"" ++ [0xff] ++ lit "\"") ≠
      lit "`" ++ [0xff] ++ lit "`" := by
  refine ⟨by decide, by decide, by decide⟩

/-! ## Equals comparison: the text -/

/-- A successful `BuildEqualsComparison` was given a non-empty list of columns, as many values,
and no empty column name or value text. -/
theorem BuildEqualsComparison_inv (U : GoString → Option GoString)
    (columns values : List GoString) (text : GoString)
    (h : BuildEqualsComparison U columns values = some (text, none)) :
    columns ≠ [] ∧ columns.length = values.length ∧ (∀ c ∈ columns, c ≠ []) ∧
      ∀ v ∈ values, v ≠ [] := by
  unfold BuildEqualsComparison at h
  by_cases h0 : columns.length = 0
  · rw [if_pos h0] at h; simp at h
  · rw [if_neg h0] at h
    by_cases hl : columns.length ≠ values.length
    · rw [if_pos hl] at h; simp at h
    · rw [if_neg hl] at h
      have hl' : columns.length = values.length := not_not.mp hl
      obtain ⟨r, hr, hiff, hret⟩ := equalsLoop_total U values columns 0 [] (by simpa using hl')
      rw [hr] at h
      rw [List.drop_zero] at hiff
      cases r with
      | returned ret =>
        have := (hret ret rfl).2
        simp only [Option.some.injEq] at h
        rw [h] at this
        exact absurd rfl this
      | done comparisons =>
        have := hiff.mp ⟨comparisons, rfl⟩
        exact ⟨fun hc => h0 (by simp [hc]), hl', this.1, this.2⟩

/-- C21: whenever `BuildEqualsComparison` succeeds on n columns, n ≥ 1 and its text is
`"(" + E0 + " and " + ... + " and " + E(n-1) + ")"` for exactly n fragments, where the i-th
fragment is the text `BuildValueComparison(columns[i], values[i], "=")` returns, without
error: the fragment `"(" + EscapeName(columns[i]) + " = " + values[i] + ")"`. -/
theorem BuildEqualsComparison_text (U : GoString → Option GoString)
    (columns values : List GoString) (text : GoString)
    (h : BuildEqualsComparison U columns values = some (text, none)) :
    ∃ E : List GoString,
      text = lit "(" ++ Join E (lit " and ") ++ lit ")" ∧
      E.length = columns.length ∧ 1 ≤ columns.length ∧
      ∀ (i : Nat) (c : GoString), columns[i]? = some c →
        ∃ v e, values[i]? = some v ∧ E[i]? = some e ∧
          BuildValueComparison U c v EqualsComparisonSign = (e, none) ∧
          e = lit "(" ++ EscapeName U c ++ lit " = " ++ v ++ lit ")" := by
  obtain ⟨hne, hlen, hc, hv⟩ := BuildEqualsComparison_inv U columns values text h
  have ht := BuildEqualsComparison_ok U columns values hne hlen hc hv
  rw [h] at ht
  have htext : text = equalsText U columns values := by
    simpa using ht
  refine ⟨List.zipWith (fun c v => (BuildValueComparison U c v EqualsComparisonSign).1)
    columns values, by rw [htext]; rfl, by simp [List.length_zipWith, hlen], ?_, ?_⟩
  · cases columns with
    | nil => exact absurd rfl hne
    | cons c cs => simp
  · intro i c hi
    have hic : i < columns.length := by
      by_contra hcon
      rw [List.getElem?_eq_none (by omega)] at hi
      cases hi
    have hiv : i < values.length := by omega
    rw [List.getElem?_eq_getElem hic] at hi
    have hci : columns[i] = c := by simpa using hi
    have hcne : c ≠ [] := hci ▸ hc _ (List.getElem_mem _)
    have hvne : values[i] ≠ [] := hv _ (List.getElem_mem _)
    refine ⟨values[i], _, List.getElem?_eq_getElem hiv, ?_,
      BuildValueComparison_ok U c values[i] _ hcne hvne, ?_⟩
    · rw [List.getElem?_eq_getElem (by simp [List.length_zipWith]; omega)]
      simp [List.getElem_zipWith, hci, BuildValueComparison_ok U c values[i] _ hcne hvne]
    · have : EqualsComparisonSign = lit "=" := rfl
      have h2 : lit " = " = lit " " ++ lit "=" ++ lit " " := by decide
      rw [this, h2]
      simp only [List.append_assoc]

/-- C21 at the columns `a`, `b` with the values `1`, `2`. -/
theorem BuildEqualsComparison_text_witness :
    ∃ E : List GoString,
      lit "((`a` = 1) and (`b` = 2))" = lit "(" ++ Join E (lit " and ") ++ lit ")" ∧
      E.length = [lit "a", lit "b"].length ∧ 1 ≤ [lit "a", lit "b"].length ∧
      ∀ (i : Nat) (c : GoString), [lit "a", lit "b"][i]? = some c →
        ∃ v e, [lit "1", lit "2"][i]? = some v ∧ E[i]? = some e ∧
          BuildValueComparison unquoteNone c v EqualsComparisonSign = (e, none) ∧
          e = lit "(" ++ EscapeName unquoteNone c ++ lit " = " ++ v ++ lit ")" :=
  BuildEqualsComparison_text unquoteNone [lit "a", lit "b"] [lit "1", lit "2"]
    (lit "((`a` = 1) and (`b` = 2))") (by decide)

/-! ## Range comparison: errors -/

/-- C22: `BuildRangeComparison` returns an error, with empty text and an empty exploded
argument list, whenever `columns` is empty, or `len(values) != len(columns)`, or
`len(args) != len(columns)`. -/
theorem BuildRangeComparison_error_of_arity (U : GoString → Option GoString)
    (columns values : List GoString) (args : List Value) (comparisonSign : GoString)
    (h : columns = [] ∨ values.length ≠ columns.length ∨ args.length ≠ columns.length) :
    ∃ err : Error,
      BuildRangeComparison U columns values args comparisonSign = some ([], [], some err) := by
  unfold BuildRangeComparison
  by_cases h0 : columns.length = 0
  · exact ⟨_, by rw [if_pos h0]⟩
  · by_cases hv : columns.length ≠ values.length
    · exact ⟨_, by rw [if_neg h0, if_pos hv]⟩
    · by_cases ha : columns.length ≠ args.length
      · exact ⟨_, by rw [if_neg h0, if_neg hv, if_pos ha]⟩
      · exfalso
        rcases h with h | h | h
        · exact h0 (by simp [h])
        · exact h (not_not.mp hv).symm
        · exact h (not_not.mp ha).symm

/-- C22 at no columns, at two columns with one value, and at two columns with one argument. -/
theorem BuildRangeComparison_error_of_arity_witness :
    (∃ err : Error,
      BuildRangeComparison unquoteNone [] [] [] (lit "<") = some ([], [], some err)) ∧
    (∃ err : Error,
      BuildRangeComparison unquoteNone [lit "a", lit "b"] [lit "?"] [.int 1, .int 2] (lit "<")
        = some ([], [], some err)) ∧
    (∃ err : Error,
      BuildRangeComparison unquoteNone [lit "a", lit "b"] [lit "?", lit "?"] [.int 1] (lit ">=")
        = some ([], [], some err)) :=
  ⟨BuildRangeComparison_error_of_arity unquoteNone [] [] [] (lit "<") (Or.inl rfl),
   BuildRangeComparison_error_of_arity unquoteNone [lit "a", lit "b"] [lit "?"]
     [.int 1, .int 2] (lit "<") (Or.inr (Or.inl (by decide))),
   BuildRangeComparison_error_of_arity unquoteNone [lit "a", lit "b"] [lit "?", lit "?"]
     [.int 1] (lit ">=") (Or.inr (Or.inr (by decide)))⟩

/-! ## Set clause -/

/-- A set token holds exactly one `?` when neither the escaped name nor the target timezone
text holds one. -/
theorem questionMarks_setToken (U : GoString → Option GoString) (c : Column)
    (hname : questionMarks (EscapeName U c.Name) = 0)
    (htz : ∀ tz, c.TimezoneConversion = some tz → questionMarks tz.ToTimezone = 0) :
    questionMarks (setToken U c) = 1 := by
  have q1 : questionMarks (lit "=convert_tz(?, \x27") = 1 := by decide
  have q2 : questionMarks (lit "\x27, \x27") = 0 := by decide
  have q3 : questionMarks (lit "+00:00") = 0 := by decide
  have q4 : questionMarks (lit "\x27)") = 0 := by decide
  have q5 : questionMarks (lit "=?") = 1 := by decide
  unfold setToken
  cases h : c.TimezoneConversion with
  | none => simp [questionMarks_append, q5, hname]
  | some tz => simp [questionMarks_append, q1, q2, q3, q4, htz tz h, hname]

/-- C23: `BuildSetPreparedClause` fails exactly when the column list is empty, and then with
empty text; otherwise it returns, without error, the tokens of the columns in physical order
joined by ", ", one token per column: `EscapeName(name) + "=?"` for a column without timezone
conversion and `EscapeName(name) + "=convert_tz(?, '<ToTimezone>', '+00:00')"` for a column
with one. Each token has the one `?` of its template, and the clause holds exactly one `?` byte
per column when no escaped name and no timezone text holds a `?`. -/
theorem BuildSetPreparedClause_tokens (U : GoString → Option GoString) (columns : ColumnList) :
    ((BuildSetPreparedClause U columns).2 ≠ none ↔ columns.ColumnList = []) ∧
    (columns.ColumnList = [] → ∃ err : Error, BuildSetPreparedClause U columns = ([], some err)) ∧
    (columns.ColumnList ≠ [] →
      ∃ tokens : List GoString,
        BuildSetPreparedClause U columns = (Join tokens (lit ", "), none) ∧
        tokens.length = columns.Len ∧
        (∀ (i : Nat) (c : Column), columns.ColumnList[i]? = some c →
          (c.TimezoneConversion = none →
            tokens[i]? = some (EscapeName U c.Name ++ lit "=?")) ∧
          (∀ tz, c.TimezoneConversion = some tz →
            tokens[i]? = some (EscapeName U c.Name ++ lit "=convert_tz(?, \x27"
              ++ tz.ToTimezone ++ lit "\x27, \x27+00:00\x27)"))) ∧
        ((∀ c ∈ columns.ColumnList, questionMarks (EscapeName U c.Name) = 0 ∧
            ∀ tz, c.TimezoneConversion = some tz → questionMarks tz.ToTimezone = 0) →
          questionMarks (Join tokens (lit ", ")) = columns.Len)) := by
  have hlen : columns.Len = 0 ↔ columns.ColumnList = [] := by
    simp [ColumnList.Len, ColumnList.ColumnList]
  refine ⟨?_, ?_, ?_⟩
  · unfold BuildSetPreparedClause
    by_cases h0 : columns.Len = 0
    · simp [h0, hlen.mp h0]
    · have hne : columns.ColumnList ≠ [] := fun h => h0 (hlen.mpr h)
      simp [h0, hne]
  · intro h
    exact ⟨_, by rw [BuildSetPreparedClause, if_pos (hlen.mpr h)]⟩
  · intro h
    have h0 : ¬ columns.Len = 0 := fun h0 => h (hlen.mp h0)
    refine ⟨columns.ColumnList.map (setToken U), by rw [BuildSetPreparedClause, if_neg h0],
      by simp [ColumnList.Len, ColumnList.ColumnList], ?_, ?_⟩
    · intro i c hi
      have htok : (columns.ColumnList.map (setToken U))[i]? = some (setToken U c) := by
        simp [hi]
      constructor
      · intro hnone
        rw [htok, setToken, hnone]
      · intro tz htz
        have h2 : lit "\x27, \x27+00:00\x27)" =
            lit "\x27, \x27" ++ lit "+00:00" ++ lit "\x27)" := by
          decide
        rw [htok, setToken, htz, h2]
        simp only [List.append_assoc]
    · intro hq
      have hsep : questionMarks (lit ", ") = 0 := by decide
      rw [questionMarks_Join _ hsep, List.map_map]
      have hone : ∀ l : List Column, (∀ c ∈ l, questionMarks (EscapeName U c.Name) = 0 ∧
          ∀ tz, c.TimezoneConversion = some tz → questionMarks tz.ToTimezone = 0) →
          (l.map (questionMarks ∘ setToken U)).sum = l.length := by
        intro l
        induction l with
        | nil => intro _; rfl
        | cons c l ih =>
          intro hl
          have hc := hl c (by simp)
          rw [List.map_cons, List.sum_cons, ih (fun c h => hl c (by simp [h])),
            Function.comp_apply, questionMarks_setToken U c hc.1 hc.2, List.length_cons]
          omega
      rw [hone _ hq]
      rfl

/-- C23 at the empty column list and at the columns `id` and `ts`, the second converted to the
timezone `+08:00`. -/
theorem BuildSetPreparedClause_tokens_witness :
    (∃ err : Error, BuildSetPreparedClause unquoteNone (newColumnList []) = ([], some err)) ∧
    ∃ tokens : List GoString,
      BuildSetPreparedClause unquoteNone
          (newColumnList [plainColumn "id" "int", timezoneColumn "ts" "timestamp"]) =
        (Join tokens (lit ", "), none) ∧
      tokens.length = 2 ∧
      tokens[0]? = some (lit "`id`=?") ∧
      tokens[1]? = some (lit "`ts`=convert_tz(?, \x27+08:00\x27, \x27+00:00\x27)") ∧
      questionMarks (Join tokens (lit ", ")) = 2 := by
  have h0 := BuildSetPreparedClause_tokens unquoteNone (newColumnList [])
  have h2 := BuildSetPreparedClause_tokens unquoteNone
    (newColumnList [plainColumn "id" "int", timezoneColumn "ts" "timestamp"])
  refine ⟨h0.2.1 rfl, ?_⟩
  obtain ⟨tokens, ht, hl, hi, hq⟩ := h2.2.2 (by simp [newColumnList, ColumnList.ColumnList])
  refine ⟨tokens, ht, hl, ?_, ?_, hq ?_⟩
  · rw [(hi 0 (plainColumn "id" "int") rfl).1 rfl]
    decide
  · rw [(hi 1 (timezoneColumn "ts" "timestamp") rfl).2 ⟨lit "+08:00"⟩ rfl]
    decide
  · intro c hc
    simp only [newColumnList, ColumnList.ColumnList, List.mem_cons, List.mem_singleton,
      List.not_mem_nil, or_false] at hc
    rcases hc with rfl | rfl
    · exact ⟨by decide, fun tz h => by cases h⟩
    · refine ⟨by decide, fun tz h => ?_⟩
      cases h
      decide

/-! ## Range comparison: the final equals comparison -/

/-- When the loop of `BuildRangeComparison` runs to its end, no remaining column name is empty
and every remaining column has a value text that is not empty. -/
theorem rangeLoop_done (U : GoString → Option GoString)
    (columns values : List GoString) (args : List Value) (s : GoString) :
    ∀ (rest : List GoString) (i : Nat) (comparisons : List GoString)
      (explodedArgs : List Value) (r : List GoString × List Value),
      BuildRangeComparison.loop U columns values args s rest i comparisons explodedArgs =
        some (.done r) →
      (∀ c ∈ rest, c ≠ []) ∧
        ∀ j : Nat, j < rest.length → ∃ v, values[i + j]? = some v ∧ v ≠ [] := by
  intro rest
  induction rest with
  | nil => intro i comparisons explodedArgs r _; simp
  | cons column rest ih =>
    intro i comparisons explodedArgs r h
    rw [BuildRangeComparison.loop] at h
    by_cases hi : i < values.length
    · rw [List.getElem?_eq_getElem hi] at h
      simp only at h
      by_cases hok : column = [] ∨ values[i] = []
      · obtain ⟨err, hbv⟩ := BuildValueComparison_fails U column values[i] s hok
        simp only [hbv] at h
        cases h
      · have hcol : column ≠ [] := fun h => hok (Or.inl h)
        have hval : values[i] ≠ [] := fun h => hok (Or.inr h)
        simp only [BuildValueComparison_ok U column values[i] s hcol hval] at h
        have hrec : ∃ comparisons' explodedArgs',
            BuildRangeComparison.loop U columns values args s rest (i + 1) comparisons'
              explodedArgs' = some (.done r) := by
          split at h
          · split at h
            · cases h
            · cases h
            · split at h
              · cases h
              · exact ⟨_, _, h⟩
          · split at h
            · cases h
            · exact ⟨_, _, h⟩
        obtain ⟨comparisons', explodedArgs', hrec⟩ := hrec
        obtain ⟨h1, h2⟩ := ih (i + 1) comparisons' explodedArgs' r hrec
        refine ⟨fun c hc => ?_, fun j hj => ?_⟩
        · rcases List.mem_cons.mp hc with rfl | hc
          · exact hcol
          · exact h1 c hc
        · cases j with
          | zero => exact ⟨values[i], List.getElem?_eq_getElem hi, hval⟩
          | succ j =>
            have := h2 j (by simpa using hj)
            rwa [show i + 1 + j = i + (j + 1) by omega] at this
    · rw [List.getElem?_eq_none (by omega)] at h
      cases h

/-- An early return of the loop of `BuildRangeComparison` carries empty text and an error. -/
theorem rangeLoop_returned (U : GoString → Option GoString)
    (columns values : List GoString) (args : List Value) (s : GoString) :
    ∀ (rest : List GoString) (i : Nat) (comparisons : List GoString)
      (explodedArgs : List Value) (ret : GoString × List Value × Option Error),
      BuildRangeComparison.loop U columns values args s rest i comparisons explodedArgs =
        some (.returned ret) →
      ret.1 = [] ∧ ret.2.2 ≠ none := by
  intro rest
  induction rest with
  | nil =>
    intro i comparisons explodedArgs ret h
    rw [BuildRangeComparison.loop] at h
    cases h
  | cons column rest ih =>
    intro i comparisons explodedArgs ret h
    rw [BuildRangeComparison.loop] at h
    split at h
    · cases h
    · split at h
      · cases h
        simp
      · split at h
        · split at h
          · cases h
          · cases h
            simp
          · split at h
            · cases h
            · exact ih _ _ _ _ h
        · split at h
          · cases h
          · exact ih _ _ _ _ h

/-- C24: in `BuildRangeComparison`, once the three length checks have passed and the per-column
loop has run to its end without returning, the final call `BuildEqualsComparison(columns,
values)` succeeds, so the branch that returns empty text with a nil error is not reached; and
`BuildRangeComparison` never returns empty text together with a nil error. -/
theorem BuildRangeComparison_never_empty_text_nil_error (U : GoString → Option GoString)
    (columns values : List GoString) (args : List Value) (comparisonSign : GoString) :
    (columns.length ≠ 0 → columns.length = values.length → columns.length = args.length →
      ∀ (comparisons : List GoString) (explodedArgs : List Value),
        BuildRangeComparison.loop U columns values args (rangeSign comparisonSign).1
          columns 0 [] [] = some (.done (comparisons, explodedArgs)) →
        ∃ comparison, BuildEqualsComparison U columns values = some (comparison, none)) ∧
    (∀ (text : GoString) (explodedArgs : List Value),
      BuildRangeComparison U columns values args comparisonSign =
        some (text, explodedArgs, none) → text ≠ []) := by
  have hfinal : columns.length ≠ 0 → columns.length = values.length →
      ∀ (comparisons : List GoString) (explodedArgs : List Value),
        BuildRangeComparison.loop U columns values args (rangeSign comparisonSign).1
          columns 0 [] [] = some (.done (comparisons, explodedArgs)) →
        BuildEqualsComparison U columns values = some (equalsText U columns values, none) := by
    intro h0 hlv comparisons explodedArgs hloop
    obtain ⟨hc, hj⟩ := rangeLoop_done U columns values args _ columns 0 [] [] _ hloop
    refine BuildEqualsComparison_ok U columns values (fun h => h0 (by simp [h])) hlv hc ?_
    intro v hv
    obtain ⟨j, hjlt, hjv⟩ := List.getElem_of_mem hv
    obtain ⟨w, hw, hwne⟩ := hj j (by omega)
    rw [Nat.zero_add, List.getElem?_eq_getElem hjlt, hjv] at hw
    cases hw
    exact hwne
  have hparen : ∀ t : GoString, lit "(" ++ t ≠ [] := by
    intro t h
    have : lit "(" = [40] := by decide
    rw [this] at h
    cases h
  refine ⟨fun h0 hlv _ comparisons explodedArgs hloop =>
    ⟨_, hfinal h0 hlv comparisons explodedArgs hloop⟩, ?_⟩
  intro text explodedArgs h
  unfold BuildRangeComparison at h
  by_cases h0 : columns.length = 0
  · rw [if_pos h0] at h; simp at h
  · rw [if_neg h0] at h
    by_cases hlv : columns.length ≠ values.length
    · rw [if_pos hlv] at h; simp at h
    · rw [if_neg hlv] at h
      by_cases hla : columns.length ≠ args.length
      · rw [if_pos hla] at h; simp at h
      · rw [if_neg hla] at h
        cases hloop : BuildRangeComparison.loop U columns values args
            (rangeSign comparisonSign).1 columns 0 [] [] with
        | none => rw [hloop] at h; cases h
        | some r =>
          rw [hloop] at h
          cases r with
          | returned ret =>
            simp only [Option.some.injEq] at h
            have := (rangeLoop_returned U columns values args _ columns 0 [] [] ret hloop).2
            rw [h] at this
            exact absurd rfl this
          | done st =>
            obtain ⟨comparisons, ea⟩ := st
            simp only at h
            by_cases hi : (rangeSign comparisonSign).2 = true
            · rw [if_pos hi, hfinal h0 (not_not.mp hlv) comparisons ea hloop] at h
              simp only [Option.some.injEq, Prod.mk.injEq] at h
              rw [← h.1, List.append_assoc]
              exact hparen _
            · rw [if_neg hi] at h
              simp only [Option.some.injEq, Prod.mk.injEq] at h
              rw [← h.1, List.append_assoc]
              exact hparen _

set_option maxRecDepth 10000 in
/-- C24 at the columns `a`, `b` with the sign `<=`: the loop runs to its end, the final equals
comparison succeeds, and the text returned with the nil error is not empty. -/
theorem BuildRangeComparison_never_empty_text_nil_error_witness :
    (∃ comparison, BuildEqualsComparison unquoteNone [lit "a", lit "b"] [lit "?", lit "?"] =
      some (comparison, none)) ∧
    lit "((`a` < ?) or (((`a` = ?)) AND (`b` < ?)) or ((`a` = ?) and (`b` = ?)))" ≠ [] :=
  ⟨(BuildRangeComparison_never_empty_text_nil_error unquoteNone [lit "a", lit "b"]
      [lit "?", lit "?"] [.int 1, .int 2] (lit "<=")).1 (by decide) (by decide) (by decide)
      [lit "(`a` < ?)", lit "(((`a` = ?)) AND (`b` < ?))"] [.int 1, .int 1, .int 2] rfl,
   (BuildRangeComparison_never_empty_text_nil_error unquoteNone [lit "a", lit "b"]
      [lit "?", lit "?"] [.int 1, .int 2] (lit "<=")).2
      (lit "((`a` < ?) or (((`a` = ?)) AND (`b` < ?)) or ((`a` = ?) and (`b` = ?)))")
      [.int 1, .int 1, .int 2, .int 1, .int 2] (by decide)⟩

/-! ## Range comparison: placeholders and arguments -/

/-- A fragment on the value `?` holds one `?` when the escaped name and the sign hold none. -/
theorem questionMarks_fragment (U : GoString → Option GoString) (c s : GoString)
    (hc : c ≠ []) (hq : questionMarks (EscapeName U c) = 0) (hs : questionMarks s = 0) :
    questionMarks (BuildValueComparison U c (lit "?") s).1 = 1 := by
  have q1 : questionMarks (lit "(") = 0 := by decide
  have q2 : questionMarks (lit " ") = 0 := by decide
  have q3 : questionMarks (lit ")") = 0 := by decide
  have q4 : questionMarks (lit "?") = 1 := by decide
  rw [BuildValueComparison_ok U c (lit "?") s hc (by decide)]
  simp [questionMarks_append, q1, q2, q3, q4, hq, hs]

/-- The equals comparison of n columns on the values `?` holds n `?`. -/
theorem questionMarks_equalsText (U : GoString → Option GoString) :
    ∀ (columns values : List GoString), columns.length = values.length →
      (∀ c ∈ columns, c ≠ [] ∧ questionMarks (EscapeName U c) = 0) →
      (∀ v ∈ values, v = lit "?") →
      questionMarks (equalsText U columns values) = columns.length := by
  have q1 : questionMarks (lit "(") = 0 := by decide
  have q3 : questionMarks (lit ")") = 0 := by decide
  have q5 : questionMarks (lit " and ") = 0 := by decide
  have q6 : questionMarks EqualsComparisonSign = 0 := by decide
  have hsum : ∀ (columns values : List GoString), columns.length = values.length →
      (∀ c ∈ columns, c ≠ [] ∧ questionMarks (EscapeName U c) = 0) →
      (∀ v ∈ values, v = lit "?") →
      ((List.zipWith (fun c v => (BuildValueComparison U c v EqualsComparisonSign).1)
        columns values).map questionMarks).sum = columns.length := by
    intro columns
    induction columns with
    | nil => intro values _ _ _; simp
    | cons c cs ih =>
      intro values hlen hc hv
      cases values with
      | nil => simp at hlen
      | cons v vs =>
        have hv0 : v = lit "?" := hv v (by simp)
        rw [List.zipWith_cons_cons, List.map_cons, List.sum_cons,
          ih vs (by simpa using hlen) (fun c h => hc c (by simp [h]))
            (fun v h => hv v (by simp [h])),
          hv0, questionMarks_fragment U c _ (hc c (by simp)).1 (hc c (by simp)).2 q6,
          List.length_cons]
        omega
  intro columns values hlen hc hv
  rw [equalsText, questionMarks_append, questionMarks_append, questionMarks_Join _ q5,
    hsum columns values hlen hc hv, q1, q3]
  omega

/-- The i-th OR-term of a range comparison on the values `?` holds i+1 `?`. -/
theorem questionMarks_rangeTermText (U : GoString → Option GoString)
    (columns values : List GoString) (s : GoString) (i : Nat)
    (hlen : columns.length = values.length) (hi : i < columns.length)
    (hc : ∀ c ∈ columns, c ≠ [] ∧ questionMarks (EscapeName U c) = 0)
    (hv : ∀ v ∈ values, v = lit "?") (hs : questionMarks s = 0) :
    questionMarks (rangeTermText U columns values s i) = i + 1 := by
  have q1 : questionMarks (lit "(") = 0 := by decide
  have q3 : questionMarks (lit ")") = 0 := by decide
  have q5 : questionMarks (lit " AND ") = 0 := by decide
  have hiv : i < values.length := by omega
  have hgc : columns.getD i [] = columns[i] := by
    rw [List.getD_eq_getElem?_getD, List.getElem?_eq_getElem hi]; rfl
  have hgv : values.getD i [] = lit "?" := by
    rw [List.getD_eq_getElem?_getD, List.getElem?_eq_getElem hiv]
    exact hv _ (List.getElem_mem _)
  have hfrag := questionMarks_fragment U columns[i] s (hc _ (List.getElem_mem _)).1
    (hc _ (List.getElem_mem _)).2 hs
  unfold rangeTermText
  by_cases hz : i = 0
  · rw [if_pos hz, hgc, hgv, hfrag, hz]
  · rw [if_neg hz, hgc, hgv]
    simp only [questionMarks_append, hfrag, q1, q3, q5]
    rw [questionMarks_equalsText U (columns.take i) (values.take i)
      (by simp [List.length_take, hlen])
      (fun c h => hc c (List.mem_of_mem_take h))
      (fun v h => hv v (List.mem_of_mem_take h))]
    simp [List.length_take]
    omega

/-- On values that are all `?`, with no `?` in an escaped column name, the text of a successful
range comparison holds as many `?` as there are exploded arguments. -/
theorem rangePlaceholders (U : GoString → Option GoString)
    (columns values : List GoString) (args : List Value) (sign : GoString)
    (hn : columns ≠ [])
    (hlv : columns.length = values.length) (hla : columns.length = args.length)
    (hc : ∀ c ∈ columns, c ≠ [] ∧ questionMarks (EscapeName U c) = 0)
    (hv : ∀ v ∈ values, v = lit "?")
    (hs : sign = LessThanComparisonSign ∨ sign = LessThanOrEqualsComparisonSign ∨
      sign = GreaterThanComparisonSign ∨ sign = GreaterThanOrEqualsComparisonSign) :
    ∃ text explodedArgs,
      BuildRangeComparison U columns values args sign = some (text, explodedArgs, none) ∧
      questionMarks text = explodedArgs.length := by
  have q1 : questionMarks (lit "(") = 0 := by decide
  have q3 : questionMarks (lit ")") = 0 := by decide
  have q5 : questionMarks (lit " or ") = 0 := by decide
  have hq : lit "?" ≠ [] := by decide
  have hsq : questionMarks (rangeSign sign).1 = 0 := by
    rw [rangeSign_fst_of_four sign hs]
    rcases hs with h | h | h | h <;> subst h <;> decide
  refine ⟨_, _, BuildRangeComparison_ok U columns values args sign hn hlv hla
    (fun c h => (hc c h).1) (fun v h => by rw [hv v h]; exact hq), ?_⟩
  have hterms : ((List.range columns.length).map
      (rangeTermText U columns values (rangeSign sign).1)).map questionMarks =
      (List.range columns.length).map (· + 1) := by
    rw [List.map_map]
    apply List.map_congr_left
    intro i hi
    exact questionMarks_rangeTermText U columns values _ i hlv (List.mem_range.mp hi) hc hv hsq
  have hargs : ((List.range columns.length).map fun j => args.take (j + 1)).flatten.length =
      ((List.range columns.length).map (· + 1)).sum := by
    rw [List.length_flatten, List.map_map]
    congr 1
    apply List.map_congr_left
    intro j hj
    have := List.mem_range.mp hj
    simp [List.length_take]
    omega
  rw [questionMarks_append, questionMarks_append, questionMarks_Join _ q5, List.map_append,
    List.sum_append, hterms, List.length_append, hargs, q1, q3]
  by_cases hi : (rangeSign sign).2 = true
  · simp only [hi, if_true, List.map_cons, List.map_nil, List.sum_cons, List.sum_nil]
    rw [questionMarks_equalsText U columns values hlv hc hv, hla]
    omega
  · simp [hi]

/-! ## `strconv.Unquote` on a text without backslash -/

theorem toNat_toUInt8 (n : Nat) : (n.toUInt8).toNat = n % 256 := by
  simp [Nat.toUInt8, UInt8.ofNat, UInt8.toNat]

theorem toUInt8_toNat (c : UInt8) : c.toNat.toUInt8 = c := by
  apply (UInt8_eq_iff_toNat _ _).mpr
  simp [Nat.toUInt8, UInt8.ofNat, UInt8.toNat]

/-- The rune decoded at a byte that is not ASCII is not ASCII. -/
theorem decodeRune_ge (c : UInt8) (t : GoString) (h : 0x80 ≤ c.toNat) :
    0x80 ≤ (decodeRune (c :: t)).1 := by
  unfold decodeRune
  simp only
  split_ifs <;> (try split) <;> (try split_ifs) <;> simp_all <;> omega

/-- No byte of the encoding of a rune that is not ASCII is ASCII. -/
theorem EncodeRune_ge (r : Nat) (h : 0x80 ≤ r) : ∀ b ∈ utf8.EncodeRune r, 0x80 ≤ b.toNat := by
  unfold utf8.EncodeRune
  intro b hb
  split_ifs at hb with h1 h2 h3 h4
  · omega
  · simp only [List.mem_cons, List.mem_singleton, List.not_mem_nil, or_false] at hb
    rcases hb with rfl | rfl <;> rw [toNat_toUInt8] <;> omega
  · simp only [List.mem_cons, List.mem_singleton, List.not_mem_nil, or_false] at hb
    rcases hb with rfl | rfl | rfl <;> decide
  · simp only [List.mem_cons, List.mem_singleton, List.not_mem_nil, or_false] at hb
    rcases hb with rfl | rfl | rfl <;> rw [toNat_toUInt8] <;> omega
  · simp only [List.mem_cons, List.mem_singleton, List.not_mem_nil, or_false] at hb
    rcases hb with rfl | rfl | rfl | rfl <;> rw [toNat_toUInt8] <;> omega

theorem UnquoteChar_quote (c : UInt8) (t : GoString) (quote : UInt8)
    (h1 : c = quote ∧ (quote = 39 ∨ quote = 34)) :
    strconv.UnquoteChar (c :: t) quote = none := by
  unfold strconv.UnquoteChar
  dsimp only
  rw [if_pos h1]

theorem UnquoteChar_multibyte (c : UInt8) (t : GoString) (quote : UInt8)
    (h1 : ¬ (c = quote ∧ (quote = 39 ∨ quote = 34))) (h2 : 0x80 ≤ c.toNat) :
    strconv.UnquoteChar (c :: t) quote =
      some ((decodeRune (c :: t)).1, true, (c :: t).drop (decodeRune (c :: t)).2) := by
  unfold strconv.UnquoteChar
  dsimp only
  rw [if_neg h1, if_pos h2]

theorem UnquoteChar_ascii (c : UInt8) (t : GoString) (quote : UInt8)
    (h1 : ¬ (c = quote ∧ (quote = 39 ∨ quote = 34))) (h2 : ¬ 0x80 ≤ c.toNat) (h3 : c ≠ 92) :
    strconv.UnquoteChar (c :: t) quote = some (c.toNat, false, t) := by
  unfold strconv.UnquoteChar
  dsimp only
  rw [if_neg h1, if_neg h2, if_pos h3]

/-- `strconv.UnquoteChar` at a byte that is not a backslash: the bytes the loop of `unquote`
appends are that byte, or bytes that are not ASCII, and the rest is a part of the text. -/
theorem UnquoteChar_of_ne_backslash (c : UInt8) (t : GoString) (quote : UInt8) (hc : c ≠ 92)
    (r : Nat) (multibyte : Bool) (rem : GoString)
    (h : strconv.UnquoteChar (c :: t) quote = some (r, multibyte, rem)) :
    (∀ b ∈ rem, b ∈ c :: t) ∧
    ∀ b ∈ (if r < 0x80 ∨ multibyte = false then [r.toUInt8] else utf8.EncodeRune r),
      b = c ∨ 0x80 ≤ b.toNat := by
  by_cases h1 : c = quote ∧ (quote = 39 ∨ quote = 34)
  · rw [UnquoteChar_quote c t quote h1] at h
    cases h
  · by_cases h2 : 0x80 ≤ c.toNat
    · rw [UnquoteChar_multibyte c t quote h1 h2] at h
      simp only [Option.some.injEq, Prod.mk.injEq] at h
      obtain ⟨hr, hm, hrem⟩ := h
      have hge : 0x80 ≤ r := hr ▸ decodeRune_ge c t h2
      refine ⟨fun b hb => List.mem_of_mem_drop (hrem ▸ hb), fun b hb => ?_⟩
      have hcond : ¬ (r < 0x80 ∨ multibyte = false) := by
        rw [← hm]; simp; omega
      rw [if_neg hcond] at hb
      exact Or.inr (EncodeRune_ge r hge b hb)
    · rw [UnquoteChar_ascii c t quote h1 h2 hc] at h
      simp only [Option.some.injEq, Prod.mk.injEq] at h
      obtain ⟨hr, hm, hrem⟩ := h
      refine ⟨fun b hb => List.mem_cons_of_mem _ (hrem ▸ hb), fun b hb => ?_⟩
      have hcond : r < 0x80 ∨ multibyte = false := Or.inr hm.symm
      rw [if_pos hcond, List.mem_singleton] at hb
      rw [hb, ← hr, toUInt8_toNat]
      exact Or.inl rfl

/-- The loop of `unquote` over a text without backslash and `?` appends no `?`. -/
theorem unquoteLoop_no_questionMark (quote : UInt8) :
    ∀ (fuel : Nat) (in_ buf res rest : GoString),
      strconv.unquoteLoop quote fuel in_ buf = some (res, rest) →
      (∀ b ∈ in_, b ≠ 63 ∧ b ≠ 92) → (∀ b ∈ buf, b ≠ 63) → ∀ b ∈ res, b ≠ 63 := by
  intro fuel
  induction fuel with
  | zero =>
    intro in_ buf res rest h _ hbuf
    rw [strconv.unquoteLoop] at h
    cases h
    exact hbuf
  | succ fuel ih =>
    intro in_ buf res rest h hin hbuf
    unfold strconv.unquoteLoop at h
    cases in_ with
    | nil =>
      cases h
      exact hbuf
    | cons c t =>
      dsimp only at h
      by_cases hq : c = quote
      · rw [if_pos hq] at h
        cases h
        exact hbuf
      · rw [if_neg hq] at h
        cases hu : strconv.UnquoteChar (c :: t) quote with
        | none =>
          simp only [hu] at h
          cases h
        | some x =>
          obtain ⟨r, multibyte, rem⟩ := x
          rw [hu] at h
          dsimp only at h
          obtain ⟨hrem, happ⟩ := UnquoteChar_of_ne_backslash c t quote (hin c (by simp)).2
            r multibyte rem hu
          have hbuf2 : ∀ b ∈ (if r < 0x80 ∨ multibyte = false then buf ++ [r.toUInt8]
              else buf ++ utf8.EncodeRune r), b ≠ 63 := by
            intro b hb
            have hb2 : b ∈ buf ∨ b ∈ (if r < 0x80 ∨ multibyte = false then [r.toUInt8]
                else utf8.EncodeRune r) := by
              split_ifs at hb ⊢ <;> exact List.mem_append.mp hb
            rcases hb2 with hb2 | hb2
            · exact hbuf b hb2
            · rcases happ b hb2 with hbc | hge
              · rw [hbc]; exact (hin c (by simp)).1
              · intro h63; rw [h63] at hge; revert hge; decide
          by_cases h10 : c = 10
          · rw [if_pos h10] at h
            cases h
          · rw [if_neg h10] at h
            by_cases h39 : quote = 39
            · rw [if_pos h39] at h
              cases h
              exact hbuf2
            · rw [if_neg h39] at h
              exact ih _ _ _ _ h (fun b hb => hin b (hrem b hb)) hbuf2

/-- What `strconv.Unquote` returns for a text without backslash and `?` holds no `?`. -/
theorem Unquote_no_questionMark (s u : GoString) (h : strconv.Unquote s = some u)
    (hs : ∀ b ∈ s, b ≠ 63 ∧ b ≠ 92) : ∀ b ∈ u, b ≠ 63 := by
  have hsub : ∀ k : Nat, ∀ b ∈ (s.take k).drop 1, b ≠ 63 :=
    fun k b hb => (hs b (List.mem_of_mem_take (List.mem_of_mem_drop hb))).1
  unfold strconv.Unquote at h
  split_ifs at h with hlen
  cases s with
  | nil => cases h
  | cons quote in1 =>
    dsimp only at h
    cases hidx : strconv.index in1 quote with
    | none =>
      simp only [hidx] at h
      cases h
    | some e =>
      rw [hidx] at h
      dsimp only at h
      have hslow : (match strconv.unquoteLoop quote in1.length in1 [] with
          | none => none
          | some (buf, in_) =>
            match in_ with
            | [] => none
            | c :: rem => if c ≠ quote then none else if rem.length > 0 then none else some buf)
          = some u → ∀ b ∈ u, b ≠ 63 := by
        intro h
        cases hl : strconv.unquoteLoop quote in1.length in1 [] with
        | none =>
          simp only [hl] at h
          cases h
        | some p =>
          obtain ⟨buf, in_⟩ := p
          rw [hl] at h
          dsimp only at h
          cases in_ with
          | nil => cases h
          | cons c rem =>
            dsimp only at h
            split_ifs at h
            cases h
            exact unquoteLoop_no_questionMark quote _ in1 [] _ _ hl
              (fun b hb => hs b (List.mem_cons_of_mem _ hb)) (by simp)
      split_ifs at h
      all_goals first
        | exact hslow h
        | (cases h; done)
        | (cases h
           intro b hb
           first
             | exact hsub _ b hb
             | exact hsub _ b (List.mem_of_mem_filter hb))

/-- The escaped form of a name without backslash and `?` holds no `?`. -/
theorem questionMarks_EscapeName (n : GoString) (h : ∀ b ∈ n, b ≠ 63 ∧ b ≠ 92) :
    questionMarks (EscapeName strconv.Unquote n) = 0 := by
  have q : questionMarks (lit "`") = 0 := by decide
  unfold EscapeName
  cases hu : strconv.Unquote n with
  | none =>
    have hq : questionMarks n = 0 := List.count_eq_zero.mpr fun hb => (h 63 hb).1 rfl
    simp only [questionMarks_append, q, hq]
  | some u =>
    have hq : questionMarks u = 0 :=
      List.count_eq_zero.mpr fun hb => Unquote_no_questionMark n u hu h 63 hb rfl
    simp only [questionMarks_append, q, hq]

/-- C25 (amended): for every non-empty list of non-empty column names that contain no `?` and
no backslash, with every value text equal to "?" and as many values and args as columns,
`BuildRangeComparison` succeeds for each of the signs `<`, `<=`, `>`, `>=`, and the number of
`?` bytes in its text equals the length of the returned `explodedArgs`. -/
theorem BuildRangeComparison_placeholders (columns values : List GoString) (args : List Value)
    (sign : GoString) (hn : columns ≠ [])
    (hc : ∀ c ∈ columns, c ≠ [] ∧ ∀ b ∈ c, b ≠ 63 ∧ b ≠ 92)
    (hlv : values.length = columns.length) (hv : ∀ v ∈ values, v = lit "?")
    (hla : args.length = columns.length)
    (hs : sign = LessThanComparisonSign ∨ sign = LessThanOrEqualsComparisonSign ∨
      sign = GreaterThanComparisonSign ∨ sign = GreaterThanOrEqualsComparisonSign) :
    ∃ text explodedArgs,
      BuildRangeComparison strconv.Unquote columns values args sign =
        some (text, explodedArgs, none) ∧
      questionMarks text = explodedArgs.length :=
  rangePlaceholders strconv.Unquote columns values args sign hn hlv.symm hla.symm
    (fun c h => ⟨(hc c h).1, questionMarks_EscapeName c (hc c h).2⟩) hv hs

set_option maxRecDepth 10000 in
/-- C25 (amended) at the columns `id` and `"name"` (in double quotes) with the sign `<=`: five
`?` and five arguments. -/
theorem BuildRangeComparison_placeholders_witness :
    (∃ text explodedArgs,
      BuildRangeComparison strconv.Unquote [lit "id", lit "\"name\""] [lit "?", lit "?"]
        [.int 1, .int 2] (lit "<=") = some (text, explodedArgs, none) ∧
      questionMarks text = explodedArgs.length) ∧
    BuildRangeComparison strconv.Unquote [lit "id", lit "\"name\""] [lit "?", lit "?"]
        [.int 1, .int 2] (lit "<=") =
      some (lit "((`id` < ?) or (((`id` = ?)) AND (`name` < ?)) or ((`id` = ?) and (`name` = ?)))",
        [.int 1, .int 1, .int 2, .int 1, .int 2], none) :=
  ⟨BuildRangeComparison_placeholders [lit "id", lit "\"name\""] [lit "?", lit "?"]
    [.int 1, .int 2] (lit "<=") (by decide) (by decide) (by decide) (by decide) (by decide)
    (by decide), by decide⟩

set_option maxRecDepth 10000 in
/-- C25 as stated fails: the column name `"\x3f"` (six bytes, in double quotes) is not empty and
holds no `?`, `strconv.Unquote` turns it into `?`, and the text `BuildRangeComparison` returns
for the sign `<` holds two `?` with one exploded argument. -/
theorem BuildRangeComparison_placeholders_escaped_name :
    lit "\"\\x3f\"" ≠ [] ∧ questionMarks (lit "\"\\x3f\"") = 0 ∧
    BuildRangeComparison strconv.Unquote [lit "\"\\x3f\""] [lit "?"] [.int 1] (lit "<") =
      some (lit "((`?` < ?))", [.int 1], none) ∧
    questionMarks (lit "((`?` < ?))") = 2 ∧ [Value.int 1].length = 1 := by
  refine ⟨by decide, by decide, by decide, by decide, by decide⟩

end Sql
